import Mathlib

/-!
Shallow embedding of the SubStation Alpha (.ass) parsing and serialization
engine of the `sub-tools` repository (`src/ass.rs`, with the Japanese text
detection of `src/japanese.rs` and the dialogue type of `src/srt.rs`).

Rust `&str` values are modelled as `List Char` (a Rust string is a sequence
of Unicode scalar values).  Machine integers are modelled as `Nat` together
with the bound checks the Rust parsing functions perform; a `u8`/`u16`/`u32`
parse fails (returns `None`) on overflow exactly as Rust's `str::parse`
does.  `std::time::Duration` is modelled as a total number of nanoseconds.
-/

namespace SubTools

/-- A Rust string slice, as its sequence of Unicode scalar values. -/
abbrev Str := List Char

/-- Convenience injection of Lean string literals into the model. -/
def str (s : String) : Str := s.data

/-- Is `c` an ASCII decimal digit (`char::is_ascii_digit`)? -/
def isAsciiDigit (c : Char) : Bool := decide (48 ≤ c.toNat ∧ c.toNat ≤ 57)

/-- Is `c` an ASCII hexadecimal digit (upper or lower case)? -/
def isHexDigit (c : Char) : Bool :=
  decide ((48 ≤ c.toNat ∧ c.toNat ≤ 57) ∨ (65 ≤ c.toNat ∧ c.toNat ≤ 70) ∨
    (97 ≤ c.toNat ∧ c.toNat ≤ 102))

/-- The decimal digit character for `n < 10`. -/
def digitChar (n : Nat) : Char :=
  match n with
  | 0 => '0' | 1 => '1' | 2 => '2' | 3 => '3' | 4 => '4'
  | 5 => '5' | 6 => '6' | 7 => '7' | 8 => '8' | _ => '9'

/-- The uppercase hexadecimal digit character for `n < 16` (`{:02X}` digits). -/
def hexDigitChar (n : Nat) : Char :=
  match n with
  | 0 => '0' | 1 => '1' | 2 => '2' | 3 => '3' | 4 => '4'
  | 5 => '5' | 6 => '6' | 7 => '7' | 8 => '8' | 9 => '9'
  | 10 => 'A' | 11 => 'B' | 12 => 'C' | 13 => 'D' | 14 => 'E' | _ => 'F' 

/-- Value of a string of decimal digits (most significant first). -/
def decDigitsVal (s : Str) : Nat := s.foldl (fun a c => a * 10 + (c.toNat - 48)) 0

/-- Value of one hexadecimal digit character. -/
def hexVal (c : Char) : Nat :=
  if c.toNat ≤ 57 then c.toNat - 48
  else if 97 ≤ c.toNat then c.toNat - 87
  else c.toNat - 55

/-- Value of a string of hexadecimal digits (most significant first). -/
def hexDigitsVal (s : Str) : Nat := s.foldl (fun a c => a * 16 + hexVal c) 0

/-- The digit-sequence stage shared by the sign-handling integer parsers:
at least one digit, value below the bound, and a `-` sign (recorded in
`neg`) only accepted for the value `0`. -/
def parseDigitsCore (bound : Nat) (neg : Bool) (digits : Str) : Option Nat :=
  if digits.isEmpty then none
  else if digits.all isAsciiDigit then
    if decDigitsVal digits < bound then
      if neg && decDigitsVal digits != 0 then none else some (decDigitsVal digits)
    else none
  else none

/-- Model of Rust `str::parse::<uN>()` for an unsigned integer type with
`bound = 2^N`: an optional leading `+` or `-` sign followed by at least one
ASCII decimal digit; a `-` sign is only accepted for the value `0`, and any
value `≥ bound` is an overflow error. -/
def parseUnsigned (bound : Nat) (s : Str) : Option Nat :=
  match s with
  | [] => parseDigitsCore bound false []
  | c :: rest =>
    if c = '+' then parseDigitsCore bound false rest
    else if c = '-' then parseDigitsCore bound true rest
    else parseDigitsCore bound false (c :: rest)

/-- The hexadecimal digit-sequence stage of `parseHex`. -/
def parseHexCore (bound : Nat) (neg : Bool) (digits : Str) : Option Nat :=
  if digits.isEmpty then none
  else if digits.all isHexDigit then
    if hexDigitsVal digits < bound then
      if neg && hexDigitsVal digits != 0 then none else some (hexDigitsVal digits)
    else none
  else none

/-- Model of Rust `uN::from_str_radix(s, 16)`: same sign handling as
`parseUnsigned`, with hexadecimal digits of either case. -/
def parseHex (bound : Nat) (s : Str) : Option Nat :=
  match s with
  | [] => parseHexCore bound false []
  | c :: rest =>
    if c = '+' then parseHexCore bound false rest
    else if c = '-' then parseHexCore bound true rest
    else parseHexCore bound false (c :: rest)

/-- Decimal digits of `n`, most significant first, computed with enough fuel;
`natRepr` below instantiates the fuel.  (Fuel keeps the recursion structural
so that proofs can evaluate the function by `rfl`/`decide`.) -/
def natDigitsAux : Nat → Nat → Str
  | 0, _ => []
  | fuel + 1, n =>
    if n < 10 then [digitChar n]
    else natDigitsAux fuel (n / 10) ++ [digitChar (n % 10)]

/-- Model of Rust's `Display` for unsigned integers: plain decimal digits,
no sign, no padding. -/
def natRepr (n : Nat) : Str := natDigitsAux (n + 1) n

/-- Model of Rust's `{:02}` format: zero-pad the decimal form to width 2. -/
def pad2 (n : Nat) : Str := if n < 10 then '0' :: natRepr n else natRepr n

/-- Model of Rust's `{:02X}` format for a byte value `b < 256`: exactly two
uppercase hexadecimal digits. -/
def hex2 (b : Nat) : Str := [hexDigitChar (b / 16), hexDigitChar (b % 16)]

/-- Is the first string a prefix of the second (Rust `str::starts_with`)?
Defined by recursion on the pattern only, so that it reduces definitionally
when the pattern is concrete and the subject has a concrete prefix. -/
def strStartsWith : Str → Str → Bool
  | [], _ => true
  | a :: as, s =>
    match s with
    | [] => false
    | b :: bs => a == b && strStartsWith as bs

/-- Split at the first occurrence of the character `c`
(Rust `str::split_once(c)`): `none` when `c` does not occur. -/
def splitOnceChar (c : Char) : Str → Option (Str × Str)
  | [] => none
  | x :: xs =>
    if x = c then some ([], xs)
    else (splitOnceChar c xs).map (fun p => (x :: p.1, p.2))

/-- Split at every occurrence of the character `c` (Rust `str::split(c)`):
always yields at least one piece, and `n` separators yield `n + 1` pieces. -/
def splitOnChar (c : Char) : Str → List Str
  | [] => [[]]
  | x :: xs =>
    match splitOnChar c xs with
    | [] => [[]]
    | t :: ts => if x = c then [] :: t :: ts else (x :: t) :: ts

/-- Helper for `splitNChar`: `fuel` is the number of splits still allowed. -/
def splitNAux (c : Char) : Nat → Str → List Str
  | 0, s => [s]
  | fuel + 1, s =>
    match splitOnceChar c s with
    | none => [s]
    | some (a, b) => a :: splitNAux c fuel b

/-- Rust `str::splitn(n, c)`: at most `n` pieces, the last piece being the
unsplit remainder; `splitn(0, c)` yields no pieces at all. -/
def splitNChar (n : Nat) (c : Char) (s : Str) : List Str :=
  match n with
  | 0 => []
  | m + 1 => splitNAux c m s

/-- Split at the first occurrence of the (nonempty) separator string `sep`
(Rust `str::split_once(sep)`). -/
def splitOnceSeq (sep : Str) : Str → Option (Str × Str)
  | [] => none
  | x :: xs =>
    if strStartsWith sep (x :: xs) then some ([], (x :: xs).drop sep.length)
    else (splitOnceSeq sep xs).map (fun p => (x :: p.1, p.2))

/-- Helper for `splitSeq`, with fuel keeping the recursion structural. -/
def splitSeqAux (sep : Str) : Nat → Str → List Str
  | 0, s => [s]
  | fuel + 1, s =>
    match splitOnceSeq sep s with
    | none => [s]
    | some (a, b) => a :: splitSeqAux sep fuel b

/-- Rust `str::split(sep)` for a nonempty separator string `sep`. -/
def splitSeq (sep : Str) (s : Str) : List Str := splitSeqAux sep (s.length + 1) s

/-- Join a list of pieces with the separator character `c` between them
(left inverse of `splitOnChar c` for `c`-free pieces). -/
def joinChar (c : Char) : List Str → Str
  | [] => []
  | [x] => x
  | x :: y :: xs => x ++ c :: joinChar c (y :: xs)

/-- Is `c` whitespace for Rust's `char::is_whitespace` (the Unicode
`White_Space` property)? -/
def isRustWhitespace (c : Char) : Bool :=
  let n := c.toNat
  decide ((9 ≤ n ∧ n ≤ 13) ∨ n = 32 ∨ n = 133 ∨ n = 160 ∨ n = 0x1680 ∨
    (0x2000 ≤ n ∧ n ≤ 0x200A) ∨ n = 0x2028 ∨ n = 0x2029 ∨ n = 0x202F ∨
    n = 0x205F ∨ n = 0x3000)

/-- Rust `str::trim_end`: remove trailing whitespace. -/
def trimEnd (s : Str) : Str := (s.reverse.dropWhile isRustWhitespace).reverse

/-- Remove one trailing carriage return, if present (the `\r` handling of
Rust's `str::lines` / `BufRead::lines`). -/
def stripCR (s : Str) : Str := if s.getLast? = some '\r' then s.dropLast else s

/-- Split a buffer into raw lines at `'\n'` (every piece, including a final
empty piece when the buffer ends with `'\n'`). -/
def splitLinesRaw (s : Str) : List Str := splitOnChar '\n' s

/-- Model of Rust `str::lines` (and of the line splitting performed by
`BufRead::lines`): split at `'\n'`, do not yield a final empty line for a
trailing newline, and strip one `'\r'` from the end of each line. -/
def rustLines (s : Str) : List Str :=
  let parts := splitLinesRaw s
  let parts := if parts.getLast? = some [] then parts.dropLast else parts
  parts.map stripCR

/-- Model of `BufRead::read_line`: the first line including its trailing
`'\n'` (if any), together with the rest of the stream. -/
def readLine : Str → Str × Str
  | [] => ([], [])
  | x :: xs =>
    if x = '\n' then ([x], xs)
    else
      let p := readLine xs
      (x :: p.1, p.2)

/-- Strip a single leading U+FEFF byte-order mark
(Rust `str::strip_prefix('\u{feff}')`, with the original string kept when
no BOM is present). -/
def dropBOM (s : Str) : Str :=
  match s with
  | [] => []
  | c :: rest => if c = '\uFEFF' then rest else c :: rest

/-- Colour used in a style (`struct Colour`): four independent byte
channels. -/
structure Colour where
  red : Nat
  green : Nat
  blue : Nat
  alpha : Nat
deriving DecidableEq, Repr

/-- `Colour::from_ass`: `&H` followed by a 32-bit hex number in `AABBGGRR`
byte order. -/
def Colour.fromAss (s : Str) : Option Colour :=
  match s with
  | '&' :: 'H' :: rest =>
    (parseHex (2 ^ 32) rest).map fun num =>
      ⟨num % 256, num / 2 ^ 8 % 256, num / 2 ^ 16 % 256, num / 2 ^ 24 % 256⟩
  | _ => none

/-- The `Display` implementation for `Colour`:
`&H{a:02X}{b:02X}{g:02X}{r:02X}`. -/
def Colour.render (c : Colour) : Str :=
  '&' :: 'H' :: (hex2 c.alpha ++ hex2 c.blue ++ hex2 c.green ++ hex2 c.red)

/-- `Colour::WHITE` (via `Colour::from_rgb`). -/
def Colour.white : Colour := ⟨255, 255, 255, 0⟩

/-- `Colour::BLACK`. -/
def Colour.black : Colour := ⟨0, 0, 0, 0⟩

/-- `Colour::RED`. -/
def Colour.redC : Colour := ⟨255, 0, 0, 0⟩

/-- Stage 1 of `ass_timestamp_to_duration`: split `H:MM:SS.cc` into its four
numeric fields.  The left part of the single `.` split must consist of
exactly three `:`-separated parts; hours, minutes and seconds are parsed as
`u64` and the fractional part as `u32`. -/
def assTimestampFields (s : Str) : Option (Nat × Nat × Nat × Nat) :=
  (splitOnceChar '.' s).bind fun p =>
    match splitNChar 3 ':' p.1 with
    | [h, m, sec] =>
      (parseUnsigned (2 ^ 64) h).bind fun hours =>
        (parseUnsigned (2 ^ 64) m).bind fun minutes =>
          (parseUnsigned (2 ^ 64) sec).bind fun seconds =>
            (parseUnsigned (2 ^ 32) p.2).map fun cs => (hours, minutes, seconds, cs)
    | _ => none

/-- Stage 2 of `ass_timestamp_to_duration`: build the duration (total
nanoseconds).  `cs * 10_000_000` is a `u32` multiplication and the seconds
sum a `u64` computation: arithmetic overflow aborts the program in debug
builds (and `Duration::new` always panics when the nanosecond carry
overflows the seconds); executions that abort are modelled as parse
failures, so a successful parse never involves a wrapped value. -/
def ass_timestamp_to_duration (s : Str) : Option Nat :=
  (assTimestampFields s).bind fun f =>
    let nanos := f.2.2.2 * 10000000
    let secs := f.1 * 3600 + f.2.1 * 60 + f.2.2.1
    if nanos < 2 ^ 32 ∧ secs < 2 ^ 64 ∧ secs + nanos / 10 ^ 9 < 2 ^ 64 then
      some (secs * 10 ^ 9 + nanos)
    else none

/-- The `Display` implementation for `AssDuration`: truncate the stored
milliseconds to centiseconds, then print `H:MM:SS.cc` with unpadded hours
and 2-digit zero-padded minutes, seconds and centiseconds. -/
def assDurationRender (d : Nat) : Str :=
  let centi := d / 10 ^ 6 / 10
  natRepr (centi / 360000) ++ ':' :: pad2 (centi / 6000 % 60) ++
    ':' :: pad2 (centi / 100 % 60) ++ '.' :: pad2 (centi % 100)

/-- The error kinds of `enum ErrorKind`.  The `Io` payload is dropped: the
pure model performs no I/O, so an `Io` error can never arise here. -/
inductive ErrorKind where
  | Io
  | Invalid
  | MissingScriptInfo
  | MissingStyleFormat
  | InvalidStyle
  | InvalidEventType
  | InvalidEvent
deriving DecidableEq, Repr

/-- `struct Error`: an error kind together with the 1-based line number
attached by the parse loop (`Error::with_line`). -/
structure AssError where
  kind : ErrorKind
  line : Nat
deriving DecidableEq, Repr

/-- `enum Line`: one classified line of an `.ass` file. -/
inductive Line where
  | Variable (s : Str)
  | Comment (s : Str)
  | Encoded (s : Str)
  | Empty
deriving DecidableEq, Repr

/-- The separator `": "` used by `Line::item` and `Line::parse`. -/
def colonSpace : Str := [':', ' ']

/-- `Line::parse`: empty → `Empty`; leading `;` → `Comment` (rest kept);
contains `": "` → `Variable` (whole line kept); at most 80 bytes all in
ASCII range `[33, 97)` → `Encoded`; otherwise no classification.  (A string
whose bytes are all in `[33, 97)` is pure ASCII, so its byte length equals
its character length.) -/
def Line.parse (s : Str) : Option Line :=
  match s with
  | [] => some .Empty
  | c :: rest =>
    if c = ';' then some (.Comment rest)
    else if (splitOnceSeq colonSpace (c :: rest)).isSome then some (.Variable (c :: rest))
    else if (c :: rest).length ≤ 80 ∧
        (c :: rest).all (fun ch => decide (33 ≤ ch.toNat ∧ ch.toNat < 97)) then
      some (.Encoded (c :: rest))
    else none

/-- `Line::item`: the key/value split of a `Variable` line at the first
`": "`; `None` for every other line kind. -/
def Line.item : Line → Option (Str × Str)
  | .Variable v => splitOnceSeq colonSpace v
  | _ => none

/-- `Line::variable`: build a `Variable` line from a key and a value. -/
def Line.mkVariable (key value : Str) : Line := .Variable (key ++ colonSpace ++ value)

/-- `Line::is_empty`. -/
def Line.isEmptyLine : Line → Bool
  | .Empty => true
  | _ => false

/-- `Line::is_encoded`. -/
def Line.isEncoded : Line → Bool
  | .Encoded _ => true
  | _ => false

/-- The `ToAss` implementation for `Line`, without the trailing newline that
`writeln!` appends (the serializer adds it per line). -/
def Line.render : Line → Str
  | .Variable s => s
  | .Comment c => ';' :: c
  | .Encoded e => e
  | .Empty => []

/-- `enum EventKind`. -/
inductive EventKind where
  | Dialogue
  | Comment
  | Movie
  | Sound
  | Picture
deriving DecidableEq, Repr

/-- The `FromStr` implementation for `EventKind`; `none` stands for
`Err(ErrorKind::InvalidEventType)`, mapped back to that kind at the one
call site. -/
def EventKind.fromStr (s : Str) : Option EventKind :=
  if s = str "Dialogue" then some .Dialogue
  else if s = str "Comment" then some .Comment
  else if s = str "Movie" then some .Movie
  else if s = str "Sound" then some .Sound
  else if s = str "Picture" then some .Picture
  else none

/-- `EventKind::as_str`. -/
def EventKind.asStr : EventKind → Str
  | .Dialogue => str "Dialogue"
  | .Comment => str "Comment"
  | .Movie => str "Movie"
  | .Sound => str "Sound"
  | .Picture => str "Picture"

/-- Abstract model of the `f32` codec the style fields use: the field type,
Rust's `f32::from_str` (`fparse`), Rust's `Display for f32` (`frender`) and
the injection of the whole-number float literals appearing in the source
(`100.0`, `0.0`, `1.0`, `2.0`, `3.0`).  The roundtrip contract of the Rust
standard library (`Display` output parses back to the same value) is taken
as a hypothesis by the theorems that need it. -/
structure F32Model where
  F : Type
  fparse : Str → Option F
  frender : F → Str
  ofNat : Nat → F

/-- `struct Style`: the 23 style fields. -/
structure Style (M : F32Model) where
  name : Str
  fontName : Str
  fontSize : Nat
  primaryColour : Colour
  secondaryColour : Colour
  outlineColour : Colour
  backgroundColour : Colour
  bold : Bool
  italic : Bool
  underline : Bool
  striked : Bool
  scaleX : M.F
  scaleY : M.F
  spacing : M.F
  angle : M.F
  borderStyle : Nat
  outline : M.F
  shadow : M.F
  alignment : Nat
  marginL : Nat
  marginR : Nat
  marginV : Nat
  encoding : Nat

/-- The `Default` implementation for `Style`. -/
def Style.defaultStyle (M : F32Model) : Style M where
  name := str "Default"
  fontName := str "Arial"
  fontSize := 20
  primaryColour := Colour.white
  secondaryColour := Colour.redC
  outlineColour := Colour.black
  backgroundColour := Colour.black
  bold := false
  italic := false
  underline := false
  striked := false
  scaleX := M.ofNat 100
  scaleY := M.ofNat 100
  spacing := M.ofNat 0
  angle := M.ofNat 0
  borderStyle := 1
  outline := M.ofNat 2
  shadow := M.ofNat 2
  alignment := 2
  marginL := 10
  marginR := 10
  marginV := 10
  encoding := 1

/-- `Style::program_default`: the style installed by the SRT conversion. -/
def Style.programDefault (M : F32Model) : Style M where
  name := str "Default"
  fontName := str "Arial"
  fontSize := 66
  primaryColour := ⟨0xFA, 0xFA, 0xFA, 0⟩
  secondaryColour := Colour.redC
  outlineColour := ⟨0xB6, 0x73, 0xF2, 0⟩
  backgroundColour := Colour.black
  bold := false
  italic := false
  underline := false
  striked := false
  scaleX := M.ofNat 100
  scaleY := M.ofNat 100
  spacing := M.ofNat 1
  angle := M.ofNat 0
  borderStyle := 1
  outline := M.ofNat 3
  shadow := M.ofNat 0
  alignment := 2
  marginL := 10
  marginR := 10
  marginV := 20
  encoding := 1

/-- `struct Event`.  `endTime` stands for the Rust field `end` (a reserved
word in Lean); durations are total nanoseconds. -/
structure Event where
  kind : EventKind
  layer : Nat
  start : Nat
  endTime : Nat
  style : Str
  name : Str
  marginL : Nat
  marginR : Nat
  marginV : Nat
  effect : Str
  text : Str
deriving DecidableEq, Repr

/-- The `Default` implementation for `Event`. -/
def Event.defaultEvent : Event where
  kind := .Dialogue
  layer := 0
  start := 0
  endTime := 0
  style := str "Default"
  name := []
  marginL := 0
  marginR := 0
  marginV := 0
  effect := []
  text := []

/-- The hardcoded canonical Styles `Format` directive (field-name part). -/
def stylesFormatStr : Str :=
  str "Name, Fontname, Fontsize, PrimaryColour, SecondaryColour, OutlineColour, BackColour, Bold, Italic, Underline, StrikeOut, ScaleX, ScaleY, Spacing, Angle, BorderStyle, Outline, Shadow, Alignment, MarginL, MarginR, MarginV, Encoding"

/-- The hardcoded canonical Events `Format` directive (field-name part). -/
def eventsFormatStr : Str :=
  str "Layer, Start, End, Style, Name, MarginL, MarginR, MarginV, Effect, Text"

/-- The canonical Styles format as a field-name list (`DEFAULT_FORMAT.split(", ")`). -/
def canonStylesFormat : List Str := splitSeq (str ", ") stylesFormatStr

/-- The canonical Events format as a field-name list. -/
def canonEventsFormat : List Str := splitSeq (str ", ") eventsFormatStr

/-- `struct StylesSection`: the active format and the parsed styles. -/
structure StylesSection (M : F32Model) where
  format : List Str
  styles : List (Style M)

/-- `struct EventsSection`. -/
structure EventsSection where
  format : List Str
  events : List Event
deriving DecidableEq, Repr

/-- One `match` arm of the field loop in `StylesSection::style_from_format`:
apply a `(format name, token)` pair to the style under construction.  A
known name routes to its typed parser (failure fails the row); an unknown
name is ignored. -/
def applyStyleField (M : F32Model) (st : Style M) (nv : Str × Str) : Option (Style M) :=
  if nv.1 = str "Name" then some { st with name := nv.2 }
  else if nv.1 = str "Fontname" then some { st with fontName := nv.2 }
  else if nv.1 = str "Fontsize" then
    (parseUnsigned (2 ^ 8) nv.2).map (fun v => { st with fontSize := v })
  else if nv.1 = str "PrimaryColour" then
    (Colour.fromAss nv.2).map (fun c => { st with primaryColour := c })
  else if nv.1 = str "SecondaryColour" then
    (Colour.fromAss nv.2).map (fun c => { st with secondaryColour := c })
  else if nv.1 = str "OutlineColour" then
    (Colour.fromAss nv.2).map (fun c => { st with outlineColour := c })
  else if nv.1 = str "BackColour" then
    (Colour.fromAss nv.2).map (fun c => { st with backgroundColour := c })
  else if nv.1 = str "Bold" then some { st with bold := nv.2 ≠ str "0" }
  else if nv.1 = str "Italic" then some { st with italic := nv.2 ≠ str "0" }
  else if nv.1 = str "Underline" then some { st with underline := nv.2 ≠ str "0" }
  else if nv.1 = str "StrikeOut" then some { st with striked := nv.2 ≠ str "0" }
  else if nv.1 = str "ScaleX" then (M.fparse nv.2).map (fun v => { st with scaleX := v })
  else if nv.1 = str "ScaleY" then (M.fparse nv.2).map (fun v => { st with scaleY := v })
  else if nv.1 = str "Spacing" then (M.fparse nv.2).map (fun v => { st with spacing := v })
  else if nv.1 = str "Angle" then (M.fparse nv.2).map (fun v => { st with angle := v })
  else if nv.1 = str "BorderStyle" then
    (parseUnsigned (2 ^ 8) nv.2).map (fun v => { st with borderStyle := v })
  else if nv.1 = str "Outline" then (M.fparse nv.2).map (fun v => { st with outline := v })
  else if nv.1 = str "Shadow" then (M.fparse nv.2).map (fun v => { st with shadow := v })
  else if nv.1 = str "Alignment" then
    (parseUnsigned (2 ^ 8) nv.2).map (fun v => { st with alignment := v })
  else if nv.1 = str "MarginL" then
    (parseUnsigned (2 ^ 16) nv.2).map (fun v => { st with marginL := v })
  else if nv.1 = str "MarginR" then
    (parseUnsigned (2 ^ 16) nv.2).map (fun v => { st with marginR := v })
  else if nv.1 = str "MarginV" then
    (parseUnsigned (2 ^ 16) nv.2).map (fun v => { st with marginV := v })
  else if nv.1 = str "Encoding" then
    (parseUnsigned (2 ^ 8) nv.2).map (fun v => { st with encoding := v })
  else some st

/-- `StylesSection::style_from_format`: start from the default style, split
the data row at every `','`, zip positionally with the active format and
apply each pair. -/
def StylesSection.style_from_format {M : F32Model} (sec : StylesSection M)
    (data : Str) : Option (Style M) :=
  (sec.format.zip (splitOnChar ',' data)).foldlM (applyStyleField M) (Style.defaultStyle M)

/-- One `match` arm of the field loop in `EventsSection::event_from_format`. -/
def applyEventField (ev : Event) (nv : Str × Str) : Option Event :=
  if nv.1 = str "Layer" then
    (parseUnsigned (2 ^ 8) nv.2).map (fun v => { ev with layer := v })
  else if nv.1 = str "Start" then
    (ass_timestamp_to_duration nv.2).map (fun d => { ev with start := d })
  else if nv.1 = str "End" then
    (ass_timestamp_to_duration nv.2).map (fun d => { ev with endTime := d })
  else if nv.1 = str "Style" then some { ev with style := nv.2 }
  else if nv.1 = str "Name" then some { ev with name := nv.2 }
  else if nv.1 = str "MarginL" then
    (parseUnsigned (2 ^ 16) nv.2).map (fun v => { ev with marginL := v })
  else if nv.1 = str "MarginR" then
    (parseUnsigned (2 ^ 16) nv.2).map (fun v => { ev with marginR := v })
  else if nv.1 = str "MarginV" then
    (parseUnsigned (2 ^ 16) nv.2).map (fun v => { ev with marginV := v })
  else if nv.1 = str "Effect" then some { ev with effect := nv.2 }
  else if nv.1 = str "Text" then some { ev with text := nv.2 }
  else some ev

/-- `EventsSection::event_from_format`: like the styles version, but the
data row is split with `splitn(format.len(), ',')`, so the final format
field receives the entire remainder. -/
def EventsSection.event_from_format (sec : EventsSection) (kind : EventKind)
    (data : Str) : Option Event :=
  (sec.format.zip (splitNChar sec.format.length ',' data)).foldlM applyEventField
    { Event.defaultEvent with kind := kind }

/-- `SectionParse for ScriptInfo`: an `Encoded` line is invalid, every other
line is appended. -/
def scriptInfoProcess (lines : List Line) (l : Line) : Except ErrorKind (List Line) :=
  if l.isEncoded then .error .Invalid else .ok (lines ++ [l])

/-- `SectionParse for GenericSection`: every line is appended. -/
def genericProcess (lines : List Line) (l : Line) : Except ErrorKind (List Line) :=
  .ok (lines ++ [l])

/-- `SectionParse for StylesSection`. -/
def StylesSection.processLine {M : F32Model} (sec : StylesSection M) (l : Line) :
    Except ErrorKind (StylesSection M) :=
  if l.isEmptyLine then .ok sec
  else
    match l.item with
    | none => .error .Invalid
    | some (key, value) =>
      if key = str "Format" then .ok { sec with format := splitSeq (str ", ") value }
      else if key = str "Style" then
        if sec.format.isEmpty then .error .MissingStyleFormat
        else
          match sec.style_from_format value with
          | some st => .ok { sec with styles := sec.styles ++ [st] }
          | none => .error .InvalidStyle
      else .error .Invalid

/-- `SectionParse for EventsSection`.  Note that a row whose fields fail to
parse reuses `ErrorKind::InvalidStyle`, exactly as in the source. -/
def EventsSection.processLine (sec : EventsSection) (l : Line) :
    Except ErrorKind EventsSection :=
  if l.isEmptyLine then .ok sec
  else
    match l.item with
    | none => .error .Invalid
    | some (key, value) =>
      if key = str "Format" then .ok { sec with format := splitSeq (str ", ") value }
      else
        match EventKind.fromStr key with
        | none => .error .InvalidEventType
        | some k =>
          if sec.format.isEmpty then .error .MissingStyleFormat
          else
            match sec.event_from_format k value with
            | some ev => .ok { sec with events := sec.events ++ [ev] }
            | none => .error .InvalidStyle

/-- `enum Section`. -/
inductive Section (M : F32Model) where
  | ScriptInfo (lines : List Line)
  | Styles (s : StylesSection M)
  | Events (e : EventsSection)
  | Generic (title : Str) (lines : List Line)

/-- `SectionParse for Section`: dispatch on the open section's kind. -/
def Section.processLine {M : F32Model} : Section M → Line → Except ErrorKind (Section M)
  | .ScriptInfo ls, l => (scriptInfoProcess ls l).map Section.ScriptInfo
  | .Styles ss, l => (ss.processLine l).map Section.Styles
  | .Events es, l => (es.processLine l).map Section.Events
  | .Generic t ls, l => (genericProcess ls l).map (Section.Generic t)

/-- `get_generic_section_title`: the text inside `[` … `]`. -/
def getGenericSectionTitle (s : Str) : Option Str :=
  match s with
  | [] => none
  | c :: rest =>
    if c = '[' then
      if rest.getLast? = some ']' then some rest.dropLast else none
    else none

/-- `struct Ass`: the parsed document, sections in file order. -/
structure Ass (M : F32Model) where
  sections : List (Section M)

/-- One iteration of the shared parse-loop body of `Ass::from_reader` and
the `FromStr` implementation for `Ass`, on line `l`: the resulting section
state, or the error that aborts the parse.

The section list is kept in reverse order (head = most recently opened
section, Rust's `sections.last_mut()`); the entry points reverse it at the
end.  `strMode` selects the one difference between the two loops: only the
`FromStr` loop has a branch opening a new `ScriptInfo` section for a line
equal to `[Script Info]`.  `n` is the 1-based number of this line, attached
to errors (`Error::with_line`, and the directly constructed `Invalid` error
when no section is open).  An unclassifiable line (`Line::parse` returns
nothing) is skipped, leaving the state unchanged. -/
def runStep (M : F32Model) (strMode : Bool) (n : Nat) (l : Str)
    (secs : List (Section M)) : Except AssError (List (Section M)) :=
  if strMode ∧ l = str "[Script Info]" then .ok (.ScriptInfo [] :: secs)
  else if l = str "[V4+ Styles]" then .ok (.Styles ⟨[], []⟩ :: secs)
  else if l = str "[Events]" then .ok (.Events ⟨[], []⟩ :: secs)
  else
    match getGenericSectionTitle l with
    | some t => .ok (.Generic t [] :: secs)
    | none =>
      match secs with
      | [] => .error ⟨.Invalid, n⟩
      | cur :: others =>
        match Line.parse l with
        | none => .ok (cur :: others)
        | some pl =>
          match cur.processLine pl with
          | .ok cur' => .ok (cur' :: others)
          | .error k => .error ⟨k, n⟩

/-- The parse loop: fold `runStep` over the lines, incrementing the line
number, stopping at the first error. -/
def runLines (M : F32Model) (strMode : Bool) :
    Nat → List Str → List (Section M) → Except AssError (List (Section M))
  | _, [], secs => .ok secs
  | n, l :: rest, secs =>
    match runStep M strMode n l secs with
    | .ok secs' => runLines M strMode (n + 1) rest secs'
    | .error e => .error e

/-- The `FromStr` implementation for `Ass`: reject a buffer that does not
start with the literal prefix `[Script Info]` (no BOM stripping, a prefix
test rather than a first-line comparison), then run the line loop over all
lines, numbering from 1. -/
def Ass.fromStr (M : F32Model) (buf : Str) : Except AssError (Ass M) :=
  if strStartsWith (str "[Script Info]") buf then
    match runLines M true 1 (rustLines buf) [] with
    | .ok secs => .ok ⟨secs.reverse⟩
    | .error e => .error e
  else .error ⟨.MissingScriptInfo, 1⟩

/-- `Ass::from_reader`: read the first line, strip an optional BOM, trim
trailing whitespace, and require exactly `[Script Info]`; then run the line
loop over the remaining lines, numbering from 2, with the `ScriptInfo`
section already open. -/
def Ass.fromReader (M : F32Model) (stream : Str) : Except AssError (Ass M) :=
  let p := readLine stream
  let cleaned := trimEnd (dropBOM p.1)
  if cleaned = str "[Script Info]" then
    match runLines M false 2 (rustLines p.2) [.ScriptInfo []] with
    | .ok secs => .ok ⟨secs.reverse⟩
    | .error e => .error e
  else .error ⟨.MissingScriptInfo, 1⟩

/-- Both parse entry points under one roof: `true` is the whole-string
entry point (`FromStr`), `false` the streaming-reader entry point
(`Ass::from_reader` on the same byte sequence). -/
def parseAss (M : F32Model) (strMode : Bool) (s : Str) : Except AssError (Ass M) :=
  if strMode then Ass.fromStr M s else Ass.fromReader M s

/-- The `1`/`0` rendering of the four boolean style flags. -/
def boolField (b : Bool) : Str := if b then str "1" else str "0"

/-- The 23 comma-joined fields of a serialized `Style:` row, in the
hardcoded canonical order of `ToAss for Style`. -/
def Style.rowFields {M : F32Model} (st : Style M) : List Str :=
  [st.name, st.fontName, natRepr st.fontSize, st.primaryColour.render,
   st.secondaryColour.render, st.outlineColour.render, st.backgroundColour.render,
   boolField st.bold, boolField st.italic, boolField st.underline,
   boolField st.striked, M.frender st.scaleX, M.frender st.scaleY,
   M.frender st.spacing, M.frender st.angle, natRepr st.borderStyle,
   M.frender st.outline, M.frender st.shadow, natRepr st.alignment,
   natRepr st.marginL, natRepr st.marginR, natRepr st.marginV,
   natRepr st.encoding]

/-- `ToAss for Style`: the serialized `Style:` row (without newline). -/
def Style.toAssLine {M : F32Model} (st : Style M) : Str :=
  str "Style: " ++ joinChar ',' st.rowFields

/-- The 10 comma-joined fields of a serialized event row, in the hardcoded
canonical order of `ToAss for Event`. -/
def Event.rowFields (ev : Event) : List Str :=
  [natRepr ev.layer, assDurationRender ev.start, assDurationRender ev.endTime,
   ev.style, ev.name, natRepr ev.marginL, natRepr ev.marginR, natRepr ev.marginV,
   ev.effect, ev.text]

/-- `ToAss for Event`: the serialized event row (without newline). -/
def Event.toAssLine (ev : Event) : Str :=
  ev.kind.asStr ++ colonSpace ++ joinChar ',' ev.rowFields

/-- The lines emitted for one section by `ToAss for Section` (each line is
terminated with `'\n'` by `unlines`).  Styles and Events sections emit their
header, the hardcoded canonical `Format:` line, one row per entry and a
single trailing blank line; `ScriptInfo` and `Generic` emit their header and
their stored lines verbatim. -/
def secLines (M : F32Model) : Section M → List Str
  | .ScriptInfo ls => str "[Script Info]" :: ls.map Line.render
  | .Styles ss =>
    str "[V4+ Styles]" :: (str "Format: " ++ stylesFormatStr) ::
      (ss.styles.map Style.toAssLine ++ [[]])
  | .Events es =>
    str "[Events]" :: (str "Format: " ++ eventsFormatStr) ::
      (es.events.map Event.toAssLine ++ [[]])
  | .Generic t ls => ('[' :: (t ++ [']'])) :: ls.map Line.render

/-- Terminate every line with `'\n'` (each `writeln!` of the serializer). -/
def unlines (L : List Str) : Str := L.foldr (fun l acc => l ++ '\n' :: acc) []

/-- `Ass::save_to_writer`: serialize every section in stored order. -/
def Ass.saveToWriter {M : F32Model} (d : Ass M) : Str :=
  unlines ((d.sections.map (secLines M)).flatten)

/-- `is_japanese` from `src/japanese.rs`: Hiragana/Katakana, half-width
Katakana, and common/uncommon Kanji code-point ranges. -/
def is_japanese (c : Char) : Bool :=
  decide ((0x3040 ≤ c.toNat ∧ c.toNat ≤ 0x30ff) ∨
    (0xff66 ≤ c.toNat ∧ c.toNat ≤ 0xff9d) ∨
    (0x4e00 ≤ c.toNat ∧ c.toNat ≤ 0x9faf))

/-- `contains_japanese` from `src/japanese.rs`. -/
def contains_japanese (s : Str) : Bool := s.any is_japanese

/-- `srt::Dialogue` (durations as total nanoseconds; `endTime` stands for
the Rust field `end`). -/
structure Dialogue where
  position : Nat
  start : Nat
  endTime : Nat
  text : Str

/-- The `.replace("\n", "\\N")` pass of `srt_to_ass`. -/
def newlinesToAss : Str → Str
  | [] => []
  | c :: rest =>
    if c = '\n' then '\\' :: 'N' :: newlinesToAss rest
    else c :: newlinesToAss rest

/-- `srt_to_ass`, parametrized by its first pass `tagRewrite` (the
regex-based rewrite of `<i>`/`<b>`/`<u>`/`<s>` HTML tags into ASS override
tags, whose semantics live in the external `regex` crate); the second pass
replaces every literal newline with the two-character escape `\N`. -/
def srt_to_ass (tagRewrite : Str → Str) (line : Str) : Str :=
  newlinesToAss (tagRewrite line)

/-- The `Default` implementation for `ScriptInfo`: the default script
metadata installed by `Ass::from_srt`. -/
def scriptInfoDefault : List Line :=
  [Line.mkVariable (str "ScriptType") (str "v4.00+"),
   Line.mkVariable (str "WrapStyle") (str "0"),
   Line.mkVariable (str "ScaledBorderAndShadow") (str "yes"),
   Line.mkVariable (str "YCbCr Matrix") (str "TV.709"),
   Line.mkVariable (str "PlayResX") (str "1920"),
   Line.mkVariable (str "PlayResY") (str "1080"),
   Line.Empty]

/-- `Ass::from_srt`: default script metadata, one style (made bold and
renamed to `Yu Gothic UI` when any dialogue text contains Japanese), and one
Events section with the rewritten dialogue texts. -/
def Ass.fromSrt (M : F32Model) (tagRewrite : Str → Str) (dialogue : List Dialogue) :
    Ass M :=
  let base := Style.programDefault M
  let style :=
    if dialogue.any (fun d => contains_japanese d.text) then
      { base with bold := true, name := str "Yu Gothic UI" }
    else base
  ⟨[.ScriptInfo scriptInfoDefault,
    .Styles ⟨canonStylesFormat, [style]⟩,
    .Events ⟨canonEventsFormat,
      dialogue.map (fun d =>
        { Event.defaultEvent with
          text := srt_to_ass tagRewrite d.text
          start := d.start
          endTime := d.endTime })⟩]⟩

/-- The per-section projection used to compare the Styles content of two
documents position for position. -/
def stylesLists {M : F32Model} (D : Ass M) : List (List (Style M)) :=
  D.sections.filterMap fun s =>
    match s with
    | .Styles ss => some ss.styles
    | _ => none

/-- The per-section projection used to compare the Events content of two
documents position for position. -/
def eventsLists {M : F32Model} (D : Ass M) : List (List Event) :=
  D.sections.filterMap fun s =>
    match s with
    | .Events es => some es.events
    | _ => none

/-- A section that accepts arbitrary classified lines on re-parse
(`ScriptInfo` or `Generic`). -/
def absorbing {M : F32Model} : Section M → Prop
  | .ScriptInfo _ => True
  | .Generic _ _ => True
  | _ => False

/-- Invariant of every `Line` stored by a successful parse: rendering it
reproduces the very string it was classified from, that string contains no
newline, and it is not a section-header line. -/
def LineInv (l : Line) : Prop :=
  Line.parse (Line.render l) = some l ∧ '\n' ∉ Line.render l ∧
    getGenericSectionTitle (Line.render l) = none

/-- Byte-range invariant of a parsed colour. -/
def ColourWF (c : Colour) : Prop :=
  c.red < 256 ∧ c.green < 256 ∧ c.blue < 256 ∧ c.alpha < 256

/-- Invariant of every `Style` produced by a successful parse. -/
def StyleWF {M : F32Model} (st : Style M) : Prop :=
  (',' ∉ st.name ∧ '\n' ∉ st.name) ∧ (',' ∉ st.fontName ∧ '\n' ∉ st.fontName) ∧
    st.fontSize < 2 ^ 8 ∧ st.borderStyle < 2 ^ 8 ∧ st.alignment < 2 ^ 8 ∧
    st.encoding < 2 ^ 8 ∧ st.marginL < 2 ^ 16 ∧ st.marginR < 2 ^ 16 ∧
    st.marginV < 2 ^ 16 ∧ ColourWF st.primaryColour ∧ ColourWF st.secondaryColour ∧
    ColourWF st.outlineColour ∧ ColourWF st.backgroundColour

/-- Invariant of every parsed duration: a whole number of centiseconds that
fits in the `u64`-seconds/`u32`-nanoseconds representation. -/
def DurWF (d : Nat) : Prop := d % 10 ^ 7 = 0 ∧ d < 2 ^ 64 * 10 ^ 9

/-- Invariant of every `Event` produced by a successful parse. -/
def EventWF (ev : Event) : Prop :=
  '\n' ∉ ev.style ∧ '\n' ∉ ev.name ∧ '\n' ∉ ev.effect ∧ '\n' ∉ ev.text ∧
    ev.layer < 2 ^ 8 ∧ ev.marginL < 2 ^ 16 ∧ ev.marginR < 2 ^ 16 ∧
    ev.marginV < 2 ^ 16 ∧ DurWF ev.start ∧ DurWF ev.endTime

/-- Invariant of every section of a successfully parsed document.
`strMode` records which entry point produced it: only the whole-string
entry point excludes a Generic section titled `Script Info`. -/
def SecWF {M : F32Model} (strMode : Bool) : Section M → Prop
  | .ScriptInfo ls => ∀ l ∈ ls, LineInv l ∧ l.isEncoded = false
  | .Generic t ls =>
    (∀ l ∈ ls, LineInv l) ∧ '\n' ∉ t ∧
      (strMode = true → t ≠ str "Script Info") ∧
      t ≠ str "V4+ Styles" ∧ t ≠ str "Events"
  | .Styles ss => ∀ st ∈ ss.styles, StyleWF st
  | .Events es => ∀ ev ∈ es.events, EventWF ev

/-- Invariant of the first section of a successfully parsed document: a
`ScriptInfo` section, or (whole-string entry point only) a Generic section
whose header line starts with the literal `[Script Info]`. -/
def headOK {M : F32Model} (strMode : Bool) : List (Section M) → Prop
  | [] => False
  | .ScriptInfo _ :: _ => True
  | .Generic t _ :: _ =>
    strMode = true ∧ strStartsWith (str "[Script Info]") ('[' :: (t ++ [']'])) = true
  | _ => False

/-- `headOK` as seen from the parse loop's reversed state: the invariant of
the bottom (first-in-file) section of the stack. -/
def goodLast {M : F32Model} (strMode : Bool) : Section M → Prop
  | .ScriptInfo _ => True
  | .Generic t _ =>
    strMode = true ∧ strStartsWith (str "[Script Info]") ('[' :: (t ++ [']'])) = true
  | _ => False

/-- The parse-state invariant: the state is nonempty and its bottom section
satisfies `goodLast`. -/
def stateOK {M : F32Model} (strMode : Bool) (secs : List (Section M)) : Prop :=
  match secs.getLast? with
  | some s => goodLast strMode s
  | none => False

/-- Is the section a `ScriptInfo` section? -/
def isSI {M : F32Model} : Section M → Prop
  | .ScriptInfo _ => True
  | _ => False

/-- All invariants a successful parse establishes about its document. -/
def DocWF {M : F32Model} (strMode : Bool) (D : Ass M) : Prop :=
  (∀ sec ∈ D.sections, SecWF strMode sec) ∧ headOK strMode D.sections

/-- The extra per-event conditions under which serialize-then-re-parse
reproduces the event fields exactly: the non-final string fields must be
free of the separator and the free-text body must not end in a carriage
return. -/
def EventRT (ev : Event) : Prop :=
  ',' ∉ ev.style ∧ ',' ∉ ev.name ∧ ',' ∉ ev.effect ∧ ev.text.getLast? ≠ some '\r'

/-- `EventRT` for every event of a section. -/
def SecEventRT {M : F32Model} : Section M → Prop
  | .Events es => ∀ ev ∈ es.events, EventRT ev
  | _ => True

/-- The extra per-line condition for byte-identical re-serialization: no
stored `ScriptInfo`/`Generic` line may end in a carriage return (the line
splitter of the re-parse would strip it). -/
def SecNoCR {M : F32Model} : Section M → Prop
  | .ScriptInfo ls => ∀ l ∈ ls, (Line.render l).getLast? ≠ some '\r'
  | .Generic _ ls => ∀ l ∈ ls, (Line.render l).getLast? ≠ some '\r'
  | _ => True

/-- Canonicalization performed by one serialize/re-parse cycle: the stored
format lists are replaced by the hardcoded canonical ones, everything else
is untouched. -/
def canonSec {M : F32Model} : Section M → Section M
  | .Styles ss => .Styles ⟨canonStylesFormat, ss.styles⟩
  | .Events es => .Events ⟨canonEventsFormat, es.events⟩
  | s => s

/-- The documented contract of the Rust `f32` codec: `Display` output
parses back to the identical value. -/
def FRoundtrip (M : F32Model) : Prop := ∀ x, M.fparse (M.frender x) = some x

/-- A rendered `f32` never contains the field separator. -/
def FNoComma (M : F32Model) : Prop := ∀ x, ',' ∉ M.frender x

/-- A rendered `f32` never contains a newline. -/
def FNoNewline (M : F32Model) : Prop := ∀ x, '\n' ∉ M.frender x

/-- A concrete instantiation of the abstract `f32` codec, used by the
witness instantiations: whole numbers, rendered in plain decimal.  It
satisfies the roundtrip contract assumed of the real codec. -/
def natFloat : F32Model where
  F := Nat
  fparse := fun s => if s ≠ [] ∧ s.all isAsciiDigit then some (decDigitsVal s) else none
  frender := natRepr
  ofNat := id

/-!
## Theorems

Everything from here on is a lemma or a claim theorem about the definitions
above.
-/

/-- The numeric value of a decimal digit character. -/
theorem digitChar_toNat {n : Nat} (h : n < 10) : (digitChar n).toNat = 48 + n := by
  interval_cases n <;> rfl

/-- A decimal digit character is an ASCII digit. -/
theorem isAsciiDigit_digitChar {n : Nat} (h : n < 10) :
    isAsciiDigit (digitChar n) = true := by
  interval_cases n <;> rfl

/-- Fuel irrelevance for the decimal rendering helper. -/
theorem natDigitsAux_fuel :
    ∀ f g n : Nat, n < f → n < g → natDigitsAux f n = natDigitsAux g n := by
  intro f
  induction f with
  | zero => intro g n hf _; omega
  | succ f ih =>
    intro g n hf hg
    cases g with
    | zero => omega
    | succ g =>
      by_cases h10 : n < 10
      · simp [natDigitsAux, h10]
      · have hn10 : n / 10 < n := Nat.div_lt_self (by omega) (by omega)
        simp only [natDigitsAux, if_neg h10]
        rw [ih g (n / 10) (by omega) (by omega)]

/-- Unfolding equation for `natRepr`. -/
theorem natRepr_unfold (n : Nat) :
    natRepr n =
      if n < 10 then [digitChar n] else natRepr (n / 10) ++ [digitChar (n % 10)] := by
  show natDigitsAux (n + 1) n = _
  by_cases h10 : n < 10
  · simp [natDigitsAux, h10]
  · have hn10 : n / 10 < n := Nat.div_lt_self (by omega) (by omega)
    simp only [natDigitsAux, if_neg h10]
    rw [natDigitsAux_fuel n (n / 10 + 1) (n / 10) (by omega) (by omega)]
    rfl

/-- A rendered number is never the empty string. -/
theorem natRepr_ne_nil (n : Nat) : natRepr n ≠ [] := by
  rw [natRepr_unfold]
  split <;> simp

/-- Every character of a rendered number is an ASCII digit. -/
theorem natRepr_all_digits (n : Nat) : ∀ c ∈ natRepr n, isAsciiDigit c = true := by
  induction n using Nat.strong_induction_on with
  | _ n ih =>
    rw [natRepr_unfold]
    split
    case isTrue h =>
      intro c hc
      rw [List.mem_singleton] at hc
      subst hc
      exact isAsciiDigit_digitChar h
    case isFalse h =>
      intro c hc
      rcases List.mem_append.mp hc with hc | hc
      · exact ih _ (Nat.div_lt_self (by omega) (by omega)) c hc
      · rw [List.mem_singleton] at hc
        subst hc
        exact isAsciiDigit_digitChar (Nat.mod_lt _ (by omega))

/-- A character that is not an ASCII digit does not occur in a rendered
number. -/
theorem not_mem_natRepr {c : Char} (h : isAsciiDigit c = false) (n : Nat) :
    c ∉ natRepr n := by
  intro hm
  have := natRepr_all_digits n c hm
  rw [h] at this
  exact Bool.noConfusion this

/-- `decDigitsVal` over an appended digit. -/
theorem decDigitsVal_append_digit (a : Str) (c : Char) :
    decDigitsVal (a ++ [c]) = decDigitsVal a * 10 + (c.toNat - 48) := by
  unfold decDigitsVal
  rw [List.foldl_append]
  rfl

/-- Decoding inverts decimal rendering. -/
theorem decDigitsVal_natRepr (n : Nat) : decDigitsVal (natRepr n) = n := by
  induction n using Nat.strong_induction_on with
  | _ n ih =>
    rw [natRepr_unfold]
    split
    case isTrue h =>
      show decDigitsVal [digitChar n] = n
      unfold decDigitsVal
      simp [digitChar_toNat h]
    case isFalse h =>
      rw [decDigitsVal_append_digit,
        ih (n / 10) (Nat.div_lt_self (by omega) (by omega)),
        digitChar_toNat (Nat.mod_lt _ (by omega))]
      omega

/-- An ASCII digit is neither `+` nor `-`. -/
theorem digit_no_sign {c : Char} (h : isAsciiDigit c = true) : c ≠ '+' ∧ c ≠ '-' := by
  constructor <;> rintro rfl <;> exact absurd h (by decide)

/-- A hexadecimal digit is neither `+` nor `-`. -/
theorem hexDigit_no_sign {c : Char} (h : isHexDigit c = true) : c ≠ '+' ∧ c ≠ '-' := by
  constructor <;> rintro rfl <;> exact absurd h (by decide)

/-- `parseUnsigned` on a nonempty all-digit string below the bound. -/
theorem parseUnsigned_digits {bound : Nat} (s : Str) (hne : s ≠ [])
    (hall : s.all isAsciiDigit = true) (hb : decDigitsVal s < bound) :
    parseUnsigned bound s = some (decDigitsVal s) := by
  obtain ⟨c, cs, rfl⟩ := List.exists_cons_of_ne_nil hne
  have hc : isAsciiDigit c = true := by
    have := List.all_eq_true.mp hall c (List.mem_cons_self _ _)
    simpa using this
  obtain ⟨hplus, hminus⟩ := digit_no_sign hc
  show (if c = '+' then _ else if c = '-' then _ else parseDigitsCore bound false (c :: cs))
      = _
  rw [if_neg hplus, if_neg hminus]
  unfold parseDigitsCore
  simp [hall, hb]

/-- `parseHex` on a nonempty all-hex-digit string below the bound. -/
theorem parseHex_digits {bound : Nat} (s : Str) (hne : s ≠ [])
    (hall : s.all isHexDigit = true) (hb : hexDigitsVal s < bound) :
    parseHex bound s = some (hexDigitsVal s) := by
  obtain ⟨c, cs, rfl⟩ := List.exists_cons_of_ne_nil hne
  have hc : isHexDigit c = true := by
    have := List.all_eq_true.mp hall c (List.mem_cons_self _ _)
    simpa using this
  obtain ⟨hplus, hminus⟩ := hexDigit_no_sign hc
  show (if c = '+' then _ else if c = '-' then _ else parseHexCore bound false (c :: cs))
      = _
  rw [if_neg hplus, if_neg hminus]
  unfold parseHexCore
  simp [hall, hb]

/-- Parsing inverts decimal rendering below the bound. -/
theorem parseUnsigned_natRepr {bound n : Nat} (h : n < bound) :
    parseUnsigned bound (natRepr n) = some n := by
  rw [parseUnsigned_digits (natRepr n) (natRepr_ne_nil n)
      (List.all_eq_true.mpr fun c hc => by simpa using natRepr_all_digits n c hc)
      (by rw [decDigitsVal_natRepr]; exact h),
    decDigitsVal_natRepr]

/-- Every character of a zero-padded number is an ASCII digit. -/
theorem pad2_all_digits (n : Nat) : ∀ c ∈ pad2 n, isAsciiDigit c = true := by
  unfold pad2
  split
  case isTrue h =>
    intro c hc
    rcases List.mem_cons.mp hc with rfl | hc
    · rfl
    · exact natRepr_all_digits n c hc
  case isFalse h => exact natRepr_all_digits n

/-- A zero-padded number is nonempty. -/
theorem pad2_ne_nil (n : Nat) : pad2 n ≠ [] := by
  unfold pad2
  split
  · simp
  · exact natRepr_ne_nil n

/-- The decimal value of a zero-padded number. -/
theorem decDigitsVal_pad2 (n : Nat) : decDigitsVal (pad2 n) = n := by
  unfold pad2
  split
  case isTrue h =>
    rw [natRepr_unfold, if_pos h]
    show (0 * 10 + ('0'.toNat - 48)) * 10 + ((digitChar n).toNat - 48) = n
    rw [digitChar_toNat h, show '0'.toNat = 48 from rfl]
    omega
  case isFalse h => exact decDigitsVal_natRepr n

/-- Parsing inverts zero-padded rendering below the bound. -/
theorem parseUnsigned_pad2 {bound n : Nat} (h : n < bound) :
    parseUnsigned bound (pad2 n) = some n := by
  rw [parseUnsigned_digits (pad2 n) (pad2_ne_nil n)
      (List.all_eq_true.mpr fun c hc => by simpa using pad2_all_digits n c hc)
      (by rw [decDigitsVal_pad2]; exact h),
    decDigitsVal_pad2]

/-- A character that is not an ASCII digit does not occur in a zero-padded
number. -/
theorem not_mem_pad2 {c : Char} (h : isAsciiDigit c = false) (n : Nat) :
    c ∉ pad2 n := by
  intro hm
  have := pad2_all_digits n c hm
  rw [h] at this
  exact Bool.noConfusion this

/-- A hexadecimal digit character is a hexadecimal digit. -/
theorem isHexDigit_hexDigitChar {n : Nat} (h : n < 16) :
    isHexDigit (hexDigitChar n) = true := by
  interval_cases n <;> rfl

/-- The value of a hexadecimal digit character. -/
theorem hexVal_hexDigitChar {n : Nat} (h : n < 16) : hexVal (hexDigitChar n) = n := by
  interval_cases n <;> rfl

/-- The eight hex digits of a rendered colour decode to its packed value. -/
theorem hexDigitsVal_hex8 {a b g r : Nat} (ha : a < 256) (hb : b < 256)
    (hg : g < 256) (hr : r < 256) :
    hexDigitsVal (hex2 a ++ hex2 b ++ hex2 g ++ hex2 r) =
      ((a * 256 + b) * 256 + g) * 256 + r := by
  show List.foldl _ 0
      [hexDigitChar (a / 16), hexDigitChar (a % 16), hexDigitChar (b / 16),
       hexDigitChar (b % 16), hexDigitChar (g / 16), hexDigitChar (g % 16),
       hexDigitChar (r / 16), hexDigitChar (r % 16)] = _
  simp only [List.foldl]
  rw [hexVal_hexDigitChar (show a / 16 < 16 by omega),
    hexVal_hexDigitChar (show a % 16 < 16 by omega),
    hexVal_hexDigitChar (show b / 16 < 16 by omega),
    hexVal_hexDigitChar (show b % 16 < 16 by omega),
    hexVal_hexDigitChar (show g / 16 < 16 by omega),
    hexVal_hexDigitChar (show g % 16 < 16 by omega),
    hexVal_hexDigitChar (show r / 16 < 16 by omega),
    hexVal_hexDigitChar (show r % 16 < 16 by omega)]
  omega

/-- Every character of the hex form of a byte is a hexadecimal digit. -/
theorem hex2_all_hex {x : Nat} (h : x < 256) : ∀ c ∈ hex2 x, isHexDigit c = true := by
  intro c hc
  unfold hex2 at hc
  rcases List.mem_cons.mp hc with rfl | hc
  · exact isHexDigit_hexDigitChar (show x / 16 < 16 by omega)
  · rw [List.mem_singleton] at hc
    subst hc
    exact isHexDigit_hexDigitChar (show x % 16 < 16 by omega)

/-- Decoding inverts colour rendering for byte-valued channels. -/
theorem Colour.fromAss_render {c : Colour} (h : ColourWF c) :
    Colour.fromAss c.render = some c := by
  obtain ⟨hr, hg, hb, ha⟩ := h
  have hval := hexDigitsVal_hex8 ha hb hg hr
  have hparse : parseHex (2 ^ 32) (hex2 c.alpha ++ hex2 c.blue ++ hex2 c.green ++ hex2 c.red)
      = some (((c.alpha * 256 + c.blue) * 256 + c.green) * 256 + c.red) := by
    rw [parseHex_digits _ (by simp [hex2]) ?_ (by rw [hval]; omega), hval]
    rw [List.all_eq_true]
    intro x hx
    simp only [List.mem_append] at hx
    rcases hx with ((hx | hx) | hx) | hx
    · exact hex2_all_hex ha x hx
    · exact hex2_all_hex hb x hx
    · exact hex2_all_hex hg x hx
    · exact hex2_all_hex hr x hx
  show (parseHex (2 ^ 32) (hex2 c.alpha ++ hex2 c.blue ++ hex2 c.green ++ hex2 c.red)).map _
      = some c
  rw [hparse]
  obtain ⟨r, g, b, a⟩ := c
  simp only at hr hg hb ha
  show some (Colour.mk ((((a * 256 + b) * 256 + g) * 256 + r) % 256)
      ((((a * 256 + b) * 256 + g) * 256 + r) / 256 % 256)
      ((((a * 256 + b) * 256 + g) * 256 + r) / 65536 % 256)
      ((((a * 256 + b) * 256 + g) * 256 + r) / 16777216 % 256)) =
    some (Colour.mk r g b a)
  rw [show (((a * 256 + b) * 256 + g) * 256 + r) % 256 = r by omega,
    show (((a * 256 + b) * 256 + g) * 256 + r) / 256 % 256 = g by omega,
    show (((a * 256 + b) * 256 + g) * 256 + r) / 65536 % 256 = b by omega,
    show (((a * 256 + b) * 256 + g) * 256 + r) / 16777216 % 256 = a by omega]

/-- A successful single-character split reassembles the input, and the
piece before the separator is separator-free. -/
theorem splitOnceChar_eq_some {c : Char} :
    ∀ {s a b : Str}, splitOnceChar c s = some (a, b) → s = a ++ c :: b ∧ c ∉ a := by
  intro s
  induction s with
  | nil => intro a b h; exact absurd h (by simp [splitOnceChar])
  | cons x xs ih =>
    intro a b h
    unfold splitOnceChar at h
    split at h
    case isTrue hx =>
      subst hx
      obtain ⟨rfl, rfl⟩ := by simpa using h
      exact ⟨rfl, by simp⟩
    case isFalse hx =>
      match hrec : splitOnceChar c xs with
      | none => rw [hrec] at h; exact absurd h (by simp)
      | some (a', b') =>
        rw [hrec] at h
        obtain ⟨rfl, rfl⟩ := by simpa using h
        obtain ⟨hs, hna⟩ := ih hrec
        exact ⟨by rw [hs]; rfl, by
          intro hm
          rcases List.mem_cons.mp hm with rfl | hm
          · exact hx rfl
          · exact hna hm⟩

/-- Without an occurrence of the separator the single split fails. -/
theorem splitOnceChar_eq_none {c : Char} :
    ∀ {s : Str}, c ∉ s → splitOnceChar c s = none := by
  intro s
  induction s with
  | nil => intro _; rfl
  | cons x xs ih =>
    intro h
    unfold splitOnceChar
    rw [if_neg (by intro hx; exact h (hx ▸ List.mem_cons_self _ _)),
      ih (fun hm => h (List.mem_cons_of_mem _ hm))]
    rfl

/-- The single split at the first explicitly placed separator. -/
theorem splitOnceChar_append {c : Char} :
    ∀ (a b : Str), c ∉ a → splitOnceChar c (a ++ c :: b) = some (a, b) := by
  intro a
  induction a with
  | nil => intro b _; simp [splitOnceChar]
  | cons x xs ih =>
    intro b h
    have hx : x ≠ c := fun hx => h (hx ▸ List.mem_cons_self _ _)
    show splitOnceChar c (x :: (xs ++ c :: b)) = _
    unfold splitOnceChar
    rw [if_neg hx, ih b (fun hm => h (List.mem_cons_of_mem _ hm))]
    rfl

/-- `splitOnChar` always yields at least one piece. -/
theorem splitOnChar_ne_nil (c : Char) (s : Str) : splitOnChar c s ≠ [] := by
  induction s with
  | nil => simp [splitOnChar]
  | cons x xs ih =>
    match h : splitOnChar c xs with
    | [] => exact absurd h ih
    | t :: ts =>
      rw [show splitOnChar c (x :: xs) = if x = c then [] :: t :: ts else (x :: t) :: ts
        from by simp [splitOnChar, h]]
      split <;> simp

/-- `splitOnChar` across an explicitly placed first separator. -/
theorem splitOnChar_append {c : Char} :
    ∀ (a b : Str), c ∉ a → splitOnChar c (a ++ c :: b) = a :: splitOnChar c b := by
  intro a
  induction a with
  | nil =>
    intro b _
    show splitOnChar c (c :: b) = [] :: splitOnChar c b
    match h : splitOnChar c b with
    | [] => exact absurd h (splitOnChar_ne_nil c b)
    | t :: ts => simp [splitOnChar, h]
  | cons x xs ih =>
    intro b h
    have hx : x ≠ c := fun hx => h (hx ▸ List.mem_cons_self _ _)
    have hrec := ih b (fun hm => h (List.mem_cons_of_mem _ hm))
    show splitOnChar c (x :: (xs ++ c :: b)) = _
    match h2 : splitOnChar c (xs ++ c :: b) with
    | [] => exact absurd h2 (splitOnChar_ne_nil c _)
    | t :: ts =>
      rw [h2] at hrec
      simp [splitOnChar, h2, hx, hrec]

/-- A separator-free string is one single piece. -/
theorem splitOnChar_of_not_mem {c : Char} :
    ∀ {s : Str}, c ∉ s → splitOnChar c s = [s] := by
  intro s
  induction s with
  | nil => intro _; rfl
  | cons x xs ih =>
    intro h
    have hx : x ≠ c := fun hx => h (hx ▸ List.mem_cons_self _ _)
    have hrec := ih (fun hm => h (List.mem_cons_of_mem _ hm))
    simp [splitOnChar, hrec, hx]

/-- No piece produced by `splitOnChar` contains the separator. -/
theorem splitOnChar_no_sep (c : Char) :
    ∀ (s : Str), ∀ t ∈ splitOnChar c s, c ∉ t := by
  intro s
  induction s with
  | nil =>
    intro t ht
    rw [show splitOnChar c [] = [[]] from rfl, List.mem_singleton] at ht
    subst ht
    simp
  | cons x xs ih =>
    intro t ht
    match h : splitOnChar c xs with
    | [] => exact absurd h (splitOnChar_ne_nil c xs)
    | t' :: ts =>
      rw [show splitOnChar c (x :: xs) = if x = c then [] :: t' :: ts else (x :: t') :: ts
        from by simp [splitOnChar, h]] at ht
      by_cases hx : x = c
      · rw [if_pos hx] at ht
        rcases List.mem_cons.mp ht with rfl | hm
        · simp
        · exact ih t (h ▸ hm)
      · rw [if_neg hx] at ht
        rcases List.mem_cons.mp ht with rfl | hm
        · intro hmem
          rcases List.mem_cons.mp hmem with rfl | hmem
          · exact hx rfl
          · exact ih t' (h ▸ List.mem_cons_self _ _) hmem
        · exact ih t (h ▸ List.mem_cons_of_mem _ hm)

/-- The piece count of `splitOnChar` is the separator count plus one. -/
theorem splitOnChar_length (c : Char) :
    ∀ s : Str, (splitOnChar c s).length = s.count c + 1 := by
  intro s
  induction s with
  | nil => rfl
  | cons x xs ih =>
    match h : splitOnChar c xs with
    | [] => exact absurd h (splitOnChar_ne_nil c xs)
    | t :: ts =>
      rw [show splitOnChar c (x :: xs) = if x = c then [] :: t :: ts else (x :: t) :: ts
        from by simp [splitOnChar, h]]
      rw [h] at ih
      by_cases hx : x = c
      · subst hx
        rw [if_pos rfl, List.count_cons_self]
        simp only [List.length_cons] at ih ⊢
        omega
      · rw [if_neg hx, List.count_cons_of_ne (Ne.symm hx)]
        simp only [List.length_cons] at ih ⊢
        omega

/-- `joinChar` over a cons with a nonempty tail. -/
theorem joinChar_cons (c : Char) (x : Str) (L : List Str) (h : L ≠ []) :
    joinChar c (x :: L) = x ++ c :: joinChar c L := by
  match L with
  | [] => exact absurd rfl h
  | y :: ys => rfl

/-- Splitting a join of separator-free pieces recovers the pieces. -/
theorem splitOnChar_join (c : Char) :
    ∀ ts : List Str, ts ≠ [] → (∀ t ∈ ts, c ∉ t) →
      splitOnChar c (joinChar c ts) = ts := by
  intro ts
  induction ts with
  | nil => intro h _; exact absurd rfl h
  | cons x L ih =>
    intro _ hfree
    match L with
    | [] => exact splitOnChar_of_not_mem (hfree x (List.mem_cons_self _ _))
    | y :: ys =>
      rw [joinChar_cons c x (y :: ys) (by simp),
        splitOnChar_append _ _ (hfree x (List.mem_cons_self _ _)),
        ih (by simp) (fun t ht => hfree t (List.mem_cons_of_mem _ ht))]

/-- `splitNAux` always yields at least one piece. -/
theorem splitNAux_ne_nil (c : Char) : ∀ (fuel : Nat) (s : Str), splitNAux c fuel s ≠ [] := by
  intro fuel s
  match fuel with
  | 0 => simp [splitNAux]
  | f + 1 =>
    unfold splitNAux
    match splitOnceChar c s with
    | none => simp
    | some (a, b) => simp

/-- `splitNAux` yields at most `fuel + 1` pieces. -/
theorem splitNAux_length (c : Char) :
    ∀ (fuel : Nat) (s : Str), (splitNAux c fuel s).length ≤ fuel + 1 := by
  intro fuel
  induction fuel with
  | zero => intro s; simp [splitNAux]
  | succ f ih =>
    intro s
    unfold splitNAux
    match splitOnceChar c s with
    | none => simp
    | some (a, b) =>
      have := ih b
      simp only [List.length_cons]
      omega

/-- Joining the pieces of `splitNAux` restores the input. -/
theorem splitNAux_join (c : Char) :
    ∀ (fuel : Nat) (s : Str), joinChar c (splitNAux c fuel s) = s := by
  intro fuel
  induction fuel with
  | zero => intro s; rfl
  | succ f ih =>
    intro s
    unfold splitNAux
    match h : splitOnceChar c s with
    | none => rfl
    | some (a, b) =>
      obtain ⟨rfl, -⟩ := splitOnceChar_eq_some h
      rw [joinChar_cons c a _ (splitNAux_ne_nil c f b), ih b]

/-- `splitn` yields at most `n` pieces. -/
theorem splitNChar_length_le (n : Nat) (c : Char) (s : Str) :
    (splitNChar n c s).length ≤ n := by
  match n with
  | 0 => simp [splitNChar]
  | m + 1 => exact splitNAux_length c m s

/-- For `n ≥ 1`, joining the pieces of `splitn` restores the input (the
final piece holds the entire remainder, separators included). -/
theorem splitNChar_join {n : Nat} (hn : 0 < n) (c : Char) (s : Str) :
    joinChar c (splitNChar n c s) = s := by
  match n, hn with
  | m + 1, _ => exact splitNAux_join c m s

/-- `splitNAux` over a join of exactly `fuel + 1` pieces whose non-final
pieces are separator-free recovers the pieces. -/
theorem splitNAux_of_join (c : Char) :
    ∀ (fuel : Nat) (ts : List Str), ts.length = fuel + 1 →
      (∀ t ∈ ts.dropLast, c ∉ t) →
      splitNAux c fuel (joinChar c ts) = ts := by
  intro fuel
  induction fuel with
  | zero =>
    intro ts hlen _
    match ts, hlen with
    | [x], _ => rfl
  | succ f ih =>
    intro ts hlen hfree
    match ts, hlen with
    | x :: y :: ys, hlen =>
      have hx : c ∉ x := hfree x (by simp [List.dropLast])
      rw [joinChar_cons c x (y :: ys) (by simp)]
      unfold splitNAux
      rw [splitOnceChar_append _ _ hx]
      show x :: splitNAux c f (joinChar c (y :: ys)) = x :: y :: ys
      rw [ih (y :: ys) (by simpa using hlen)
        (fun t ht => hfree t (by simp [List.dropLast] at ht ⊢; exact Or.inr ht))]

/-- `splitn (n, c)` over a join of exactly `n` pieces whose non-final pieces
are separator-free recovers the pieces. -/
theorem splitNChar_of_join {n : Nat} (c : Char) (ts : List Str)
    (hlen : ts.length = n) (hn : 0 < n) (hfree : ∀ t ∈ ts.dropLast, c ∉ t) :
    splitNChar n c (joinChar c ts) = ts := by
  match n, hn with
  | m + 1, _ => exact splitNAux_of_join c m ts hlen hfree

/-- The timestamp-field splitter on a rendered duration with
`centi < 2^64 * 100` recovers the four rendered components. -/
theorem assTimestampFields_render {centi : Nat} (hc : centi < 2 ^ 64 * 100) :
    assTimestampFields
        (natRepr (centi / 360000) ++ ':' :: pad2 (centi / 6000 % 60) ++
          ':' :: pad2 (centi / 100 % 60) ++ '.' :: pad2 (centi % 100)) =
      some (centi / 360000, centi / 6000 % 60, centi / 100 % 60, centi % 100) := by
  have hdotRepr : ∀ n, '.' ∉ natRepr n := fun n => not_mem_natRepr (by decide) n
  have hdotPad : ∀ n, '.' ∉ pad2 n := fun n => not_mem_pad2 (by decide) n
  have hcolonRepr : ∀ n, ':' ∉ natRepr n := fun n => not_mem_natRepr (by decide) n
  have hcolonPad : ∀ n, ':' ∉ pad2 n := fun n => not_mem_pad2 (by decide) n
  have hshape :
      natRepr (centi / 360000) ++ ':' :: pad2 (centi / 6000 % 60) ++
          ':' :: pad2 (centi / 100 % 60) ++ '.' :: pad2 (centi % 100) =
        joinChar ':'
            [natRepr (centi / 360000), pad2 (centi / 6000 % 60), pad2 (centi / 100 % 60)] ++
          '.' :: pad2 (centi % 100) := by
    show natRepr (centi / 360000) ++ ':' :: pad2 (centi / 6000 % 60) ++
        ':' :: pad2 (centi / 100 % 60) ++ '.' :: pad2 (centi % 100) =
      (natRepr (centi / 360000) ++
        ':' :: (pad2 (centi / 6000 % 60) ++ ':' :: pad2 (centi / 100 % 60))) ++
      '.' :: pad2 (centi % 100)
    simp [List.append_assoc]
  rw [hshape]
  unfold assTimestampFields
  rw [splitOnceChar_append _ _ (by
    intro hm
    rw [show joinChar ':' [natRepr (centi / 360000), pad2 (centi / 6000 % 60),
        pad2 (centi / 100 % 60)] =
      natRepr (centi / 360000) ++
        ':' :: (pad2 (centi / 6000 % 60) ++ ':' :: pad2 (centi / 100 % 60)) from rfl] at hm
    simp only [List.mem_append, List.mem_cons] at hm
    rcases hm with hm | hm | hm | hm | hm
    · exact hdotRepr _ hm
    · exact absurd hm (by decide)
    · exact hdotPad _ hm
    · exact absurd hm (by decide)
    · exact hdotPad _ hm)]
  show (match splitNChar 3 ':'
      (joinChar ':'
        [natRepr (centi / 360000), pad2 (centi / 6000 % 60), pad2 (centi / 100 % 60)]) with
    | [h, m, sec] =>
      (parseUnsigned (2 ^ 64) h).bind fun hours =>
        (parseUnsigned (2 ^ 64) m).bind fun minutes =>
          (parseUnsigned (2 ^ 64) sec).bind fun seconds =>
            (parseUnsigned (2 ^ 32) (pad2 (centi % 100))).map fun cs =>
              (hours, minutes, seconds, cs)
    | _ => none) = _
  rw [splitNChar_of_join ':'
    [natRepr (centi / 360000), pad2 (centi / 6000 % 60), pad2 (centi / 100 % 60)]
    (show ([natRepr (centi / 360000), pad2 (centi / 6000 % 60),
        pad2 (centi / 100 % 60)] : List Str).length = 3 from rfl)
    (by omega) (by
      intro t ht
      simp only [List.dropLast, List.mem_cons, List.not_mem_nil, or_false] at ht
      rcases ht with rfl | rfl
      · exact hcolonRepr _
      · exact hcolonPad _)]
  show ((parseUnsigned (2 ^ 64) (natRepr (centi / 360000))).bind fun hours =>
      (parseUnsigned (2 ^ 64) (pad2 (centi / 6000 % 60))).bind fun minutes =>
        (parseUnsigned (2 ^ 64) (pad2 (centi / 100 % 60))).bind fun seconds =>
          (parseUnsigned (2 ^ 32) (pad2 (centi % 100))).map fun cs =>
            (hours, minutes, seconds, cs)) = _
  rw [parseUnsigned_natRepr (show centi / 360000 < 2 ^ 64 by omega), Option.some_bind,
    parseUnsigned_pad2 (show centi / 6000 % 60 < 2 ^ 64 by omega), Option.some_bind,
    parseUnsigned_pad2 (show centi / 100 % 60 < 2 ^ 64 by omega), Option.some_bind,
    parseUnsigned_pad2 (show centi % 100 < 2 ^ 32 by omega), Option.map_some']

/-- Decoding a rendered duration yields exactly the duration truncated to
whole centiseconds: exact for whole-centisecond durations, truncating
toward zero (never rounding up) otherwise. -/
theorem ass_duration_roundtrip {d : Nat} (hd : d < 2 ^ 64 * 10 ^ 9) :
    ass_timestamp_to_duration (assDurationRender d) = some (10 ^ 7 * (d / 10 ^ 7)) := by
  have hdd : d / 10 ^ 6 / 10 = d / 10 ^ 7 := by
    rw [Nat.div_div_eq_div_mul]
    norm_num
  have hshape : assDurationRender d =
      natRepr (d / 10 ^ 7 / 360000) ++ ':' :: pad2 (d / 10 ^ 7 / 6000 % 60) ++
        ':' :: pad2 (d / 10 ^ 7 / 100 % 60) ++ '.' :: pad2 (d / 10 ^ 7 % 100) := by
    show natRepr (d / 10 ^ 6 / 10 / 360000) ++ ':' :: pad2 (d / 10 ^ 6 / 10 / 6000 % 60) ++
        ':' :: pad2 (d / 10 ^ 6 / 10 / 100 % 60) ++ '.' :: pad2 (d / 10 ^ 6 / 10 % 100) = _
    rw [hdd]
  have hcb : d / 10 ^ 7 < 2 ^ 64 * 100 := by omega
  rw [hshape]
  unfold ass_timestamp_to_duration
  rw [assTimestampFields_render hcb, Option.some_bind]
  have hguard : (d / 10 ^ 7 % 100) * 10000000 < 2 ^ 32 ∧
      d / 10 ^ 7 / 360000 * 3600 + d / 10 ^ 7 / 6000 % 60 * 60 + d / 10 ^ 7 / 100 % 60
        < 2 ^ 64 ∧
      d / 10 ^ 7 / 360000 * 3600 + d / 10 ^ 7 / 6000 % 60 * 60 + d / 10 ^ 7 / 100 % 60 +
          (d / 10 ^ 7 % 100) * 10000000 / 10 ^ 9 < 2 ^ 64 := by
    refine ⟨by omega, by omega, by omega⟩
  show (if (d / 10 ^ 7 % 100) * 10000000 < 2 ^ 32 ∧
      d / 10 ^ 7 / 360000 * 3600 + d / 10 ^ 7 / 6000 % 60 * 60 + d / 10 ^ 7 / 100 % 60
        < 2 ^ 64 ∧
      d / 10 ^ 7 / 360000 * 3600 + d / 10 ^ 7 / 6000 % 60 * 60 + d / 10 ^ 7 / 100 % 60 +
          (d / 10 ^ 7 % 100) * 10000000 / 10 ^ 9 < 2 ^ 64 then
    some ((d / 10 ^ 7 / 360000 * 3600 + d / 10 ^ 7 / 6000 % 60 * 60 +
        d / 10 ^ 7 / 100 % 60) * 10 ^ 9 + (d / 10 ^ 7 % 100) * 10000000)
    else none) = some (10 ^ 7 * (d / 10 ^ 7))
  rw [if_pos hguard]
  congr 1
  omega

/-- A `parseDigitsCore` success is below its bound. -/
theorem parseDigitsCore_lt {b : Nat} {neg : Bool} {digits : Str} {v : Nat}
    (h : parseDigitsCore b neg digits = some v) : v < b := by
  unfold parseDigitsCore at h
  split_ifs at h
  have := Option.some.inj h
  omega

/-- A successful unsigned parse is below its bound. -/
theorem parseUnsigned_lt {b : Nat} {s : Str} {v : Nat}
    (h : parseUnsigned b s = some v) : v < b := by
  match s, h with
  | [], h => exact parseDigitsCore_lt h
  | c :: rest, h =>
    have h' : (if c = '+' then parseDigitsCore b false rest
        else if c = '-' then parseDigitsCore b true rest
        else parseDigitsCore b false (c :: rest)) = some v := h
    split_ifs at h' <;> exact parseDigitsCore_lt h' 

/-- The fractional field of a parsed timestamp fits in 32 bits. -/
theorem assTimestampFields_cs_lt :
    ∀ {s : Str} {hh mm ss cs : Nat},
      assTimestampFields s = some (hh, mm, ss, cs) → cs < 2 ^ 32 := by
  intro s hh mm ss cs hf
  unfold assTimestampFields at hf
  rw [Option.bind_eq_some] at hf
  obtain ⟨⟨ts, subsec⟩, h1, hf⟩ := hf
  match h2 : splitNChar 3 ':' ts with
  | [] => rw [h2] at hf; exact absurd hf (by simp)
  | [_] => rw [h2] at hf; exact absurd hf (by simp)
  | [_, _] => rw [h2] at hf; exact absurd hf (by simp)
  | _ :: _ :: _ :: _ :: _ => rw [h2] at hf; exact absurd hf (by simp)
  | [a, b, c] =>
    rw [h2] at hf
    simp only [Option.bind_eq_some, Option.map_eq_some'] at hf
    obtain ⟨hv, h3, mv, h4, sv, h5, cv, h6, heq⟩ := hf
    have : cv = cs := by
      simp only [Prod.mk.injEq] at heq
      exact heq.2.2.2
    exact this ▸ parseUnsigned_lt h6

/-- C4: for every Events data row the value is split into at most as many
comma-separated tokens as there are active format fields, the final field
receiving the entire remainder including its commas; for every Styles data
row the value is split at every comma unconditionally (token count = comma
count + 1, every token comma-free), regardless of the number of format
fields.  The two strategies are distinct, as the two concrete rows show:
the Events mapper hands `Hello, world` whole to the final `Text` field,
while the Styles mapper truncates `A,B` to `A` for a one-field format. -/
theorem claim_C4 (fmt : List Str) (data : Str) (h : 0 < fmt.length) :
    (splitNChar fmt.length ',' data).length ≤ fmt.length ∧
    joinChar ',' (splitNChar fmt.length ',' data) = data ∧
    (splitOnChar ',' data).length = data.count ',' + 1 ∧
    (∀ t ∈ splitOnChar ',' data, ',' ∉ t) ∧
    (EventsSection.event_from_format ⟨canonEventsFormat, []⟩ EventKind.Dialogue
        (str "0,0:00:01.00,0:00:02.50,A,,0,0,0,,Hello, world")).map Event.text =
      some (str "Hello, world") ∧
    (@StylesSection.style_from_format natFloat ⟨[str "Name"], []⟩ (str "A,B")).map
        Style.name = some (str "A") :=
  ⟨splitNChar_length_le _ _ _, splitNChar_join h ',' data,
    splitOnChar_length ',' data, splitOnChar_no_sep ',' data, rfl, rfl⟩

/-- Witness for C4 at a one-field format. -/
theorem claim_C4_witness :
    0 < ([str "Text"] : List Str).length ∧
      (splitNChar ([str "Text"] : List Str).length ',' (str "a,b")).length ≤
        ([str "Text"] : List Str).length :=
  ⟨by decide, (claim_C4 [str "Text"] (str "a,b") (by decide)).1⟩

/-- C5: encoding a duration as `H:MM:SS.cc` (unpadded hours, 2-digit
zero-padded minutes/seconds/centiseconds) and decoding the result is exact
for whole-centisecond durations; durations with a sub-centisecond component
decode back to their value truncated toward zero to whole centiseconds
(never rounded up).  `3723040000000` ns renders as `1:02:03.04`, and
`129999999` ns (12.9999999 ms) renders as `0:00:00.12` — truncated, not
rounded to `.13`. -/
theorem claim_C5 :
    (∀ d : Nat, d < 2 ^ 64 * 10 ^ 9 → d % 10 ^ 7 = 0 →
      ass_timestamp_to_duration (assDurationRender d) = some d) ∧
    (∀ d : Nat, d < 2 ^ 64 * 10 ^ 9 →
      ass_timestamp_to_duration (assDurationRender d) = some (10 ^ 7 * (d / 10 ^ 7)) ∧
        10 ^ 7 * (d / 10 ^ 7) ≤ d) ∧
    assDurationRender 3723040000000 = str "1:02:03.04" ∧
    assDurationRender 129999999 = str "0:00:00.12" := by
  refine ⟨?_, ?_, rfl, rfl⟩
  · intro d hd hmod
    rw [ass_duration_roundtrip hd]
    congr 1
    omega
  · intro d hd
    exact ⟨ass_duration_roundtrip hd, by omega⟩

/-- Witness for C5 at a whole-centisecond duration. -/
theorem claim_C5_witness :
    (3723040000000 : Nat) < 2 ^ 64 * 10 ^ 9 ∧ (3723040000000 : Nat) % 10 ^ 7 = 0 ∧
      ass_timestamp_to_duration (assDurationRender 3723040000000) =
        some 3723040000000 :=
  ⟨by norm_num, by norm_num, claim_C5.1 3723040000000 (by norm_num) (by norm_num)⟩

/-- C10: the `cs * 10_000_000` nanosecond multiplication of the duration
decoder stays within `u32` exactly when the parsed fractional field is at
most `429`; `0:00:00.430000000` parses its fields successfully but the
multiplication overflows, so decoding it is not total (the model treats
the aborting execution as a failed parse), while the standard two-digit
fractional field (`≤ 99 ≤ 429`) always decodes. -/
theorem claim_C10 :
    (∀ (s : Str) (hh mm ss cs : Nat),
      assTimestampFields s = some (hh, mm, ss, cs) →
        (cs * 10000000 < 2 ^ 32 ↔ cs ≤ 429)) ∧
    assTimestampFields (str "0:00:00.430000000") = some (0, 0, 0, 430000000) ∧
    ¬ (430000000 * 10000000 < 2 ^ 32) ∧
    ass_timestamp_to_duration (str "0:00:00.430000000") = none ∧
    (∀ cs : Nat, cs ≤ 99 → cs * 10000000 < 2 ^ 32) ∧
    ass_timestamp_to_duration (str "0:00:00.42") = some 420000000 := by
  refine ⟨?_, by decide, by decide, by decide, ?_, by decide⟩
  · intro s hh mm ss cs hf
    have := assTimestampFields_cs_lt hf
    omega
  · intro cs h
    omega

/-- Witness for C10 at a concrete in-range timestamp. -/
theorem claim_C10_witness :
    assTimestampFields (str "0:00:00.05") = some (0, 0, 0, 5) ∧
      (5 * 10000000 < 2 ^ 32 ↔ (5 : Nat) ≤ 429) :=
  ⟨by decide, claim_C10.1 (str "0:00:00.05") 0 0 0 5 (by decide)⟩

/-- The key/value split of a `Style:` row value. -/
theorem splitOnceSeq_style (v : Str) :
    splitOnceSeq colonSpace (str "Style: " ++ v) = some (str "Style", v) := rfl

/-- The key/value split of a `Format:` row value. -/
theorem splitOnceSeq_format (v : Str) :
    splitOnceSeq colonSpace (str "Format: " ++ v) = some (str "Format", v) := rfl

/-- The key/value split of a `Dialogue:` row value. -/
theorem splitOnceSeq_dialogue (v : Str) :
    splitOnceSeq colonSpace (str "Dialogue: " ++ v) = some (str "Dialogue", v) := rfl

/-- The key/value split of a `Comment:` row value. -/
theorem splitOnceSeq_comment (v : Str) :
    splitOnceSeq colonSpace (str "Comment: " ++ v) = some (str "Comment", v) := rfl

/-- The key/value split of a `Movie:` row value. -/
theorem splitOnceSeq_movie (v : Str) :
    splitOnceSeq colonSpace (str "Movie: " ++ v) = some (str "Movie", v) := rfl

/-- The key/value split of a `Sound:` row value. -/
theorem splitOnceSeq_sound (v : Str) :
    splitOnceSeq colonSpace (str "Sound: " ++ v) = some (str "Sound", v) := rfl

/-- The key/value split of a `Picture:` row value. -/
theorem splitOnceSeq_picture (v : Str) :
    splitOnceSeq colonSpace (str "Picture: " ++ v) = some (str "Picture", v) := rfl

/-- `EventKind.fromStr` inverts `EventKind.asStr`. -/
theorem eventKind_fromStr_asStr (k : EventKind) :
    EventKind.fromStr (EventKind.asStr k) = some k := by
  cases k <;> rfl

/-- Reduction of the Styles handler on a `Style:` row. -/
theorem stylesProcess_style_row {M : F32Model} (sec : StylesSection M) (v : Str) :
    StylesSection.processLine sec (Line.Variable (str "Style: " ++ v)) =
      (if sec.format.isEmpty then Except.error ErrorKind.MissingStyleFormat
       else
         match sec.style_from_format v with
         | some st => Except.ok ⟨sec.format, sec.styles ++ [st]⟩
         | none => Except.error ErrorKind.InvalidStyle) := rfl

/-- Reduction of the Styles handler on a `Format:` row. -/
theorem stylesProcess_format_row {M : F32Model} (sec : StylesSection M) (v : Str) :
    StylesSection.processLine sec (Line.Variable (str "Format: " ++ v)) =
      Except.ok ⟨splitSeq (str ", ") v, sec.styles⟩ := rfl

/-- Reduction of the Events handler on a data row keyed by an event kind. -/
theorem eventsProcess_kind_row (sec : EventsSection) (k : EventKind) (v : Str) :
    EventsSection.processLine sec (Line.Variable (EventKind.asStr k ++ colonSpace ++ v)) =
      (if sec.format.isEmpty then Except.error ErrorKind.MissingStyleFormat
       else
         match sec.event_from_format k v with
         | some ev => Except.ok ⟨sec.format, sec.events ++ [ev]⟩
         | none => Except.error ErrorKind.InvalidStyle) := by
  cases k <;> rfl

/-- Reduction of the Events handler on a `Format:` row. -/
theorem eventsProcess_format_row (sec : EventsSection) (v : Str) :
    EventsSection.processLine sec (Line.Variable (str "Format: " ++ v)) =
      Except.ok ⟨splitSeq (str ", ") v, sec.events⟩ := rfl

/-- C6 (amended): the claim as frozen is false — a data row whose known
field fails its typed parse does NOT reuse the missing-format error kind.
It raises `ErrorKind::InvalidStyle` in both section handlers (the Events
handler reuses the Styles row error kind), while a data row seen before any
`Format:` line raises the distinct kind `ErrorKind::MissingStyleFormat`. -/
theorem claim_C6 {M : F32Model} (fmt : List Str) (sts : List (Style M))
    (es : List Event) (v : Str) :
    (fmt ≠ [] → StylesSection.style_from_format ⟨fmt, sts⟩ v = none →
      StylesSection.processLine ⟨fmt, sts⟩ (Line.Variable (str "Style: " ++ v)) =
        .error .InvalidStyle) ∧
    (StylesSection.processLine ⟨[], sts⟩ (Line.Variable (str "Style: " ++ v)) =
      .error .MissingStyleFormat) ∧
    (fmt ≠ [] → EventsSection.event_from_format ⟨fmt, es⟩ .Dialogue v = none →
      EventsSection.processLine ⟨fmt, es⟩ (Line.Variable (str "Dialogue: " ++ v)) =
        .error .InvalidStyle) ∧
    (EventsSection.processLine ⟨[], es⟩ (Line.Variable (str "Dialogue: " ++ v)) =
      .error .MissingStyleFormat) ∧
    ErrorKind.InvalidStyle ≠ ErrorKind.MissingStyleFormat := by
  have hne : ∀ (l : List Str), l ≠ [] → l.isEmpty = false := by
    intro l hl
    cases l with
    | nil => exact absurd rfl hl
    | cons a t => rfl
  refine ⟨?_, ?_, ?_, ?_, by decide⟩
  · intro hfmt hnone
    rw [stylesProcess_style_row]
    show (if List.isEmpty fmt = true then _ else _) = _
    rw [hne fmt hfmt]
    show (match StylesSection.style_from_format ⟨fmt, sts⟩ v with
      | some st => Except.ok (⟨fmt, sts ++ [st]⟩ : StylesSection M)
      | none => Except.error ErrorKind.InvalidStyle) = _
    rw [hnone]
  · rw [stylesProcess_style_row]
    rfl
  · intro hfmt hnone
    have hred := eventsProcess_kind_row ⟨fmt, es⟩ EventKind.Dialogue v
    rw [show EventKind.asStr EventKind.Dialogue ++ colonSpace ++ v =
      str "Dialogue: " ++ v from rfl] at hred
    rw [hred]
    show (if List.isEmpty fmt = true then _ else _) = _
    rw [hne fmt hfmt]
    show (match EventsSection.event_from_format ⟨fmt, es⟩ EventKind.Dialogue v with
      | some ev => Except.ok (⟨fmt, es ++ [ev]⟩ : EventsSection)
      | none => Except.error ErrorKind.InvalidStyle) = _
    rw [hnone]
  · have hred := eventsProcess_kind_row ⟨[], es⟩ EventKind.Dialogue v
    rw [show EventKind.asStr EventKind.Dialogue ++ colonSpace ++ v =
      str "Dialogue: " ++ v from rfl] at hred
    rw [hred]
    rfl

/-- Counterexample for C6 as frozen: a `[V4+ Styles]` row with an
unparsable `Fontsize` fails with kind `InvalidStyle` at its line, not with
the missing-format kind, which is a distinct constructor. -/
theorem claim_C6_counterexample :
    Ass.fromStr natFloat (str "[Script Info]\n[V4+ Styles]\nFormat: Fontsize\nStyle: x")
      = .error ⟨.InvalidStyle, 4⟩ ∧
    Ass.fromStr natFloat (str "[Script Info]\n[V4+ Styles]\nStyle: x")
      = .error ⟨.MissingStyleFormat, 3⟩ ∧
    ErrorKind.InvalidStyle ≠ ErrorKind.MissingStyleFormat :=
  ⟨rfl, rfl, by decide⟩

/-- Witness for C6 at a concrete failing row. -/
theorem claim_C6_witness :
    ([str "Fontsize"] : List Str) ≠ [] ∧
      @StylesSection.style_from_format natFloat ⟨[str "Fontsize"], []⟩ (str "x")
        = none ∧
      @StylesSection.processLine natFloat ⟨[str "Fontsize"], []⟩
          (Line.Variable (str "Style: x")) =
        .error .InvalidStyle :=
  ⟨by decide, rfl,
    (claim_C6 [str "Fontsize"] ([] : List (Style natFloat)) [] (str "x")).1
      (by decide) rfl⟩

/-- C9 (actual code behavior, documenting the bug): when any supplied
dialogue text contains a Japanese character, `Ass::from_srt` sets the
single installed style's `bold` flag and overwrites its NAME with
`Yu Gothic UI` — the CJK font name — while the style's FONT stays `Arial`;
moreover every generated event still references the style named `Default`,
so the renamed style no longer matches.  With no Japanese character the
style keeps name `Default`, not bold, font `Arial`.  The source's own doc
comment says "The font should be Yu Gothic UI + bold if Japanese is
found": the code assigns the font name to the wrong field. -/
theorem claim_C9 (tagRewrite : Str → Str) :
    (∀ (M : F32Model) (dj : List Dialogue),
      dj.any (fun d => contains_japanese d.text) = true →
        stylesLists (Ass.fromSrt M tagRewrite dj) =
          [[{ Style.programDefault M with bold := true, name := str "Yu Gothic UI" }]] ∧
        Style.fontName { Style.programDefault M with bold := true, name := str "Yu Gothic UI" } = str "Arial") ∧
    (∀ (M : F32Model) (dj : List Dialogue),
      dj.any (fun d => contains_japanese d.text) = false →
        stylesLists (Ass.fromSrt M tagRewrite dj) = [[Style.programDefault M]] ∧
        (Style.programDefault M).name = str "Default" ∧
        (Style.programDefault M).bold = false ∧
        (Style.programDefault M).fontName = str "Arial") ∧
    (∀ (M : F32Model) (dj : List Dialogue),
      eventsLists (Ass.fromSrt M tagRewrite dj) =
        [dj.map fun d =>
          { Event.defaultEvent with
            text := srt_to_ass tagRewrite d.text
            start := d.start
            endTime := d.endTime }] ∧
      ∀ es ∈ eventsLists (Ass.fromSrt M tagRewrite dj), ∀ ev ∈ es,
        ev.style = str "Default") ∧
    contains_japanese (str "あ") = true ∧
    contains_japanese (str "hi") = false := by
  refine ⟨?_, ?_, ?_, by decide, by decide⟩
  · intro M dj hj
    unfold Ass.fromSrt stylesLists
    rw [hj]
    exact ⟨rfl, rfl⟩
  · intro M dj hj
    unfold Ass.fromSrt stylesLists
    rw [hj]
    exact ⟨rfl, rfl, rfl, rfl⟩
  · intro M dj
    have hev : eventsLists (Ass.fromSrt M tagRewrite dj) =
        [dj.map fun d =>
          { Event.defaultEvent with
            text := srt_to_ass tagRewrite d.text
            start := d.start
            endTime := d.endTime }] := by
      unfold Ass.fromSrt eventsLists
      by_cases hj : dj.any (fun d => contains_japanese d.text) = true
      · rw [hj]
        rfl
      · rw [Bool.not_eq_true] at hj
        rw [hj]
        rfl
    refine ⟨hev, ?_⟩
    intro es hes ev hevm
    rw [hev, List.mem_singleton] at hes
    subst hes
    obtain ⟨d, hd, rfl⟩ := List.mem_map.mp hevm
    rfl

/-- Witness for C9 at the concrete failing input: one dialogue entry whose
text is the Hiragana character `あ`. -/
theorem claim_C9_witness :
    ([⟨1, 0, 0, str "あ"⟩] : List Dialogue).any
        (fun d => contains_japanese d.text) = true ∧
      stylesLists (Ass.fromSrt natFloat id [⟨1, 0, 0, str "あ"⟩]) =
        [[{ Style.programDefault natFloat with bold := true, name := str "Yu Gothic UI" }]] ∧
      Style.fontName { Style.programDefault natFloat with bold := true, name := str "Yu Gothic UI" } = str "Arial" :=
  ⟨by decide, (claim_C9 id).1 natFloat [⟨1, 0, 0, str "あ"⟩] (by decide)⟩

/-- The generic-title extractor on a reconstructed generic header line. -/
theorem getGenericSectionTitle_wrap (t : Str) :
    getGenericSectionTitle ('[' :: (t ++ [']'])) = some t := by
  show (if (t ++ [']']).getLast? = some ']' then some (t ++ [']']).dropLast else none)
    = some t
  rw [List.getLast?_concat, if_pos rfl, List.dropLast_concat]

/-- A line with a generic title is exactly `[` ++ title ++ `]`. -/
theorem getGenericSectionTitle_eq_some {s t : Str}
    (h : getGenericSectionTitle s = some t) : s = '[' :: (t ++ [']']) := by
  match s, h with
  | [], h => exact absurd h (by simp [getGenericSectionTitle])
  | c :: rest, h =>
    have h' : (if c = '[' then
        (if rest.getLast? = some ']' then some rest.dropLast else none)
      else none) = some t := h
    by_cases hc : c = '['
    · rw [if_pos hc] at h'
      by_cases hl : rest.getLast? = some ']'
      · rw [if_pos hl] at h'
        have ht := Option.some.inj h'
        have hrest : rest.dropLast ++ [']'] = rest :=
          List.dropLast_append_getLast? _ hl
        rw [hc, ← ht, hrest]
      · rw [if_neg hl] at h'
        exact absurd h' (by simp)
    · rw [if_neg hc] at h'
      exact absurd h' (by simp)

/-- Step: the whole-string loop opens a fresh `ScriptInfo` section on a
`[Script Info]` line. -/
theorem runStep_si_str (M : F32Model) (n : Nat) (secs : List (Section M)) :
    runStep M true n (str "[Script Info]") secs = .ok (.ScriptInfo [] :: secs) := rfl

/-- Step: the streaming loop opens a fresh GENERIC section titled
`Script Info` on a `[Script Info]` line (it has no `ScriptInfo` branch). -/
theorem runStep_si_reader (M : F32Model) (n : Nat) (secs : List (Section M)) :
    runStep M false n (str "[Script Info]") secs =
      .ok (.Generic (str "Script Info") [] :: secs) := rfl

/-- Step: `[V4+ Styles]` opens a fresh Styles section in both modes. -/
theorem runStep_styles_header (M : F32Model) (mode : Bool) (n : Nat)
    (secs : List (Section M)) :
    runStep M mode n (str "[V4+ Styles]") secs = .ok (.Styles ⟨[], []⟩ :: secs) := by
  cases mode <;> rfl

/-- Step: `[Events]` opens a fresh Events section in both modes. -/
theorem runStep_events_header (M : F32Model) (mode : Bool) (n : Nat)
    (secs : List (Section M)) :
    runStep M mode n (str "[Events]") secs = .ok (.Events ⟨[], []⟩ :: secs) := by
  cases mode <;> rfl

/-- Step: any other `[...]` line opens a fresh Generic section. -/
theorem runStep_generic (M : F32Model) (mode : Bool) (n : Nat) (t : Str)
    (secs : List (Section M))
    (h1 : '[' :: (t ++ [']']) ≠ str "[Script Info]")
    (h2 : '[' :: (t ++ [']']) ≠ str "[V4+ Styles]")
    (h3 : '[' :: (t ++ [']']) ≠ str "[Events]") :
    runStep M mode n ('[' :: (t ++ [']'])) secs = .ok (.Generic t [] :: secs) := by
  unfold runStep
  rw [if_neg (fun hb => h1 hb.2), if_neg h2, if_neg h3, getGenericSectionTitle_wrap]

/-- Step: an unclassifiable non-header line is skipped. -/
theorem runStep_skip (M : F32Model) (mode : Bool) (n : Nat) (l : Str)
    (cur : Section M) (others : List (Section M))
    (hsi : ¬ (mode = true ∧ l = str "[Script Info]"))
    (h2 : l ≠ str "[V4+ Styles]") (h3 : l ≠ str "[Events]")
    (h4 : getGenericSectionTitle l = none) (h5 : Line.parse l = none) :
    runStep M mode n l (cur :: others) = .ok (cur :: others) := by
  unfold runStep
  rw [if_neg hsi, if_neg h2, if_neg h3, h4, h5]

/-- Step: a classified non-header line is processed into the open section. -/
theorem runStep_process_ok (M : F32Model) (mode : Bool) (n : Nat) (l : Str)
    (cur cur' : Section M) (others : List (Section M)) (pl : Line)
    (hsi : ¬ (mode = true ∧ l = str "[Script Info]"))
    (h2 : l ≠ str "[V4+ Styles]") (h3 : l ≠ str "[Events]")
    (h4 : getGenericSectionTitle l = none) (h5 : Line.parse l = some pl)
    (h6 : cur.processLine pl = .ok cur') :
    runStep M mode n l (cur :: others) = .ok (cur' :: others) := by
  unfold runStep
  rw [if_neg hsi, if_neg h2, if_neg h3, h4, h5]
  show (match cur.processLine pl with
    | Except.ok c => Except.ok (c :: others)
    | Except.error k => Except.error (AssError.mk k n)) = _
  rw [h6]

/-- Step: a handler error is annotated with the current line number. -/
theorem runStep_process_err (M : F32Model) (mode : Bool) (n : Nat) (l : Str)
    (cur : Section M) (others : List (Section M)) (pl : Line) (k : ErrorKind)
    (hsi : ¬ (mode = true ∧ l = str "[Script Info]"))
    (h2 : l ≠ str "[V4+ Styles]") (h3 : l ≠ str "[Events]")
    (h4 : getGenericSectionTitle l = none) (h5 : Line.parse l = some pl)
    (h6 : cur.processLine pl = .error k) :
    runStep M mode n l (cur :: others) = .error ⟨k, n⟩ := by
  unfold runStep
  rw [if_neg hsi, if_neg h2, if_neg h3, h4, h5]
  show (match cur.processLine pl with
    | Except.ok c => Except.ok (c :: others)
    | Except.error k2 => Except.error (AssError.mk k2 n)) = _
  rw [h6]

/-- Step: a non-header line with no open section is invalid. -/
theorem runStep_nosec (M : F32Model) (mode : Bool) (n : Nat) (l : Str)
    (hsi : ¬ (mode = true ∧ l = str "[Script Info]"))
    (h2 : l ≠ str "[V4+ Styles]") (h3 : l ≠ str "[Events]")
    (h4 : getGenericSectionTitle l = none) :
    runStep M mode n l ([] : List (Section M)) = .error ⟨.Invalid, n⟩ := by
  unfold runStep
  rw [if_neg hsi, if_neg h2, if_neg h3, h4]

/-- The loop on no lines. -/
theorem runLines_nil (M : F32Model) (mode : Bool) (n : Nat)
    (secs : List (Section M)) : runLines M mode n [] secs = .ok secs := rfl

/-- The loop after one successful step. -/
theorem runLines_cons_ok {M : F32Model} {mode : Bool} {n : Nat} {l : Str}
    {rest : List Str} {secs secs' : List (Section M)}
    (h : runStep M mode n l secs = .ok secs') :
    runLines M mode n (l :: rest) secs = runLines M mode (n + 1) rest secs' := by
  show (match runStep M mode n l secs with
    | Except.ok s => runLines M mode (n + 1) rest s
    | Except.error e => Except.error e) = _
  rw [h]

/-- The loop after one failing step. -/
theorem runLines_cons_err {M : F32Model} {mode : Bool} {n : Nat} {l : Str}
    {rest : List Str} {secs : List (Section M)} {e : AssError}
    (h : runStep M mode n l secs = .error e) :
    runLines M mode n (l :: rest) secs = .error e := by
  show (match runStep M mode n l secs with
    | Except.ok s => runLines M mode (n + 1) rest s
    | Except.error e2 => Except.error e2) = _
  rw [h]

/-- The loop over concatenated line blocks. -/
theorem runLines_append (M : F32Model) (mode : Bool) :
    ∀ (A B : List Str) (n : Nat) (secs : List (Section M)),
      runLines M mode n (A ++ B) secs =
        match runLines M mode n A secs with
        | .ok s' => runLines M mode (n + A.length) B s'
        | .error e => .error e := by
  intro A
  induction A with
  | nil =>
    intro B n secs
    simp [runLines_nil]
  | cons l A ih =>
    intro B n secs
    cases h : runStep M mode n l secs with
    | ok s' =>
      rw [show (l :: A) ++ B = l :: (A ++ B) from rfl, runLines_cons_ok h,
        runLines_cons_ok h, ih]
      simp only [List.length_cons]
      rw [show n + 1 + A.length = n + (A.length + 1) from by omega]
    | error e =>
      rw [show (l :: A) ++ B = l :: (A ++ B) from rfl, runLines_cons_err h,
        runLines_cons_err h]

/-- Two cons lists with different heads differ. -/
theorem cons_ne_cons_head {a b : Char} {x y : Str} (h : a ≠ b) :
    (a :: x : Str) ≠ (b :: y : Str) := by
  intro he
  injection he with h1 _
  exact h h1

/-- Unfolding of the whole-string entry point. -/
theorem fromStr_unfold (M : F32Model) (buf : Str) :
    Ass.fromStr M buf =
      (if strStartsWith (str "[Script Info]") buf = true then
        (match runLines M true 1 (rustLines buf) [] with
         | .ok secs => .ok ⟨secs.reverse⟩
         | .error e => .error e)
      else .error ⟨.MissingScriptInfo, 1⟩) := rfl

/-- Unfolding of the streaming entry point. -/
theorem fromReader_unfold (M : F32Model) (stream : Str) :
    Ass.fromReader M stream =
      (if trimEnd (dropBOM (readLine stream).1) = str "[Script Info]" then
        (match runLines M false 2 (rustLines (readLine stream).2) [.ScriptInfo []] with
         | .ok secs => .ok ⟨secs.reverse⟩
         | .error e => .error e)
      else .error ⟨.MissingScriptInfo, 1⟩) := rfl

/-- `read_line` splits a stream at its first newline, keeping the newline. -/
theorem readLine_append (l rest : Str) (h : '\n' ∉ l) :
    readLine (l ++ '\n' :: rest) = (l ++ ['\n'], rest) := by
  induction l with
  | nil => rfl
  | cons c cs ih =>
    have hc : c ≠ '\n' := fun hc => h (hc ▸ List.mem_cons_self _ _)
    show readLine (c :: (cs ++ '\n' :: rest)) = _
    unfold readLine
    rw [if_neg hc, ih (fun hm => h (List.mem_cons_of_mem _ hm))]
    rfl

/-- Trailing-whitespace trimming absorbs a final newline. -/
theorem trimEnd_append_nl (x : Str) : trimEnd (x ++ ['\n']) = trimEnd x := by
  unfold trimEnd
  rw [List.reverse_append]
  rfl

/-- The BOM strip commutes with appending the newline kept by `read_line`. -/
theorem cleaned_append_nl (first : Str) :
    trimEnd (dropBOM (first ++ ['\n'])) = trimEnd (dropBOM first) := by
  cases first with
  | nil => decide
  | cons c f =>
    show trimEnd (if c = '﻿' then f ++ ['\n'] else c :: (f ++ ['\n'])) =
      trimEnd (if c = '﻿' then f else c :: f)
    by_cases hc : c = '﻿'
    · rw [if_pos hc, if_pos hc, trimEnd_append_nl]
    · rw [if_neg hc, if_neg hc]
      exact trimEnd_append_nl (c :: f)

/-- The streaming entry point on a stream with an explicit first line. -/
theorem fromReader_split (M : F32Model) (first rest : Str) (hnl : '\n' ∉ first) :
    Ass.fromReader M (first ++ '\n' :: rest) =
      (if trimEnd (dropBOM first) = str "[Script Info]" then
        (match runLines M false 2 (rustLines rest) [.ScriptInfo []] with
         | .ok secs => .ok ⟨secs.reverse⟩
         | .error e => .error e)
      else .error ⟨.MissingScriptInfo, 1⟩) := by
  rw [fromReader_unfold, readLine_append first rest hnl]
  rw [show ((first ++ ['\n'], rest) : Str × Str).1 = first ++ ['\n'] from rfl,
    show ((first ++ ['\n'], rest) : Str × Str).2 = rest from rfl,
    cleaned_append_nl]

/-- C3 (amended): the two entry points guard the mandatory `[Script Info]`
opening differently.  The streaming entry point strips an optional BOM and
trailing whitespace from the first line and fails with the
missing-script-info error at line 1 — independently of the remaining input
— exactly when the result is not `[Script Info]`.  The whole-string entry
point performs NO BOM stripping and tests only whether the buffer starts
with the prefix `[Script Info]`: without the prefix it fails with the
missing-script-info error at line 1, with it the gate passes and the line
loop runs (so a BOM-prefixed buffer is rejected, a first line
`[Script Info]x` fails later with the Invalid kind, and `[Script Info]x]`
even parses as a lone Generic section). -/
theorem claim_C3 {M : F32Model} :
    (∀ first rest : Str, '\n' ∉ first →
      trimEnd (dropBOM first) ≠ str "[Script Info]" →
        Ass.fromReader M (first ++ '\n' :: rest) = .error ⟨.MissingScriptInfo, 1⟩) ∧
    (∀ first rest : Str, '\n' ∉ first →
      trimEnd (dropBOM first) = str "[Script Info]" →
        Ass.fromReader M (first ++ '\n' :: rest) =
          (match runLines M false 2 (rustLines rest) [.ScriptInfo []] with
           | .ok secs => .ok ⟨secs.reverse⟩
           | .error e => .error e)) ∧
    (∀ buf : Str, strStartsWith (str "[Script Info]") buf = false →
      Ass.fromStr M buf = .error ⟨.MissingScriptInfo, 1⟩) ∧
    (∀ buf : Str, strStartsWith (str "[Script Info]") buf = true →
      Ass.fromStr M buf =
        (match runLines M true 1 (rustLines buf) [] with
         | .ok secs => .ok ⟨secs.reverse⟩
         | .error e => .error e)) ∧
    Ass.fromStr natFloat ('﻿' :: str "[Script Info]") =
      .error ⟨.MissingScriptInfo, 1⟩ ∧
    Ass.fromReader natFloat ('﻿' :: str "[Script Info]") = .ok ⟨[.ScriptInfo []]⟩ ∧
    Ass.fromReader natFloat (str "[Script Info]\t\nA: b") =
      .ok ⟨[.ScriptInfo [Line.Variable (str "A: b")]]⟩ ∧
    Ass.fromStr natFloat (str "[Script Info]x") = .error ⟨.Invalid, 1⟩ ∧
    Ass.fromStr natFloat (str "[Script Info]x]") =
      .ok ⟨[.Generic (str "Script Info]x") []]⟩ := by
  refine ⟨?_, ?_, ?_, ?_, rfl, rfl, rfl, rfl, rfl⟩
  · intro first rest hnl hbad
    rw [fromReader_split M first rest hnl, if_neg hbad]
  · intro first rest hnl hgood
    rw [fromReader_split M first rest hnl, if_pos hgood]
  · intro buf hbad
    rw [fromStr_unfold, if_neg (by rw [hbad]; exact Bool.false_ne_true)]
  · intro buf hgood
    rw [fromStr_unfold, if_pos hgood]

/-- A style data row always classifies as a variable line. -/
theorem lineParse_styleRow (v : Str) :
    Line.parse (str "Style: " ++ v) = some (.Variable (str "Style: " ++ v)) := rfl

/-- A style data row is not a bracketed section header. -/
theorem generic_styleRow (v : Str) :
    getGenericSectionTitle (str "Style: " ++ v) = none := rfl

/-- Stepping a style data row against a Styles section that has not yet
seen a Format line raises the missing-format error at the current line
number. -/
theorem runStep_styleRow_noFormat (M : F32Model) (mode : Bool) (n : Nat)
    (v : Str) (sts : List (Style M)) (others : List (Section M)) :
    runStep M mode n (str "Style: " ++ v) (Section.Styles ⟨[], sts⟩ :: others) =
      .error ⟨.MissingStyleFormat, n⟩ := by
  apply runStep_process_err
  · rintro ⟨-, h⟩
    exact cons_ne_cons_head (by decide) h
  · exact cons_ne_cons_head (by decide)
  · exact cons_ne_cons_head (by decide)
  · exact generic_styleRow v
  · exact lineParse_styleRow v
  · rw [show Section.processLine (Section.Styles ⟨[], sts⟩)
        (Line.Variable (str "Style: " ++ v)) =
      (StylesSection.processLine ⟨[], sts⟩
        (Line.Variable (str "Style: " ++ v))).map Section.Styles from rfl,
      stylesProcess_style_row]
    rfl

/-- C7: if a prefix of the input leaves the parser in a Styles section with
an empty format (no Format line seen), a following `Style:` data row aborts
the whole parse with the missing-format error at that row's 1-based line
number — line counting starts at 1 for the whole-string entry point and at
2 for the streaming entry point (its line 1 is the `[Script Info]` header
consumed before the loop). -/
theorem claim_C7 {M : F32Model} :
    (∀ (pre post : List Str) (v : Str) (sts : List (Style M))
        (others : List (Section M)),
      runLines M true 1 pre [] = .ok (Section.Styles ⟨[], sts⟩ :: others) →
        runLines M true 1 (pre ++ (str "Style: " ++ v) :: post) [] =
          .error ⟨.MissingStyleFormat, pre.length + 1⟩) ∧
    (∀ (pre post : List Str) (v : Str) (sts : List (Style M))
        (others : List (Section M)),
      runLines M false 2 pre [.ScriptInfo []] =
          .ok (Section.Styles ⟨[], sts⟩ :: others) →
        runLines M false 2 (pre ++ (str "Style: " ++ v) :: post)
            [.ScriptInfo []] =
          .error ⟨.MissingStyleFormat, pre.length + 2⟩) ∧
    Ass.fromStr natFloat (str "[Script Info]\n[V4+ Styles]\nStyle: A") =
      .error ⟨.MissingStyleFormat, 3⟩ ∧
    Ass.fromReader natFloat (str "[Script Info]\n[V4+ Styles]\nStyle: A") =
      .error ⟨.MissingStyleFormat, 3⟩ := by
  refine ⟨?_, ?_, rfl, rfl⟩
  · intro pre post v sts others hpre
    rw [runLines_append, hpre]
    show runLines M true (1 + pre.length) ((str "Style: " ++ v) :: post)
      (Section.Styles ⟨[], sts⟩ :: others) = _
    rw [runLines_cons_err (runStep_styleRow_noFormat M true (1 + pre.length)
      v sts others), Nat.add_comm]
  · intro pre post v sts others hpre
    rw [runLines_append, hpre]
    show runLines M false (2 + pre.length) ((str "Style: " ++ v) :: post)
      (Section.Styles ⟨[], sts⟩ :: others) = _
    rw [runLines_cons_err (runStep_styleRow_noFormat M false (2 + pre.length)
      v sts others), Nat.add_comm]

/-- Witness for C7 at a concrete prefix. -/
theorem claim_C7_witness :
    runLines natFloat true 1 [str "[Script Info]", str "[V4+ Styles]"] [] =
      .ok (Section.Styles ⟨[], []⟩ :: [Section.ScriptInfo []]) ∧
    runLines natFloat true 1
        ([str "[Script Info]", str "[V4+ Styles]"] ++
          (str "Style: " ++ str "A") :: []) [] =
      .error ⟨.MissingStyleFormat,
        [str "[Script Info]", str "[V4+ Styles]"].length + 1⟩ :=
  ⟨rfl, (@claim_C7 natFloat).1 [str "[Script Info]", str "[V4+ Styles]"] []
    (str "A") [] [Section.ScriptInfo []] rfl⟩

/-- C8 (amended): inside the line loop a bracketed line `[title]` that is
not one of the two recognised headers `[V4+ Styles]` and `[Events]` opens a
fresh Generic section — with one exception: the whole-string entry point's
loop has an extra branch matching `[Script Info]` exactly, which opens a
fresh ScriptInfo section (not a Generic one); the streaming entry point has
no such branch, so a repeated `[Script Info]` line opens a Generic section
there. -/
theorem claim_C8 {M : F32Model} :
    (∀ (mode : Bool) (n : Nat) (t : Str) (secs : List (Section M)),
      ('[' :: (t ++ [']'])) ≠ str "[Script Info]" →
      ('[' :: (t ++ [']'])) ≠ str "[V4+ Styles]" →
      ('[' :: (t ++ [']'])) ≠ str "[Events]" →
        runStep M mode n ('[' :: (t ++ [']'])) secs =
          .ok (.Generic t [] :: secs)) ∧
    (∀ (n : Nat) (secs : List (Section M)),
      runStep M true n (str "[Script Info]") secs =
        .ok (.ScriptInfo [] :: secs)) ∧
    (∀ (n : Nat) (secs : List (Section M)),
      runStep M false n (str "[Script Info]") secs =
        .ok (.Generic (str "Script Info") [] :: secs)) ∧
    Ass.fromStr natFloat (str "[Script Info]\n[Script Info]") =
      .ok ⟨[.ScriptInfo [], .ScriptInfo []]⟩ ∧
    Ass.fromReader natFloat (str "[Script Info]\n[Script Info]") =
      .ok ⟨[.ScriptInfo [], .Generic (str "Script Info") []]⟩ := by
  refine ⟨?_, ?_, ?_, rfl, rfl⟩
  · intro mode n t secs h1 h2 h3
    exact runStep_generic M mode n t secs h1 h2 h3
  · intro n secs
    exact runStep_si_str M n secs
  · intro n secs
    exact runStep_si_reader M n secs

/-- Counterexample for C8 as frozen: in the whole-string entry point a
second `[Script Info]` line opens a ScriptInfo section, not a Generic one —
the two constructors are distinct. -/
theorem claim_C8_counterexample :
    Ass.fromStr natFloat (str "[Script Info]\n[Script Info]") =
      .ok ⟨[.ScriptInfo [], .ScriptInfo []]⟩ ∧
    (∀ (t : Str) (ls : List Line),
      (Section.ScriptInfo [] : Section natFloat) ≠ Section.Generic t ls) :=
  ⟨rfl, fun _ _ h => Section.noConfusion h⟩

/-- Witness for C8 at a concrete unrecognised header. -/
theorem claim_C8_witness :
    ('[' :: (str "Fonts" ++ [']'])) ≠ str "[Script Info]" ∧
    ('[' :: (str "Fonts" ++ [']'])) ≠ str "[V4+ Styles]" ∧
    ('[' :: (str "Fonts" ++ [']'])) ≠ str "[Events]" ∧
    runStep natFloat true 5 ('[' :: (str "Fonts" ++ [']'])) [] =
      .ok [.Generic (str "Fonts") []] :=
  ⟨by decide, by decide, by decide,
    (@claim_C8 natFloat).1 true 5 (str "Fonts") []
      (by decide) (by decide) (by decide)⟩

/-- Counterexample for C3 as frozen: a BOM followed by exactly
`[Script Info]` has first content line `[Script Info]` after BOM stripping,
so the claim says parsing proceeds past it — yet the whole-string entry
point rejects it with the missing-script-info error at line 1 (it never
strips the BOM), while the streaming entry point accepts the identical
bytes. -/
theorem claim_C3_counterexample :
    dropBOM ('﻿' :: str "[Script Info]") = str "[Script Info]" ∧
    Ass.fromStr natFloat ('﻿' :: str "[Script Info]") =
      .error ⟨.MissingScriptInfo, 1⟩ ∧
    Ass.fromReader natFloat ('﻿' :: str "[Script Info]") =
      .ok ⟨[.ScriptInfo []]⟩ :=
  ⟨rfl, rfl, rfl⟩

/-- Witness for C3 at a concrete rejected buffer. -/
theorem claim_C3_witness :
    strStartsWith (str "[Script Info]") (str "WEBVTT") = false ∧
      Ass.fromStr natFloat (str "WEBVTT") = .error ⟨.MissingScriptInfo, 1⟩ :=
  ⟨rfl, (@claim_C3 natFloat).2.2.1 (str "WEBVTT") rfl⟩

/-- Elements of `stripCR s` come from `s`. -/
theorem mem_stripCR {c : Char} {s : Str} (h : c ∈ stripCR s) : c ∈ s := by
  unfold stripCR at h
  split_ifs at h
  · exact List.dropLast_subset s h
  · exact h

/-- The last element is a member. -/
theorem getLast?_eq_some_mem {s : Str} {c : Char} (h : s.getLast? = some c) :
    c ∈ s := by
  obtain ⟨p, rfl⟩ := List.getLast?_eq_some_iff.mp h
  simp

/-- `getLast?` skips over a cons onto a nonempty tail. -/
theorem getLast?_cons_ne_nil {s : Str} (h : s ≠ []) (a : Char) :
    (a :: s).getLast? = s.getLast? := by
  cases s with
  | nil => exact absurd rfl h
  | cons b bs => exact List.getLast?_cons_cons

/-- `stripCR` is the identity on a line not ending in a carriage return. -/
theorem stripCR_eq_self {s : Str} (h : s.getLast? ≠ some '\r') : stripCR s = s := by
  unfold stripCR
  rw [if_neg h]

/-- A non-hex-digit character does not occur in a two-digit hex byte. -/
theorem not_mem_hex2 {c : Char} {x : Nat} (hx : x < 256) (h : isHexDigit c = false) :
    c ∉ hex2 x := by
  intro hm
  have := hex2_all_hex hx c hm
  rw [h] at this
  exact Bool.false_ne_true this

/-- Characters of a rendered colour are `&`, `H` and hex digits only. -/
theorem not_mem_colour_render {ch : Char} {c : Colour} (hwf : ColourWF c)
    (h1 : isHexDigit ch = false) (h2 : ch ≠ '&') (h3 : ch ≠ 'H') :
    ch ∉ Colour.render c := by
  obtain ⟨hr, hg, hb, ha⟩ := hwf
  intro hm
  unfold Colour.render at hm
  rcases List.mem_cons.mp hm with rfl | hm
  · exact h2 rfl
  rcases List.mem_cons.mp hm with rfl | hm
  · exact h3 rfl
  simp only [List.mem_append] at hm
  rcases hm with ((hm | hm) | hm) | hm
  · exact not_mem_hex2 ha h1 hm
  · exact not_mem_hex2 hb h1 hm
  · exact not_mem_hex2 hg h1 hm
  · exact not_mem_hex2 hr h1 hm

/-- A rendered boolean flag is `0` or `1`. -/
theorem not_mem_boolField {c : Char} (h0 : c ≠ '0') (h1 : c ≠ '1') (b : Bool) :
    c ∉ boolField b := by
  cases b
  · intro hm
    rw [show boolField false = ['0'] from rfl] at hm
    rcases List.mem_cons.mp hm with rfl | hm
    · exact h0 rfl
    · exact absurd hm (List.not_mem_nil c)
  · intro hm
    rw [show boolField true = ['1'] from rfl] at hm
    rcases List.mem_cons.mp hm with rfl | hm
    · exact h1 rfl
    · exact absurd hm (List.not_mem_nil c)

/-- Characters of a rendered duration are digits, `:` and `.` only. -/
theorem not_mem_assDurationRender {c : Char} (hd : isAsciiDigit c = false)
    (h1 : c ≠ ':') (h2 : c ≠ '.') (d : Nat) : c ∉ assDurationRender d := by
  intro hm
  rw [show assDurationRender d = natRepr (d / 10 ^ 6 / 10 / 360000) ++
      ':' :: pad2 (d / 10 ^ 6 / 10 / 6000 % 60) ++
      ':' :: pad2 (d / 10 ^ 6 / 10 / 100 % 60) ++
      '.' :: pad2 (d / 10 ^ 6 / 10 % 100) from rfl] at hm
  simp only [List.mem_append, List.mem_cons] at hm
  rcases hm with ((hm | (rfl | hm)) | (rfl | hm)) | (rfl | hm)
  · exact not_mem_natRepr hd _ hm
  · exact h1 rfl
  · exact not_mem_pad2 hd _ hm
  · exact h1 rfl
  · exact not_mem_pad2 hd _ hm
  · exact h2 rfl
  · exact not_mem_pad2 hd _ hm

/-- A character that is not the separator and occurs in no piece does not
occur in the join. -/
theorem not_mem_joinChar {c sep : Char} (hc : c ≠ sep) :
    ∀ (ts : List Str), (∀ t ∈ ts, c ∉ t) → c ∉ joinChar sep ts := by
  intro ts
  induction ts with
  | nil => intro _ hm; exact absurd hm (List.not_mem_nil c)
  | cons x L ih =>
    intro hf hm
    match L with
    | [] => exact hf x (List.mem_cons_self _ _) hm
    | y :: ys =>
      rw [joinChar_cons sep x (y :: ys) (by simp)] at hm
      rcases List.mem_append.mp hm with hm | hm
      · exact hf x (List.mem_cons_self _ _) hm
      · rcases List.mem_cons.mp hm with rfl | hm
        · exact hc rfl
        · exact ih (fun t ht => hf t (List.mem_cons_of_mem _ ht)) hm

/-- A join ending in a nonempty piece is nonempty. -/
theorem joinChar_concat_ne_nil (c : Char) (ts : List Str) (t : Str) (ht : t ≠ []) :
    joinChar c (ts ++ [t]) ≠ [] := by
  cases ts with
  | nil => exact ht
  | cons z zs =>
    rw [show (z :: zs) ++ [t] = z :: (zs ++ [t]) from rfl,
      joinChar_cons c z (zs ++ [t]) (by simp)]
    intro h0
    obtain ⟨-, h2⟩ := List.append_eq_nil.mp h0
    exact List.noConfusion h2

/-- The last character of a join ending in a nonempty piece is that piece's
last character. -/
theorem joinChar_concat_getLast (c : Char) :
    ∀ (ts : List Str) (t : Str), t ≠ [] →
      (joinChar c (ts ++ [t])).getLast? = t.getLast? := by
  intro ts
  induction ts with
  | nil => intro t _; rfl
  | cons x ts ih =>
    intro t ht
    rw [show (x :: ts) ++ [t] = x :: (ts ++ [t]) from rfl,
      joinChar_cons c x (ts ++ [t]) (by simp),
      List.getLast?_append_of_ne_nil x (by simp),
      getLast?_cons_ne_nil (joinChar_concat_ne_nil c ts t ht) c]
    exact ih t ht

/-- The last character of a join ending in an empty piece (with at least one
earlier piece) is the separator. -/
theorem joinChar_concat_nil_getLast (c : Char) :
    ∀ (ts : List Str), ts ≠ [] → (joinChar c (ts ++ [[]])).getLast? = some c := by
  intro ts
  induction ts with
  | nil => intro h; exact absurd rfl h
  | cons x ts ih =>
    intro _
    rw [show (x :: ts) ++ [[]] = x :: (ts ++ [[]]) from rfl,
      joinChar_cons c x (ts ++ [[]]) (by simp),
      List.getLast?_append_of_ne_nil x (by simp)]
    cases ts with
    | nil => rfl
    | cons y ys =>
      have hne : joinChar c ((y :: ys) ++ [[]]) ≠ [] := by
        rw [show (y :: ys) ++ [[]] = y :: (ys ++ [[]]) from rfl,
          joinChar_cons c y (ys ++ [[]]) (by simp)]
        intro h0
        obtain ⟨-, h2⟩ := List.append_eq_nil.mp h0
        exact List.noConfusion h2
      rw [getLast?_cons_ne_nil hne c]
      exact ih (by simp)

/-- No field of a serialized style row contains a comma. -/
theorem styleFields_comma_free {M : F32Model} (hnc : FNoComma M)
    {st : Style M} (hwf : StyleWF st) : ∀ t ∈ Style.rowFields st, ',' ∉ t := by
  obtain ⟨⟨hn, -⟩, ⟨hf, -⟩, -, -, -, -, -, -, -, hc1, hc2, hc3, hc4⟩ := hwf
  intro t ht
  have hhex : isHexDigit ',' = false := by decide
  have hdig : isAsciiDigit ',' = false := by decide
  rw [show Style.rowFields st = [st.name, st.fontName, natRepr st.fontSize,
      st.primaryColour.render, st.secondaryColour.render, st.outlineColour.render,
      st.backgroundColour.render, boolField st.bold, boolField st.italic,
      boolField st.underline, boolField st.striked, M.frender st.scaleX,
      M.frender st.scaleY, M.frender st.spacing, M.frender st.angle,
      natRepr st.borderStyle, M.frender st.outline, M.frender st.shadow,
      natRepr st.alignment, natRepr st.marginL, natRepr st.marginR,
      natRepr st.marginV, natRepr st.encoding] from rfl] at ht
  simp only [List.mem_cons, List.not_mem_nil, or_false] at ht
  rcases ht with rfl|rfl|rfl|rfl|rfl|rfl|rfl|rfl|rfl|rfl|rfl|rfl|rfl|rfl|rfl|rfl|rfl|rfl|rfl|rfl|rfl|rfl|rfl
  · exact hn
  · exact hf
  · exact not_mem_natRepr hdig _
  · exact not_mem_colour_render hc1 hhex (by decide) (by decide)
  · exact not_mem_colour_render hc2 hhex (by decide) (by decide)
  · exact not_mem_colour_render hc3 hhex (by decide) (by decide)
  · exact not_mem_colour_render hc4 hhex (by decide) (by decide)
  · exact not_mem_boolField (by decide) (by decide) _
  · exact not_mem_boolField (by decide) (by decide) _
  · exact not_mem_boolField (by decide) (by decide) _
  · exact not_mem_boolField (by decide) (by decide) _
  · exact hnc _
  · exact hnc _
  · exact hnc _
  · exact hnc _
  · exact not_mem_natRepr hdig _
  · exact hnc _
  · exact hnc _
  · exact not_mem_natRepr hdig _
  · exact not_mem_natRepr hdig _
  · exact not_mem_natRepr hdig _
  · exact not_mem_natRepr hdig _
  · exact not_mem_natRepr hdig _

/-- No field of a serialized style row contains a newline. -/
theorem styleFields_nl_free {M : F32Model} (hnl : FNoNewline M)
    {st : Style M} (hwf : StyleWF st) : ∀ t ∈ Style.rowFields st, '\n' ∉ t := by
  obtain ⟨⟨-, hn⟩, ⟨-, hf⟩, -, -, -, -, -, -, -, hc1, hc2, hc3, hc4⟩ := hwf
  intro t ht
  have hhex : isHexDigit '\n' = false := by decide
  have hdig : isAsciiDigit '\n' = false := by decide
  rw [show Style.rowFields st = [st.name, st.fontName, natRepr st.fontSize,
      st.primaryColour.render, st.secondaryColour.render, st.outlineColour.render,
      st.backgroundColour.render, boolField st.bold, boolField st.italic,
      boolField st.underline, boolField st.striked, M.frender st.scaleX,
      M.frender st.scaleY, M.frender st.spacing, M.frender st.angle,
      natRepr st.borderStyle, M.frender st.outline, M.frender st.shadow,
      natRepr st.alignment, natRepr st.marginL, natRepr st.marginR,
      natRepr st.marginV, natRepr st.encoding] from rfl] at ht
  simp only [List.mem_cons, List.not_mem_nil, or_false] at ht
  rcases ht with rfl|rfl|rfl|rfl|rfl|rfl|rfl|rfl|rfl|rfl|rfl|rfl|rfl|rfl|rfl|rfl|rfl|rfl|rfl|rfl|rfl|rfl|rfl
  · exact hn
  · exact hf
  · exact not_mem_natRepr hdig _
  · exact not_mem_colour_render hc1 hhex (by decide) (by decide)
  · exact not_mem_colour_render hc2 hhex (by decide) (by decide)
  · exact not_mem_colour_render hc3 hhex (by decide) (by decide)
  · exact not_mem_colour_render hc4 hhex (by decide) (by decide)
  · exact not_mem_boolField (by decide) (by decide) _
  · exact not_mem_boolField (by decide) (by decide) _
  · exact not_mem_boolField (by decide) (by decide) _
  · exact not_mem_boolField (by decide) (by decide) _
  · exact hnl _
  · exact hnl _
  · exact hnl _
  · exact hnl _
  · exact not_mem_natRepr hdig _
  · exact hnl _
  · exact hnl _
  · exact not_mem_natRepr hdig _
  · exact not_mem_natRepr hdig _
  · exact not_mem_natRepr hdig _
  · exact not_mem_natRepr hdig _
  · exact not_mem_natRepr hdig _

/-- No field of a serialized event row contains a newline. -/
theorem eventFields_nl_free {ev : Event} (hwf : EventWF ev) :
    ∀ t ∈ Event.rowFields ev, '\n' ∉ t := by
  obtain ⟨hs, hn, he, ht', -, -, -, -, -, -⟩ := hwf
  intro t ht
  have hdig : isAsciiDigit '\n' = false := by decide
  rw [show Event.rowFields ev = [natRepr ev.layer, assDurationRender ev.start,
      assDurationRender ev.endTime, ev.style, ev.name, natRepr ev.marginL,
      natRepr ev.marginR, natRepr ev.marginV, ev.effect, ev.text] from rfl] at ht
  simp only [List.mem_cons, List.not_mem_nil, or_false] at ht
  rcases ht with rfl|rfl|rfl|rfl|rfl|rfl|rfl|rfl|rfl|rfl
  · exact not_mem_natRepr hdig _
  · exact not_mem_assDurationRender hdig (by decide) (by decide) _
  · exact not_mem_assDurationRender hdig (by decide) (by decide) _
  · exact hs
  · exact hn
  · exact not_mem_natRepr hdig _
  · exact not_mem_natRepr hdig _
  · exact not_mem_natRepr hdig _
  · exact he
  · exact ht'

/-- Under the roundtrip side conditions, the nine non-final fields of a
serialized event row are comma-free. -/
theorem eventFields_front_comma_free {ev : Event} (hrt : EventRT ev) :
    ∀ t ∈ (Event.rowFields ev).dropLast, ',' ∉ t := by
  obtain ⟨hs, hn, he, -⟩ := hrt
  intro t ht
  have hdig : isAsciiDigit ',' = false := by decide
  rw [show (Event.rowFields ev).dropLast = [natRepr ev.layer,
      assDurationRender ev.start, assDurationRender ev.endTime, ev.style, ev.name,
      natRepr ev.marginL, natRepr ev.marginR, natRepr ev.marginV, ev.effect]
      from rfl] at ht
  simp only [List.mem_cons, List.not_mem_nil, or_false] at ht
  rcases ht with rfl|rfl|rfl|rfl|rfl|rfl|rfl|rfl|rfl
  · exact not_mem_natRepr hdig _
  · exact not_mem_assDurationRender hdig (by decide) (by decide) _
  · exact not_mem_assDurationRender hdig (by decide) (by decide) _
  · exact hs
  · exact hn
  · exact not_mem_natRepr hdig _
  · exact not_mem_natRepr hdig _
  · exact not_mem_natRepr hdig _
  · exact he

/-- One successful step of the style field fold. -/
theorem styleFold_cons {M : F32Model} {b b' : Style M} {p : Str × Str}
    (rest : List (Str × Str)) (h : applyStyleField M b p = some b') :
    List.foldlM (applyStyleField M) b (p :: rest) =
      List.foldlM (applyStyleField M) b' rest := by
  rw [show List.foldlM (applyStyleField M) b (p :: rest) =
      Option.bind (applyStyleField M b p)
        (fun x => List.foldlM (applyStyleField M) x rest) from rfl, h]
  rfl

/-- One successful step of the event field fold. -/
theorem eventFold_cons {b b' : Event} {p : Str × Str}
    (rest : List (Str × Str)) (h : applyEventField b p = some b') :
    List.foldlM applyEventField b (p :: rest) =
      List.foldlM applyEventField b' rest := by
  rw [show List.foldlM applyEventField b (p :: rest) =
      Option.bind (applyEventField b p)
        (fun x => List.foldlM applyEventField x rest) from rfl, h]
  rfl

/-- The `natFloat` model satisfies the `f32` roundtrip contract. -/
theorem natFloat_roundtrip : FRoundtrip natFloat := by
  intro x
  show (if natRepr x ≠ [] ∧ (natRepr x).all isAsciiDigit = true then
    some (decDigitsVal (natRepr x)) else none) = some x
  rw [if_pos ⟨natRepr_ne_nil x, List.all_eq_true.mpr (natRepr_all_digits x)⟩,
    decDigitsVal_natRepr]

/-- The `natFloat` model renders without commas. -/
theorem natFloat_noComma : FNoComma natFloat := fun x =>
  not_mem_natRepr (by decide) x

/-- The `natFloat` model renders without newlines. -/
theorem natFloat_noNewline : FNoNewline natFloat := fun x =>
  not_mem_natRepr (by decide) x

/-- Field step: `Name`. -/
theorem applyStyle_Name {M : F32Model} (s : Style M) (v : Str) :
    applyStyleField M s (str "Name", v) = some { s with name := v } := rfl

/-- Field step: `Fontname`. -/
theorem applyStyle_Fontname {M : F32Model} (s : Style M) (v : Str) :
    applyStyleField M s (str "Fontname", v) = some { s with fontName := v } := rfl

/-- Field step: `Fontsize`. -/
theorem applyStyle_Fontsize {M : F32Model} (s : Style M) {n : Nat} (h : n < 2 ^ 8) :
    applyStyleField M s (str "Fontsize", natRepr n) =
      some { s with fontSize := n } := by
  show (parseUnsigned (2 ^ 8) (natRepr n)).map (fun v => ({ s with fontSize := v } : Style M)) = _
  rw [parseUnsigned_natRepr h, Option.map_some']

/-- Field step: `PrimaryColour`. -/
theorem applyStyle_Primary {M : F32Model} (s : Style M) {c : Colour}
    (h : ColourWF c) :
    applyStyleField M s (str "PrimaryColour", Colour.render c) =
      some { s with primaryColour := c } := by
  show (Colour.fromAss (Colour.render c)).map
    (fun x => ({ s with primaryColour := x } : Style M)) = _
  rw [Colour.fromAss_render h, Option.map_some']

/-- Field step: `SecondaryColour`. -/
theorem applyStyle_Secondary {M : F32Model} (s : Style M) {c : Colour}
    (h : ColourWF c) :
    applyStyleField M s (str "SecondaryColour", Colour.render c) =
      some { s with secondaryColour := c } := by
  show (Colour.fromAss (Colour.render c)).map
    (fun x => ({ s with secondaryColour := x } : Style M)) = _
  rw [Colour.fromAss_render h, Option.map_some']

/-- Field step: `OutlineColour`. -/
theorem applyStyle_Outline {M : F32Model} (s : Style M) {c : Colour}
    (h : ColourWF c) :
    applyStyleField M s (str "OutlineColour", Colour.render c) =
      some { s with outlineColour := c } := by
  show (Colour.fromAss (Colour.render c)).map
    (fun x => ({ s with outlineColour := x } : Style M)) = _
  rw [Colour.fromAss_render h, Option.map_some']

/-- Field step: `BackColour`. -/
theorem applyStyle_Back {M : F32Model} (s : Style M) {c : Colour}
    (h : ColourWF c) :
    applyStyleField M s (str "BackColour", Colour.render c) =
      some { s with backgroundColour := c } := by
  show (Colour.fromAss (Colour.render c)).map
    (fun x => ({ s with backgroundColour := x } : Style M)) = _
  rw [Colour.fromAss_render h, Option.map_some']

/-- Field step: `Bold`. -/
theorem applyStyle_Bold {M : F32Model} (s : Style M) (b : Bool) :
    applyStyleField M s (str "Bold", boolField b) = some { s with bold := b } := by
  cases b <;> rfl

/-- Field step: `Italic`. -/
theorem applyStyle_Italic {M : F32Model} (s : Style M) (b : Bool) :
    applyStyleField M s (str "Italic", boolField b) =
      some { s with italic := b } := by
  cases b <;> rfl

/-- Field step: `Underline`. -/
theorem applyStyle_Underline {M : F32Model} (s : Style M) (b : Bool) :
    applyStyleField M s (str "Underline", boolField b) =
      some { s with underline := b } := by
  cases b <;> rfl

/-- Field step: `StrikeOut`. -/
theorem applyStyle_StrikeOut {M : F32Model} (s : Style M) (b : Bool) :
    applyStyleField M s (str "StrikeOut", boolField b) =
      some { s with striked := b } := by
  cases b <;> rfl

/-- Field step: `ScaleX`. -/
theorem applyStyle_ScaleX {M : F32Model} (hrt : FRoundtrip M) (s : Style M)
    (x : M.F) :
    applyStyleField M s (str "ScaleX", M.frender x) =
      some { s with scaleX := x } := by
  show (M.fparse (M.frender x)).map (fun v => ({ s with scaleX := v } : Style M)) = _
  rw [hrt x, Option.map_some']

/-- Field step: `ScaleY`. -/
theorem applyStyle_ScaleY {M : F32Model} (hrt : FRoundtrip M) (s : Style M)
    (x : M.F) :
    applyStyleField M s (str "ScaleY", M.frender x) =
      some { s with scaleY := x } := by
  show (M.fparse (M.frender x)).map (fun v => ({ s with scaleY := v } : Style M)) = _
  rw [hrt x, Option.map_some']

/-- Field step: `Spacing`. -/
theorem applyStyle_Spacing {M : F32Model} (hrt : FRoundtrip M) (s : Style M)
    (x : M.F) :
    applyStyleField M s (str "Spacing", M.frender x) =
      some { s with spacing := x } := by
  show (M.fparse (M.frender x)).map (fun v => ({ s with spacing := v } : Style M)) = _
  rw [hrt x, Option.map_some']

/-- Field step: `Angle`. -/
theorem applyStyle_Angle {M : F32Model} (hrt : FRoundtrip M) (s : Style M)
    (x : M.F) :
    applyStyleField M s (str "Angle", M.frender x) =
      some { s with angle := x } := by
  show (M.fparse (M.frender x)).map (fun v => ({ s with angle := v } : Style M)) = _
  rw [hrt x, Option.map_some']

/-- Field step: `BorderStyle`. -/
theorem applyStyle_BorderStyle {M : F32Model} (s : Style M) {n : Nat}
    (h : n < 2 ^ 8) :
    applyStyleField M s (str "BorderStyle", natRepr n) =
      some { s with borderStyle := n } := by
  show (parseUnsigned (2 ^ 8) (natRepr n)).map
    (fun v => ({ s with borderStyle := v } : Style M)) = _
  rw [parseUnsigned_natRepr h, Option.map_some']

/-- Field step: `Outline`. -/
theorem applyStyle_OutlineW {M : F32Model} (hrt : FRoundtrip M) (s : Style M)
    (x : M.F) :
    applyStyleField M s (str "Outline", M.frender x) =
      some { s with outline := x } := by
  show (M.fparse (M.frender x)).map (fun v => ({ s with outline := v } : Style M)) = _
  rw [hrt x, Option.map_some']

/-- Field step: `Shadow`. -/
theorem applyStyle_Shadow {M : F32Model} (hrt : FRoundtrip M) (s : Style M)
    (x : M.F) :
    applyStyleField M s (str "Shadow", M.frender x) =
      some { s with shadow := x } := by
  show (M.fparse (M.frender x)).map (fun v => ({ s with shadow := v } : Style M)) = _
  rw [hrt x, Option.map_some']

/-- Field step: `Alignment`. -/
theorem applyStyle_Alignment {M : F32Model} (s : Style M) {n : Nat}
    (h : n < 2 ^ 8) :
    applyStyleField M s (str "Alignment", natRepr n) =
      some { s with alignment := n } := by
  show (parseUnsigned (2 ^ 8) (natRepr n)).map
    (fun v => ({ s with alignment := v } : Style M)) = _
  rw [parseUnsigned_natRepr h, Option.map_some']

/-- Field step: `MarginL`. -/
theorem applyStyle_MarginL {M : F32Model} (s : Style M) {n : Nat}
    (h : n < 2 ^ 16) :
    applyStyleField M s (str "MarginL", natRepr n) =
      some { s with marginL := n } := by
  show (parseUnsigned (2 ^ 16) (natRepr n)).map
    (fun v => ({ s with marginL := v } : Style M)) = _
  rw [parseUnsigned_natRepr h, Option.map_some']

/-- Field step: `MarginR`. -/
theorem applyStyle_MarginR {M : F32Model} (s : Style M) {n : Nat}
    (h : n < 2 ^ 16) :
    applyStyleField M s (str "MarginR", natRepr n) =
      some { s with marginR := n } := by
  show (parseUnsigned (2 ^ 16) (natRepr n)).map
    (fun v => ({ s with marginR := v } : Style M)) = _
  rw [parseUnsigned_natRepr h, Option.map_some']

/-- Field step: `MarginV`. -/
theorem applyStyle_MarginV {M : F32Model} (s : Style M) {n : Nat}
    (h : n < 2 ^ 16) :
    applyStyleField M s (str "MarginV", natRepr n) =
      some { s with marginV := n } := by
  show (parseUnsigned (2 ^ 16) (natRepr n)).map
    (fun v => ({ s with marginV := v } : Style M)) = _
  rw [parseUnsigned_natRepr h, Option.map_some']

/-- Field step: `Encoding`. -/
theorem applyStyle_Encoding {M : F32Model} (s : Style M) {n : Nat}
    (h : n < 2 ^ 8) :
    applyStyleField M s (str "Encoding", natRepr n) =
      some { s with encoding := n } := by
  show (parseUnsigned (2 ^ 8) (natRepr n)).map
    (fun v => ({ s with encoding := v } : Style M)) = _
  rw [parseUnsigned_natRepr h, Option.map_some']

set_option maxRecDepth 4000 in
/-- Re-parsing a serialized style row under the canonical format recovers
every field of the style. -/
theorem style_row_roundtrip {M : F32Model} (hrt : FRoundtrip M) (hnc : FNoComma M)
    (sts : List (Style M)) (st : Style M) (hwf : StyleWF st) :
    StylesSection.style_from_format ⟨canonStylesFormat, sts⟩
      (joinChar ',' st.rowFields) = some st := by
  have hsplit : splitOnChar ',' (joinChar ',' st.rowFields) = st.rowFields :=
    splitOnChar_join ',' _ (fun h => List.noConfusion h)
      (styleFields_comma_free hnc hwf)
  obtain ⟨⟨hn, hn2⟩, ⟨hf, hf2⟩, hfs, hbs, hal, hen, hml, hmr, hmv,
    hc1, hc2, hc3, hc4⟩ := hwf
  show List.foldlM (applyStyleField M) (Style.defaultStyle M)
    (canonStylesFormat.zip (splitOnChar ',' (joinChar ',' st.rowFields))) = some st
  rw [hsplit]
  show List.foldlM (applyStyleField M) (Style.defaultStyle M)
    ((str "Name", st.name) :: (str "Fontname", st.fontName) ::
     (str "Fontsize", natRepr st.fontSize) ::
     (str "PrimaryColour", st.primaryColour.render) ::
     (str "SecondaryColour", st.secondaryColour.render) ::
     (str "OutlineColour", st.outlineColour.render) ::
     (str "BackColour", st.backgroundColour.render) ::
     (str "Bold", boolField st.bold) :: (str "Italic", boolField st.italic) ::
     (str "Underline", boolField st.underline) ::
     (str "StrikeOut", boolField st.striked) ::
     (str "ScaleX", M.frender st.scaleX) :: (str "ScaleY", M.frender st.scaleY) ::
     (str "Spacing", M.frender st.spacing) :: (str "Angle", M.frender st.angle) ::
     (str "BorderStyle", natRepr st.borderStyle) ::
     (str "Outline", M.frender st.outline) :: (str "Shadow", M.frender st.shadow) ::
     (str "Alignment", natRepr st.alignment) ::
     (str "MarginL", natRepr st.marginL) :: (str "MarginR", natRepr st.marginR) ::
     (str "MarginV", natRepr st.marginV) ::
     (str "Encoding", natRepr st.encoding) :: []) = some st
  rw [styleFold_cons _ (applyStyle_Name _ _),
    styleFold_cons _ (applyStyle_Fontname _ _),
    styleFold_cons _ (applyStyle_Fontsize _ hfs),
    styleFold_cons _ (applyStyle_Primary _ hc1),
    styleFold_cons _ (applyStyle_Secondary _ hc2),
    styleFold_cons _ (applyStyle_Outline _ hc3),
    styleFold_cons _ (applyStyle_Back _ hc4),
    styleFold_cons _ (applyStyle_Bold _ _),
    styleFold_cons _ (applyStyle_Italic _ _),
    styleFold_cons _ (applyStyle_Underline _ _),
    styleFold_cons _ (applyStyle_StrikeOut _ _),
    styleFold_cons _ (applyStyle_ScaleX hrt _ _),
    styleFold_cons _ (applyStyle_ScaleY hrt _ _),
    styleFold_cons _ (applyStyle_Spacing hrt _ _),
    styleFold_cons _ (applyStyle_Angle hrt _ _),
    styleFold_cons _ (applyStyle_BorderStyle _ hbs),
    styleFold_cons _ (applyStyle_OutlineW hrt _ _),
    styleFold_cons _ (applyStyle_Shadow hrt _ _),
    styleFold_cons _ (applyStyle_Alignment _ hal),
    styleFold_cons _ (applyStyle_MarginL _ hml),
    styleFold_cons _ (applyStyle_MarginR _ hmr),
    styleFold_cons _ (applyStyle_MarginV _ hmv),
    styleFold_cons _ (applyStyle_Encoding _ hen)]
  rfl

/-- Field step: `Layer`. -/
theorem applyEvent_Layer (s : Event) {n : Nat} (h : n < 2 ^ 8) :
    applyEventField s (str "Layer", natRepr n) = some { s with layer := n } := by
  show (parseUnsigned (2 ^ 8) (natRepr n)).map (fun v => ({ s with layer := v } : Event)) = _
  rw [parseUnsigned_natRepr h, Option.map_some']

/-- Field step: `Start`. -/
theorem applyEvent_Start (s : Event) {d : Nat} (h : DurWF d) :
    applyEventField s (str "Start", assDurationRender d) =
      some { s with start := d } := by
  obtain ⟨h1, h2⟩ := h
  show (ass_timestamp_to_duration (assDurationRender d)).map
    (fun x => ({ s with start := x } : Event)) = _
  rw [ass_duration_roundtrip h2, show 10 ^ 7 * (d / 10 ^ 7) = d from by omega,
    Option.map_some']

/-- Field step: `End`. -/
theorem applyEvent_End (s : Event) {d : Nat} (h : DurWF d) :
    applyEventField s (str "End", assDurationRender d) =
      some { s with endTime := d } := by
  obtain ⟨h1, h2⟩ := h
  show (ass_timestamp_to_duration (assDurationRender d)).map
    (fun x => ({ s with endTime := x } : Event)) = _
  rw [ass_duration_roundtrip h2, show 10 ^ 7 * (d / 10 ^ 7) = d from by omega,
    Option.map_some']

/-- Field step: `Style`. -/
theorem applyEvent_Style (s : Event) (v : Str) :
    applyEventField s (str "Style", v) = some { s with style := v } := rfl

/-- Field step: `Name`. -/
theorem applyEvent_Name (s : Event) (v : Str) :
    applyEventField s (str "Name", v) = some { s with name := v } := rfl

/-- Field step: `MarginL`. -/
theorem applyEvent_MarginL (s : Event) {n : Nat} (h : n < 2 ^ 16) :
    applyEventField s (str "MarginL", natRepr n) =
      some { s with marginL := n } := by
  show (parseUnsigned (2 ^ 16) (natRepr n)).map
    (fun v => ({ s with marginL := v } : Event)) = _
  rw [parseUnsigned_natRepr h, Option.map_some']

/-- Field step: `MarginR`. -/
theorem applyEvent_MarginR (s : Event) {n : Nat} (h : n < 2 ^ 16) :
    applyEventField s (str "MarginR", natRepr n) =
      some { s with marginR := n } := by
  show (parseUnsigned (2 ^ 16) (natRepr n)).map
    (fun v => ({ s with marginR := v } : Event)) = _
  rw [parseUnsigned_natRepr h, Option.map_some']

/-- Field step: `MarginV`. -/
theorem applyEvent_MarginV (s : Event) {n : Nat} (h : n < 2 ^ 16) :
    applyEventField s (str "MarginV", natRepr n) =
      some { s with marginV := n } := by
  show (parseUnsigned (2 ^ 16) (natRepr n)).map
    (fun v => ({ s with marginV := v } : Event)) = _
  rw [parseUnsigned_natRepr h, Option.map_some']

/-- Field step: `Effect`. -/
theorem applyEvent_Effect (s : Event) (v : Str) :
    applyEventField s (str "Effect", v) = some { s with effect := v } := rfl

/-- Field step: `Text`. -/
theorem applyEvent_Text (s : Event) (v : Str) :
    applyEventField s (str "Text", v) = some { s with text := v } := rfl

set_option maxRecDepth 4000 in
/-- Re-parsing a serialized event row under the canonical format recovers
every field of the event. -/
theorem event_row_roundtrip (evs : List Event) (ev : Event) (hwf : EventWF ev)
    (hrt : EventRT ev) :
    EventsSection.event_from_format ⟨canonEventsFormat, evs⟩ ev.kind
      (joinChar ',' ev.rowFields) = some ev := by
  have hsplit : splitNChar canonEventsFormat.length ','
      (joinChar ',' ev.rowFields) = ev.rowFields :=
    splitNChar_of_join ',' _ rfl (by decide) (eventFields_front_comma_free hrt)
  obtain ⟨hsn, hnn, hen, htn, hl, hml, hmr, hmv, hd1, hd2⟩ := hwf
  show List.foldlM applyEventField { Event.defaultEvent with kind := ev.kind }
    (canonEventsFormat.zip (splitNChar canonEventsFormat.length ','
      (joinChar ',' ev.rowFields))) = some ev
  rw [hsplit]
  show List.foldlM applyEventField { Event.defaultEvent with kind := ev.kind }
    ((str "Layer", natRepr ev.layer) :: (str "Start", assDurationRender ev.start) ::
     (str "End", assDurationRender ev.endTime) :: (str "Style", ev.style) ::
     (str "Name", ev.name) :: (str "MarginL", natRepr ev.marginL) ::
     (str "MarginR", natRepr ev.marginR) :: (str "MarginV", natRepr ev.marginV) ::
     (str "Effect", ev.effect) :: (str "Text", ev.text) :: []) = some ev
  rw [eventFold_cons _ (applyEvent_Layer _ hl),
    eventFold_cons _ (applyEvent_Start _ hd1),
    eventFold_cons _ (applyEvent_End _ hd2),
    eventFold_cons _ (applyEvent_Style _ _),
    eventFold_cons _ (applyEvent_Name _ _),
    eventFold_cons _ (applyEvent_MarginL _ hml),
    eventFold_cons _ (applyEvent_MarginR _ hmr),
    eventFold_cons _ (applyEvent_MarginV _ hmv),
    eventFold_cons _ (applyEvent_Effect _ _),
    eventFold_cons _ (applyEvent_Text _ _)]
  rfl

/-- A colour produced by `Colour::from_ass` has byte-range channels. -/
theorem fromAss_wf {s : Str} {c : Colour} (h : Colour.fromAss s = some c) :
    ColourWF c := by
  unfold Colour.fromAss at h
  split at h
  · rw [Option.map_eq_some'] at h
    obtain ⟨num, h1, h2⟩ := h
    subst h2
    refine ⟨?_, ?_, ?_, ?_⟩
    · show num % 256 < 256
      omega
    · show num / 2 ^ 8 % 256 < 256
      omega
    · show num / 2 ^ 16 % 256 < 256
      omega
    · show num / 2 ^ 24 % 256 < 256
      omega
  · exact absurd h (by simp)

/-- A duration produced by the timestamp decoder is a whole number of
centiseconds within the representation bound. -/
theorem ass_timestamp_to_duration_wf {s : Str} {d : Nat}
    (h : ass_timestamp_to_duration s = some d) : DurWF d := by
  unfold ass_timestamp_to_duration at h
  rw [Option.bind_eq_some] at h
  obtain ⟨⟨hh, mm, ss, cs⟩, h1, h2⟩ := h
  have h2' : (if cs * 10000000 < 2 ^ 32 ∧ hh * 3600 + mm * 60 + ss < 2 ^ 64 ∧
      hh * 3600 + mm * 60 + ss + cs * 10000000 / 10 ^ 9 < 2 ^ 64 then
      some ((hh * 3600 + mm * 60 + ss) * 10 ^ 9 + cs * 10000000)
    else none) = some d := h2
  split_ifs at h2' with hg
  · obtain ⟨hg1, hg2, hg3⟩ := hg
    have hd := Option.some.inj h2'
    constructor
    · omega
    · omega

/-- A successful prefix test decomposes the subject. -/
theorem strStartsWith_eq_append : ∀ {p s : Str}, strStartsWith p s = true →
    s = p ++ s.drop p.length := by
  intro p
  induction p with
  | nil => intro s _; rfl
  | cons a as ih =>
    intro s h
    match s, h with
    | [], h => exact Bool.noConfusion h
    | b :: bs, h =>
      have h' : (a == b && strStartsWith as bs) = true := h
      rw [Bool.and_eq_true] at h'
      obtain ⟨h1, h2⟩ := h'
      have hab : a = b := beq_iff_eq.mp h1
      subst hab
      show a :: bs = a :: (as ++ List.drop as.length bs)
      rw [← ih h2]

/-- A string starts with each of its prefixes. -/
theorem strStartsWith_append (p r : Str) : strStartsWith p (p ++ r) = true := by
  induction p with
  | nil => rfl
  | cons a as ih =>
    show (a == a && strStartsWith as (as ++ r)) = true
    rw [beq_self_eq_true, ih]
    rfl

/-- Extending the subject preserves a successful prefix test. -/
theorem strStartsWith_prefix_append {p x : Str} (h : strStartsWith p x = true)
    (r : Str) : strStartsWith p (x ++ r) = true := by
  rw [strStartsWith_eq_append h, List.append_assoc]
  exact strStartsWith_append p _

/-- A successful `split_once(sep)` decomposes the subject. -/
theorem splitOnceSeq_eq_some {sep : Str} :
    ∀ {s a b : Str}, splitOnceSeq sep s = some (a, b) → s = a ++ sep ++ b := by
  intro s
  induction s with
  | nil => intro a b h; exact Option.noConfusion h
  | cons x xs ih =>
    intro a b h
    have h' : (if strStartsWith sep (x :: xs) = true then
        some (([] : Str), (x :: xs).drop sep.length)
      else (splitOnceSeq sep xs).map (fun p => (x :: p.1, p.2))) = some (a, b) := h
    split_ifs at h' with hsw
    · have heq := Option.some.inj h'
      rw [Prod.mk.injEq] at heq
      obtain ⟨ha, hb⟩ := heq
      subst ha
      subst hb
      show x :: xs = [] ++ sep ++ (x :: xs).drop sep.length
      rw [List.nil_append]
      exact strStartsWith_eq_append hsw
    · rw [Option.map_eq_some'] at h'
      obtain ⟨⟨a1, b1⟩, hp, heq⟩ := h'
      rw [Prod.mk.injEq] at heq
      obtain ⟨ha, hb⟩ := heq
      subst ha
      subst hb
      show x :: xs = (x :: a1) ++ sep ++ b1
      rw [ih hp]
      rfl

/-- A string containing the separator as an inner segment splits. -/
theorem splitOnceSeq_isSome_append (sep a b : Str) (hsep : sep ≠ []) :
    (splitOnceSeq sep (a ++ sep ++ b)).isSome = true := by
  induction a with
  | nil =>
    show (splitOnceSeq sep ([] ++ sep ++ b)).isSome = true
    rw [List.nil_append]
    match sep, hsep with
    | c :: cs, _ =>
      rw [show ((c :: cs) ++ b : Str) = c :: (cs ++ b) from rfl]
      unfold splitOnceSeq
      rw [show strStartsWith (c :: cs) (c :: (cs ++ b)) = true from
        strStartsWith_append (c :: cs) b]
      rfl
  | cons x a' ih =>
    show (splitOnceSeq sep ((x :: a') ++ sep ++ b)).isSome = true
    rw [show ((x :: a') ++ sep ++ b : Str) = x :: (a' ++ sep ++ b) from rfl]
    unfold splitOnceSeq
    by_cases hsw : strStartsWith sep (x :: (a' ++ sep ++ b)) = true
    · rw [if_pos hsw]
      rfl
    · rw [if_neg hsw, Option.isSome_map']
      exact ih

/-- Characters of `splitOnChar` pieces come from the input. -/
theorem splitOnChar_chars (c : Char) :
    ∀ (s : Str), ∀ t ∈ splitOnChar c s, ∀ x ∈ t, x ∈ s := by
  intro s
  induction s with
  | nil =>
    intro t ht x hx
    rw [show splitOnChar c [] = [[]] from rfl, List.mem_singleton] at ht
    subst ht
    exact absurd hx (List.not_mem_nil x)
  | cons y xs ih =>
    intro t ht x hx
    match h : splitOnChar c xs with
    | [] => exact absurd h (splitOnChar_ne_nil c xs)
    | t' :: ts =>
      rw [show splitOnChar c (y :: xs) = if y = c then [] :: t' :: ts
          else (y :: t') :: ts from by simp [splitOnChar, h]] at ht
      by_cases hy : y = c
      · rw [if_pos hy] at ht
        rcases List.mem_cons.mp ht with rfl | hm
        · exact absurd hx (List.not_mem_nil x)
        · exact List.mem_cons_of_mem _ (ih t (h ▸ hm) x hx)
      · rw [if_neg hy] at ht
        rcases List.mem_cons.mp ht with rfl | hm
        · rcases List.mem_cons.mp hx with rfl | hx2
          · exact List.mem_cons_self _ _
          · exact List.mem_cons_of_mem _
              (ih t' (h ▸ List.mem_cons_self _ _) x hx2)
        · exact List.mem_cons_of_mem _ (ih t (h ▸ List.mem_cons_of_mem _ hm) x hx)

/-- Characters of `splitNAux` pieces come from the input. -/
theorem splitNAux_chars (c : Char) :
    ∀ (fuel : Nat) (s : Str), ∀ t ∈ splitNAux c fuel s, ∀ x ∈ t, x ∈ s := by
  intro fuel
  induction fuel with
  | zero =>
    intro s t ht x hx
    rw [show splitNAux c 0 s = [s] from rfl, List.mem_singleton] at ht
    subst ht
    exact hx
  | succ f ih =>
    intro s t ht x hx
    revert ht
    unfold splitNAux
    match hsp : splitOnceChar c s with
    | none =>
      intro ht
      rw [List.mem_singleton] at ht
      subst ht
      exact hx
    | some (a, b) =>
      intro ht
      obtain ⟨rfl, -⟩ := splitOnceChar_eq_some hsp
      rcases List.mem_cons.mp ht with rfl | hm
      · exact List.mem_append.mpr (Or.inl hx)
      · exact List.mem_append.mpr (Or.inr (List.mem_cons_of_mem _ (ih b t hm x hx)))

/-- Characters of `splitn` pieces come from the input. -/
theorem splitNChar_chars {n : Nat} (c : Char) (s : Str) :
    ∀ t ∈ splitNChar n c s, ∀ x ∈ t, x ∈ s := by
  match n with
  | 0 => intro t ht; exact absurd ht (List.not_mem_nil t)
  | m + 1 => exact splitNAux_chars c m s

/-- The default style satisfies the style invariant. -/
theorem defaultStyle_wf {M : F32Model} : StyleWF (Style.defaultStyle M) :=
  ⟨⟨(by decide : ',' ∉ str "Default"), (by decide : '\n' ∉ str "Default")⟩,
   ⟨(by decide : ',' ∉ str "Arial"), (by decide : '\n' ∉ str "Arial")⟩,
   (by decide : (20 : Nat) < 2 ^ 8), (by decide : (1 : Nat) < 2 ^ 8),
   (by decide : (2 : Nat) < 2 ^ 8), (by decide : (1 : Nat) < 2 ^ 8),
   (by decide : (10 : Nat) < 2 ^ 16), (by decide : (10 : Nat) < 2 ^ 16),
   (by decide : (10 : Nat) < 2 ^ 16),
   (⟨by decide, by decide, by decide, by decide⟩ : ColourWF Colour.white),
   (⟨by decide, by decide, by decide, by decide⟩ : ColourWF Colour.redC),
   (⟨by decide, by decide, by decide, by decide⟩ : ColourWF Colour.black),
   (⟨by decide, by decide, by decide, by decide⟩ : ColourWF Colour.black)⟩

set_option maxHeartbeats 1600000 in
set_option maxRecDepth 4000 in
/-- One style field application preserves the style invariant when the
value is free of separators and newlines. -/
theorem applyStyleField_wf {M : F32Model} {acc acc' : Style M} {p : Str × Str}
    (hacc : StyleWF acc) (hv1 : ',' ∉ p.2) (hv2 : '\n' ∉ p.2)
    (h : applyStyleField M acc p = some acc') : StyleWF acc' := by
  obtain ⟨hn, hf, hfs, hbs, hal, hen, hml, hmr, hmv, hc1, hc2, hc3, hc4⟩ := hacc
  unfold applyStyleField at h
  by_cases k1 : p.1 = str "Name"
  · rw [if_pos k1] at h
    obtain rfl := Option.some.inj h
    exact ⟨⟨hv1, hv2⟩, hf, hfs, hbs, hal, hen, hml, hmr, hmv, hc1, hc2, hc3, hc4⟩
  rw [if_neg k1] at h
  by_cases k2 : p.1 = str "Fontname"
  · rw [if_pos k2] at h
    obtain rfl := Option.some.inj h
    exact ⟨hn, ⟨hv1, hv2⟩, hfs, hbs, hal, hen, hml, hmr, hmv, hc1, hc2, hc3, hc4⟩
  rw [if_neg k2] at h
  by_cases k3 : p.1 = str "Fontsize"
  · rw [if_pos k3] at h
    rw [Option.map_eq_some'] at h
    obtain ⟨w, hw, rfl⟩ := h
    exact ⟨hn, hf, parseUnsigned_lt hw, hbs, hal, hen, hml, hmr, hmv, hc1, hc2, hc3, hc4⟩
  rw [if_neg k3] at h
  by_cases k4 : p.1 = str "PrimaryColour"
  · rw [if_pos k4] at h
    rw [Option.map_eq_some'] at h
    obtain ⟨w, hw, rfl⟩ := h
    exact ⟨hn, hf, hfs, hbs, hal, hen, hml, hmr, hmv, fromAss_wf hw, hc2, hc3, hc4⟩
  rw [if_neg k4] at h
  by_cases k5 : p.1 = str "SecondaryColour"
  · rw [if_pos k5] at h
    rw [Option.map_eq_some'] at h
    obtain ⟨w, hw, rfl⟩ := h
    exact ⟨hn, hf, hfs, hbs, hal, hen, hml, hmr, hmv, hc1, fromAss_wf hw, hc3, hc4⟩
  rw [if_neg k5] at h
  by_cases k6 : p.1 = str "OutlineColour"
  · rw [if_pos k6] at h
    rw [Option.map_eq_some'] at h
    obtain ⟨w, hw, rfl⟩ := h
    exact ⟨hn, hf, hfs, hbs, hal, hen, hml, hmr, hmv, hc1, hc2, fromAss_wf hw, hc4⟩
  rw [if_neg k6] at h
  by_cases k7 : p.1 = str "BackColour"
  · rw [if_pos k7] at h
    rw [Option.map_eq_some'] at h
    obtain ⟨w, hw, rfl⟩ := h
    exact ⟨hn, hf, hfs, hbs, hal, hen, hml, hmr, hmv, hc1, hc2, hc3, fromAss_wf hw⟩
  rw [if_neg k7] at h
  by_cases k8 : p.1 = str "Bold"
  · rw [if_pos k8] at h
    obtain rfl := Option.some.inj h
    exact ⟨hn, hf, hfs, hbs, hal, hen, hml, hmr, hmv, hc1, hc2, hc3, hc4⟩
  rw [if_neg k8] at h
  by_cases k9 : p.1 = str "Italic"
  · rw [if_pos k9] at h
    obtain rfl := Option.some.inj h
    exact ⟨hn, hf, hfs, hbs, hal, hen, hml, hmr, hmv, hc1, hc2, hc3, hc4⟩
  rw [if_neg k9] at h
  by_cases k10 : p.1 = str "Underline"
  · rw [if_pos k10] at h
    obtain rfl := Option.some.inj h
    exact ⟨hn, hf, hfs, hbs, hal, hen, hml, hmr, hmv, hc1, hc2, hc3, hc4⟩
  rw [if_neg k10] at h
  by_cases k11 : p.1 = str "StrikeOut"
  · rw [if_pos k11] at h
    obtain rfl := Option.some.inj h
    exact ⟨hn, hf, hfs, hbs, hal, hen, hml, hmr, hmv, hc1, hc2, hc3, hc4⟩
  rw [if_neg k11] at h
  by_cases k12 : p.1 = str "ScaleX"
  · rw [if_pos k12] at h
    rw [Option.map_eq_some'] at h
    obtain ⟨w, hw, rfl⟩ := h
    exact ⟨hn, hf, hfs, hbs, hal, hen, hml, hmr, hmv, hc1, hc2, hc3, hc4⟩
  rw [if_neg k12] at h
  by_cases k13 : p.1 = str "ScaleY"
  · rw [if_pos k13] at h
    rw [Option.map_eq_some'] at h
    obtain ⟨w, hw, rfl⟩ := h
    exact ⟨hn, hf, hfs, hbs, hal, hen, hml, hmr, hmv, hc1, hc2, hc3, hc4⟩
  rw [if_neg k13] at h
  by_cases k14 : p.1 = str "Spacing"
  · rw [if_pos k14] at h
    rw [Option.map_eq_some'] at h
    obtain ⟨w, hw, rfl⟩ := h
    exact ⟨hn, hf, hfs, hbs, hal, hen, hml, hmr, hmv, hc1, hc2, hc3, hc4⟩
  rw [if_neg k14] at h
  by_cases k15 : p.1 = str "Angle"
  · rw [if_pos k15] at h
    rw [Option.map_eq_some'] at h
    obtain ⟨w, hw, rfl⟩ := h
    exact ⟨hn, hf, hfs, hbs, hal, hen, hml, hmr, hmv, hc1, hc2, hc3, hc4⟩
  rw [if_neg k15] at h
  by_cases k16 : p.1 = str "BorderStyle"
  · rw [if_pos k16] at h
    rw [Option.map_eq_some'] at h
    obtain ⟨w, hw, rfl⟩ := h
    exact ⟨hn, hf, hfs, parseUnsigned_lt hw, hal, hen, hml, hmr, hmv, hc1, hc2, hc3, hc4⟩
  rw [if_neg k16] at h
  by_cases k17 : p.1 = str "Outline"
  · rw [if_pos k17] at h
    rw [Option.map_eq_some'] at h
    obtain ⟨w, hw, rfl⟩ := h
    exact ⟨hn, hf, hfs, hbs, hal, hen, hml, hmr, hmv, hc1, hc2, hc3, hc4⟩
  rw [if_neg k17] at h
  by_cases k18 : p.1 = str "Shadow"
  · rw [if_pos k18] at h
    rw [Option.map_eq_some'] at h
    obtain ⟨w, hw, rfl⟩ := h
    exact ⟨hn, hf, hfs, hbs, hal, hen, hml, hmr, hmv, hc1, hc2, hc3, hc4⟩
  rw [if_neg k18] at h
  by_cases k19 : p.1 = str "Alignment"
  · rw [if_pos k19] at h
    rw [Option.map_eq_some'] at h
    obtain ⟨w, hw, rfl⟩ := h
    exact ⟨hn, hf, hfs, hbs, parseUnsigned_lt hw, hen, hml, hmr, hmv, hc1, hc2, hc3, hc4⟩
  rw [if_neg k19] at h
  by_cases k20 : p.1 = str "MarginL"
  · rw [if_pos k20] at h
    rw [Option.map_eq_some'] at h
    obtain ⟨w, hw, rfl⟩ := h
    exact ⟨hn, hf, hfs, hbs, hal, hen, parseUnsigned_lt hw, hmr, hmv, hc1, hc2, hc3, hc4⟩
  rw [if_neg k20] at h
  by_cases k21 : p.1 = str "MarginR"
  · rw [if_pos k21] at h
    rw [Option.map_eq_some'] at h
    obtain ⟨w, hw, rfl⟩ := h
    exact ⟨hn, hf, hfs, hbs, hal, hen, hml, parseUnsigned_lt hw, hmv, hc1, hc2, hc3, hc4⟩
  rw [if_neg k21] at h
  by_cases k22 : p.1 = str "MarginV"
  · rw [if_pos k22] at h
    rw [Option.map_eq_some'] at h
    obtain ⟨w, hw, rfl⟩ := h
    exact ⟨hn, hf, hfs, hbs, hal, hen, hml, hmr, parseUnsigned_lt hw, hc1, hc2, hc3, hc4⟩
  rw [if_neg k22] at h
  by_cases k23 : p.1 = str "Encoding"
  · rw [if_pos k23] at h
    rw [Option.map_eq_some'] at h
    obtain ⟨w, hw, rfl⟩ := h
    exact ⟨hn, hf, hfs, hbs, hal, parseUnsigned_lt hw, hml, hmr, hmv, hc1, hc2, hc3, hc4⟩
  rw [if_neg k23] at h
  obtain rfl := Option.some.inj h
  exact ⟨hn, hf, hfs, hbs, hal, hen, hml, hmr, hmv, hc1, hc2, hc3, hc4⟩

/-- The style field fold preserves the style invariant. -/
theorem styleFold_wf {M : F32Model} :
    ∀ (pairs : List (Str × Str)) (acc st : Style M),
      (∀ p ∈ pairs, ',' ∉ p.2 ∧ '\n' ∉ p.2) → StyleWF acc →
      List.foldlM (applyStyleField M) acc pairs = some st → StyleWF st := by
  intro pairs
  induction pairs with
  | nil =>
    intro acc st _ hacc h
    have h' : some acc = some st := h
    exact (Option.some.inj h') ▸ hacc
  | cons p rest ih =>
    intro acc st hp hacc h
    have h' : Option.bind (applyStyleField M acc p)
        (fun x => List.foldlM (applyStyleField M) x rest) = some st := h
    rw [Option.bind_eq_some] at h'
    obtain ⟨mid, h1, h2⟩ := h'
    obtain ⟨hc, hnl⟩ := hp p (List.mem_cons_self _ _)
    exact ih mid st (fun q hq => hp q (List.mem_cons_of_mem _ hq))
      (applyStyleField_wf hacc hc hnl h1) h2

/-- A style produced by `style_from_format` on a newline-free row satisfies
the style invariant. -/
theorem style_from_format_wf {M : F32Model} {sec : StylesSection M} {data : Str}
    {st : Style M} (hnl : '\n' ∉ data)
    (h : sec.style_from_format data = some st) : StyleWF st := by
  refine styleFold_wf (sec.format.zip (splitOnChar ',' data))
    (Style.defaultStyle M) st ?_ defaultStyle_wf h
  intro p hpmem
  obtain ⟨-, h2⟩ := List.of_mem_zip hpmem
  exact ⟨splitOnChar_no_sep ',' data p.2 h2,
    fun hm => hnl (splitOnChar_chars ',' data p.2 h2 '\n' hm)⟩

/-- The default event (with any kind) satisfies the event invariant. -/
theorem defaultEvent_wf (k : EventKind) :
    EventWF { Event.defaultEvent with kind := k } :=
  ⟨(by decide : '\n' ∉ str "Default"), (by decide : '\n' ∉ ([] : Str)),
   (by decide : '\n' ∉ ([] : Str)), (by decide : '\n' ∉ ([] : Str)),
   (by decide : (0 : Nat) < 2 ^ 8), (by decide : (0 : Nat) < 2 ^ 16),
   (by decide : (0 : Nat) < 2 ^ 16), (by decide : (0 : Nat) < 2 ^ 16),
   (⟨by decide, by decide⟩ : DurWF 0), (⟨by decide, by decide⟩ : DurWF 0)⟩

set_option maxHeartbeats 1600000 in
set_option maxRecDepth 4000 in
/-- One event field application preserves the event invariant when the
value is newline-free. -/
theorem applyEventField_wf {acc acc' : Event} {p : Str × Str}
    (hacc : EventWF acc) (hv2 : '\n' ∉ p.2)
    (h : applyEventField acc p = some acc') : EventWF acc' := by
  obtain ⟨hs, hn, he, ht, hl, hml, hmr, hmv, hd1, hd2⟩ := hacc
  unfold applyEventField at h
  by_cases k1 : p.1 = str "Layer"
  · rw [if_pos k1] at h
    rw [Option.map_eq_some'] at h
    obtain ⟨w, hw, rfl⟩ := h
    exact ⟨hs, hn, he, ht, parseUnsigned_lt hw, hml, hmr, hmv, hd1, hd2⟩
  rw [if_neg k1] at h
  by_cases k2 : p.1 = str "Start"
  · rw [if_pos k2] at h
    rw [Option.map_eq_some'] at h
    obtain ⟨w, hw, rfl⟩ := h
    exact ⟨hs, hn, he, ht, hl, hml, hmr, hmv, ass_timestamp_to_duration_wf hw, hd2⟩
  rw [if_neg k2] at h
  by_cases k3 : p.1 = str "End"
  · rw [if_pos k3] at h
    rw [Option.map_eq_some'] at h
    obtain ⟨w, hw, rfl⟩ := h
    exact ⟨hs, hn, he, ht, hl, hml, hmr, hmv, hd1, ass_timestamp_to_duration_wf hw⟩
  rw [if_neg k3] at h
  by_cases k4 : p.1 = str "Style"
  · rw [if_pos k4] at h
    obtain rfl := Option.some.inj h
    exact ⟨hv2, hn, he, ht, hl, hml, hmr, hmv, hd1, hd2⟩
  rw [if_neg k4] at h
  by_cases k5 : p.1 = str "Name"
  · rw [if_pos k5] at h
    obtain rfl := Option.some.inj h
    exact ⟨hs, hv2, he, ht, hl, hml, hmr, hmv, hd1, hd2⟩
  rw [if_neg k5] at h
  by_cases k6 : p.1 = str "MarginL"
  · rw [if_pos k6] at h
    rw [Option.map_eq_some'] at h
    obtain ⟨w, hw, rfl⟩ := h
    exact ⟨hs, hn, he, ht, hl, parseUnsigned_lt hw, hmr, hmv, hd1, hd2⟩
  rw [if_neg k6] at h
  by_cases k7 : p.1 = str "MarginR"
  · rw [if_pos k7] at h
    rw [Option.map_eq_some'] at h
    obtain ⟨w, hw, rfl⟩ := h
    exact ⟨hs, hn, he, ht, hl, hml, parseUnsigned_lt hw, hmv, hd1, hd2⟩
  rw [if_neg k7] at h
  by_cases k8 : p.1 = str "MarginV"
  · rw [if_pos k8] at h
    rw [Option.map_eq_some'] at h
    obtain ⟨w, hw, rfl⟩ := h
    exact ⟨hs, hn, he, ht, hl, hml, hmr, parseUnsigned_lt hw, hd1, hd2⟩
  rw [if_neg k8] at h
  by_cases k9 : p.1 = str "Effect"
  · rw [if_pos k9] at h
    obtain rfl := Option.some.inj h
    exact ⟨hs, hn, hv2, ht, hl, hml, hmr, hmv, hd1, hd2⟩
  rw [if_neg k9] at h
  by_cases k10 : p.1 = str "Text"
  · rw [if_pos k10] at h
    obtain rfl := Option.some.inj h
    exact ⟨hs, hn, he, hv2, hl, hml, hmr, hmv, hd1, hd2⟩
  rw [if_neg k10] at h
  obtain rfl := Option.some.inj h
  exact ⟨hs, hn, he, ht, hl, hml, hmr, hmv, hd1, hd2⟩

/-- The event field fold preserves the event invariant. -/
theorem eventFold_wf :
    ∀ (pairs : List (Str × Str)) (acc st : Event),
      (∀ p ∈ pairs, '\n' ∉ p.2) → EventWF acc →
      List.foldlM applyEventField acc pairs = some st → EventWF st := by
  intro pairs
  induction pairs with
  | nil =>
    intro acc st _ hacc h
    have h' : some acc = some st := h
    exact (Option.some.inj h') ▸ hacc
  | cons p rest ih =>
    intro acc st hp hacc h
    have h' : Option.bind (applyEventField acc p)
        (fun x => List.foldlM applyEventField x rest) = some st := h
    rw [Option.bind_eq_some] at h'
    obtain ⟨mid, h1, h2⟩ := h'
    exact ih mid st (fun q hq => hp q (List.mem_cons_of_mem _ hq))
      (applyEventField_wf hacc (hp p (List.mem_cons_self _ _)) h1) h2

/-- An event produced by `event_from_format` on a newline-free row satisfies
the event invariant. -/
theorem event_from_format_wf {sec : EventsSection} {k : EventKind} {data : Str}
    {ev : Event} (hnl : '\n' ∉ data)
    (h : sec.event_from_format k data = some ev) : EventWF ev := by
  refine eventFold_wf (sec.format.zip (splitNChar sec.format.length ',' data))
    { Event.defaultEvent with kind := k } ev ?_ (defaultEvent_wf k) h
  intro p hpmem
  obtain ⟨-, h2⟩ := List.of_mem_zip hpmem
  exact fun hm => hnl (splitNChar_chars ',' data p.2 h2 '\n' hm)

/-- `Line::parse` classifies exactly the line it was given: rendering the
classified line reproduces the input string. -/
theorem parse_render {s : Str} {l : Line} (h : Line.parse s = some l) :
    Line.render l = s := by
  cases s with
  | nil =>
    obtain rfl := Option.some.inj h
    rfl
  | cons c rest =>
    have h' : (if c = ';' then some (Line.Comment rest)
      else if (splitOnceSeq colonSpace (c :: rest)).isSome = true then
        some (Line.Variable (c :: rest))
      else if (c :: rest).length ≤ 80 ∧
          ((c :: rest).all (fun ch => decide (33 ≤ ch.toNat ∧ ch.toNat < 97))) = true
        then some (Line.Encoded (c :: rest))
      else none) = some l := h
    split_ifs at h' with h1 h2 h3
    · obtain rfl := Option.some.inj h'
      show ';' :: rest = c :: rest
      rw [h1]
    · obtain rfl := Option.some.inj h'
      rfl
    · obtain rfl := Option.some.inj h'
      rfl

/-- A parsed line satisfies the stored-line invariant when its source line
is newline-free and is not a bracketed header. -/
theorem LineInv_of_parse {s : Str} {l : Line} (h : Line.parse s = some l)
    (hnl : '\n' ∉ s) (hgen : getGenericSectionTitle s = none) : LineInv l := by
  have hr := parse_render h
  refine ⟨?_, ?_, ?_⟩ <;> rw [hr]
  · exact h
  · exact hnl
  · exact hgen

/-- A line containing a space never classifies as `Encoded` (space is
outside the encoded byte range). -/
theorem parse_not_encoded {s : Str} {pl : Line} (h : Line.parse s = some pl)
    (hsp : ' ' ∈ s) : pl.isEncoded = false := by
  cases s with
  | nil =>
    obtain rfl := Option.some.inj h
    rfl
  | cons c rest =>
    have h' : (if c = ';' then some (Line.Comment rest)
      else if (splitOnceSeq colonSpace (c :: rest)).isSome = true then
        some (Line.Variable (c :: rest))
      else if (c :: rest).length ≤ 80 ∧
          ((c :: rest).all (fun ch => decide (33 ≤ ch.toNat ∧ ch.toNat < 97))) = true
        then some (Line.Encoded (c :: rest))
      else none) = some pl := h
    split_ifs at h' with h1 h2 h3
    · obtain rfl := Option.some.inj h'
      rfl
    · obtain rfl := Option.some.inj h'
      rfl
    · obtain ⟨-, hall⟩ := h3
      rw [List.all_eq_true] at hall
      have h8 := hall ' ' hsp
      exact absurd h8 (by decide)

/-- Case split for `stripCR`. -/
theorem stripCR_cases (s : Str) :
    stripCR s = s ∨ (s = s.dropLast ++ ['\r'] ∧ stripCR s = s.dropLast) := by
  unfold stripCR
  by_cases hl : s.getLast? = some '\r'
  · right
    rw [if_pos hl]
    obtain ⟨pp, hp⟩ := List.getLast?_eq_some_iff.mp hl
    refine ⟨?_, rfl⟩
    rw [hp, List.dropLast_concat]
  · left
    rw [if_neg hl]

/-- Wrapping a title in brackets is injective. -/
theorem wrap_inj {t u : Str} (h : ('[' :: (t ++ [']']) : Str) = '[' :: (u ++ [']'])) :
    t = u := by
  injection h with h1 h2
  exact List.append_cancel_right h2

/-- Mode-aware Generic opening step: the `[Script Info]` exclusion is only
needed in whole-string mode. -/
theorem runStep_generic2 (M : F32Model) (mode : Bool) (n : Nat) (t : Str)
    (secs : List (Section M))
    (h1 : ¬ (mode = true ∧ ('[' :: (t ++ [']']) : Str) = str "[Script Info]"))
    (h2 : ('[' :: (t ++ [']']) : Str) ≠ str "[V4+ Styles]")
    (h3 : ('[' :: (t ++ [']']) : Str) ≠ str "[Events]") :
    runStep M mode n ('[' :: (t ++ [']'])) secs = .ok (.Generic t [] :: secs) := by
  unfold runStep
  rw [if_neg h1, if_neg h2, if_neg h3, getGenericSectionTitle_wrap]

/-- If dropping a trailing `\r` from a classifiable line yields another
classifiable line, that reclassification is never `Encoded`. -/
theorem dropCR_reparse_not_encoded {s0 : Str} {l pl : Line}
    (h : Line.parse (s0 ++ ['\r']) = some l) (h0 : Line.parse s0 = some pl) :
    pl.isEncoded = false := by
  cases s0 with
  | nil => exact Option.noConfusion h
  | cons c rest =>
    have h' : (if c = ';' then some (Line.Comment (rest ++ ['\r']))
      else if (splitOnceSeq colonSpace (c :: (rest ++ ['\r']))).isSome = true then
        some (Line.Variable (c :: (rest ++ ['\r'])))
      else if (c :: (rest ++ ['\r'])).length ≤ 80 ∧
          ((c :: (rest ++ ['\r'])).all
            (fun ch => decide (33 ≤ ch.toNat ∧ ch.toNat < 97))) = true
        then some (Line.Encoded (c :: (rest ++ ['\r'])))
      else none) = some l := h
    split_ifs at h' with h1 h2 h3
    · subst h1
      have h0' : some (Line.Comment rest) = some pl := h0
      obtain rfl := Option.some.inj h0'
      rfl
    · rw [Option.isSome_iff_exists] at h2
      obtain ⟨⟨a, b⟩, hab⟩ := h2
      have hdec := splitOnceSeq_eq_some hab
      have hsp : ' ' ∈ (c :: rest : Str) := by
        have h5 : ' ' ∈ (c :: (rest ++ ['\r']) : Str) := by
          rw [hdec]
          exact List.mem_append.mpr (Or.inl (List.mem_append.mpr
            (Or.inr (by decide))))
        rcases List.mem_cons.mp h5 with heq | h6
        · exact heq ▸ List.mem_cons_self _ _
        · rcases List.mem_append.mp h6 with h7 | h7
          · exact List.mem_cons_of_mem _ h7
          · rw [List.mem_singleton] at h7
            exact absurd h7 (by decide)
      exact parse_not_encoded h0 hsp
    · obtain ⟨-, hall⟩ := h3
      rw [List.all_eq_true] at hall
      have h8 := hall '\r' (List.mem_cons_of_mem _
        (List.mem_append.mpr (Or.inr (List.mem_singleton.mpr rfl))))
      exact absurd h8 (by decide)

/-- Re-parsing one stripped stored line against an absorbing head section
succeeds and keeps the stack absorbing: the head either absorbs the line or
a new Generic section opens above it. -/
theorem runStep_reparse_stored {M : F32Model} (mode : Bool) (n : Nat) (l : Line)
    (cur : Section M) (others : List (Section M)) (hcur : absorbing cur)
    (hinv : LineInv l)
    (henc : (∃ ls0, cur = Section.ScriptInfo ls0) → l.isEncoded = false) :
    (∃ cur', (absorbing cur' ∧
        ((∃ ls1, cur' = Section.ScriptInfo ls1) →
          ∃ ls0, cur = Section.ScriptInfo ls0)) ∧
      runStep M mode n (stripCR (Line.render l)) (cur :: others) =
        .ok (cur' :: others)) ∨
    (∃ t, runStep M mode n (stripCR (Line.render l)) (cur :: others) =
        .ok (Section.Generic t [] :: cur :: others)) := by
  obtain ⟨hp, hnl, hgen⟩ := hinv
  rcases stripCR_cases (Line.render l) with hid | ⟨hdecomp, hdrop⟩
  · rw [hid]
    have hne1 : ¬ (mode = true ∧ Line.render l = str "[Script Info]") := by
      rintro ⟨-, he⟩
      rw [he] at hgen
      exact Option.noConfusion hgen
    have hne2 : Line.render l ≠ str "[V4+ Styles]" := by
      intro he
      rw [he] at hgen
      exact Option.noConfusion hgen
    have hne3 : Line.render l ≠ str "[Events]" := by
      intro he
      rw [he] at hgen
      exact Option.noConfusion hgen
    cases cur with
    | ScriptInfo ls =>
      left
      refine ⟨Section.ScriptInfo (ls ++ [l]),
        ⟨trivial, fun _ => ⟨ls, rfl⟩⟩, ?_⟩
      apply runStep_process_ok M mode n _ _ _ _ l hne1 hne2 hne3 hgen hp
      show (scriptInfoProcess ls l).map Section.ScriptInfo = _
      unfold scriptInfoProcess
      rw [if_neg (by rw [henc ⟨ls, rfl⟩]; exact Bool.false_ne_true)]
      rfl
    | Generic t ls =>
      left
      refine ⟨Section.Generic t (ls ++ [l]),
        ⟨trivial, fun hsi => by
          obtain ⟨ls0, h0⟩ := hsi
          exact Section.noConfusion h0⟩, ?_⟩
      apply runStep_process_ok M mode n _ _ _ _ l hne1 hne2 hne3 hgen hp
      rfl
    | Styles ss => exact False.elim hcur
    | Events es => exact False.elim hcur
  · rw [hdrop]
    have hne1 : ¬ (mode = true ∧ (Line.render l).dropLast = str "[Script Info]") := by
      rintro ⟨-, he⟩
      rw [he] at hdecomp
      rw [hdecomp] at hp
      exact Option.noConfusion hp
    have hne2 : (Line.render l).dropLast ≠ str "[V4+ Styles]" := by
      intro he
      rw [he] at hdecomp
      rw [hdecomp] at hp
      exact Option.noConfusion hp
    have hne3 : (Line.render l).dropLast ≠ str "[Events]" := by
      intro he
      rw [he] at hdecomp
      rw [hdecomp] at hp
      exact Option.noConfusion hp
    cases hg : getGenericSectionTitle ((Line.render l).dropLast) with
    | some t =>
      right
      refine ⟨t, ?_⟩
      have hl0 := getGenericSectionTitle_eq_some hg
      rw [hl0]
      exact runStep_generic2 M mode n t _ (fun hx => hne1 ⟨hx.1, hl0 ▸ hx.2⟩)
        (fun hx => hne2 (by rw [hl0]; exact hx))
        (fun hx => hne3 (by rw [hl0]; exact hx))
    | none =>
      cases hp0 : Line.parse ((Line.render l).dropLast) with
      | none =>
        left
        exact ⟨cur, ⟨hcur, fun hsi => hsi⟩,
          runStep_skip M mode n _ cur others hne1 hne2 hne3 hg hp0⟩
      | some pl =>
        have hplenc : pl.isEncoded = false :=
          dropCR_reparse_not_encoded (hdecomp ▸ hp) hp0
        cases cur with
        | ScriptInfo ls =>
          left
          refine ⟨Section.ScriptInfo (ls ++ [pl]),
            ⟨trivial, fun _ => ⟨ls, rfl⟩⟩, ?_⟩
          apply runStep_process_ok M mode n _ _ _ _ pl hne1 hne2 hne3 hg hp0
          show (scriptInfoProcess ls pl).map Section.ScriptInfo = _
          unfold scriptInfoProcess
          rw [if_neg (by rw [hplenc]; exact Bool.false_ne_true)]
          rfl
        | Generic t ls =>
          left
          refine ⟨Section.Generic t (ls ++ [pl]),
            ⟨trivial, fun hsi => by
              obtain ⟨ls0, h0⟩ := hsi
              exact Section.noConfusion h0⟩, ?_⟩
          apply runStep_process_ok M mode n _ _ _ _ pl hne1 hne2 hne3 hg hp0
          rfl
        | Styles ss => exact False.elim hcur
        | Events es => exact False.elim hcur

/-- Re-parsing a list of stripped stored lines over an absorbing head
section succeeds, and the sections it adds are all absorbing. -/
theorem runLines_absorb {M : F32Model} (mode : Bool) :
    ∀ (ls : List Line) (n : Nat) (cur : Section M) (others : List (Section M)),
      absorbing cur → (∀ l ∈ ls, LineInv l) →
      ((∃ ls0, cur = Section.ScriptInfo ls0) → ∀ l ∈ ls, l.isEncoded = false) →
      ∃ news, news ≠ [] ∧ (∀ s ∈ news, absorbing s) ∧
        runLines M mode n (ls.map (fun l => stripCR (Line.render l)))
          (cur :: others) = .ok (news ++ others) := by
  intro ls
  induction ls with
  | nil =>
    intro n cur others hcur _ _
    refine ⟨[cur], by simp, ?_, runLines_nil M mode n (cur :: others)⟩
    intro s hs
    rw [List.mem_singleton] at hs
    subst hs
    exact hcur
  | cons l ls ih =>
    intro n cur others hcur hinv henc
    rcases runStep_reparse_stored mode n l cur others hcur
        (hinv l (List.mem_cons_self _ _))
        (fun hsi => henc hsi l (List.mem_cons_self _ _)) with
      ⟨cur', ⟨hcur', hshape⟩, hstep⟩ | ⟨t, hstep⟩
    · obtain ⟨news, hne, habs, hrun⟩ := ih (n + 1) cur' others hcur'
        (fun x hx => hinv x (List.mem_cons_of_mem _ hx))
        (fun hsi' x hx => henc (hshape hsi') x (List.mem_cons_of_mem _ hx))
      refine ⟨news, hne, habs, ?_⟩
      rw [show ((l :: ls).map (fun l => stripCR (Line.render l))) =
        stripCR (Line.render l) :: ls.map (fun l => stripCR (Line.render l))
        from rfl, runLines_cons_ok hstep, hrun]
    · obtain ⟨news, hne, habs, hrun⟩ := ih (n + 1) (Section.Generic t [])
        (cur :: others) trivial
        (fun x hx => hinv x (List.mem_cons_of_mem _ hx))
        (fun hsi => by obtain ⟨ls0, h0⟩ := hsi; exact Section.noConfusion h0)
      refine ⟨news ++ [cur], ?_, ?_, ?_⟩
      · intro h0
        obtain ⟨-, h2⟩ := List.append_eq_nil.mp h0
        exact List.noConfusion h2
      · intro s hs
        rcases List.mem_append.mp hs with hs | hs
        · exact habs s hs
        · rw [List.mem_singleton] at hs
          subst hs
          exact hcur
      · rw [show ((l :: ls).map (fun l => stripCR (Line.render l))) =
          stripCR (Line.render l) :: ls.map (fun l => stripCR (Line.render l))
          from rfl, runLines_cons_ok hstep, hrun, List.append_assoc]
        rfl

/-- `stripCR` is the identity on a block of lines without trailing carriage
returns. -/
theorem map_stripCR_id : ∀ (L : List Str),
    (∀ x ∈ L, x.getLast? ≠ some '\r') → L.map stripCR = L := by
  intro L
  induction L with
  | nil => intro _; rfl
  | cons x L ih =>
    intro h
    show stripCR x :: L.map stripCR = x :: L
    rw [stripCR_eq_self (h x (List.mem_cons_self _ _)),
      ih (fun y hy => h y (List.mem_cons_of_mem _ hy))]

/-- Re-parsing stored `ScriptInfo` lines verbatim reproduces the section
content exactly. -/
theorem runLines_si_exact {M : F32Model} (mode : Bool) :
    ∀ (ls : List Line) (n : Nat) (acc : List Line) (others : List (Section M)),
      (∀ l ∈ ls, LineInv l) → (∀ l ∈ ls, l.isEncoded = false) →
      runLines M mode n (ls.map Line.render)
        (Section.ScriptInfo acc :: others) =
        .ok (Section.ScriptInfo (acc ++ ls) :: others) := by
  intro ls
  induction ls with
  | nil =>
    intro n acc others _ _
    show runLines M mode n [] (Section.ScriptInfo acc :: others) = _
    rw [runLines_nil, List.append_nil]
  | cons l ls ih =>
    intro n acc others hinv henc
    obtain ⟨hp, hnl, hgen⟩ := hinv l (List.mem_cons_self _ _)
    have hne1 : ¬ (mode = true ∧ Line.render l = str "[Script Info]") := by
      rintro ⟨-, he⟩
      rw [he] at hgen
      exact Option.noConfusion hgen
    have hne2 : Line.render l ≠ str "[V4+ Styles]" := by
      intro he
      rw [he] at hgen
      exact Option.noConfusion hgen
    have hne3 : Line.render l ≠ str "[Events]" := by
      intro he
      rw [he] at hgen
      exact Option.noConfusion hgen
    have hstep : runStep M mode n (Line.render l)
        (Section.ScriptInfo acc :: others) =
        .ok (Section.ScriptInfo (acc ++ [l]) :: others) := by
      apply runStep_process_ok M mode n _ _ _ _ l hne1 hne2 hne3 hgen hp
      show (scriptInfoProcess acc l).map Section.ScriptInfo = _
      unfold scriptInfoProcess
      rw [if_neg (by rw [henc l (List.mem_cons_self _ _)]; exact Bool.false_ne_true)]
      rfl
    rw [show ((l :: ls).map Line.render) = Line.render l :: ls.map Line.render
      from rfl, runLines_cons_ok hstep,
      ih (n + 1) (acc ++ [l]) others (fun x hx => hinv x (List.mem_cons_of_mem _ hx))
        (fun x hx => henc x (List.mem_cons_of_mem _ hx)),
      List.append_assoc]
    rfl

/-- Re-parsing stored Generic lines verbatim reproduces the section content
exactly. -/
theorem runLines_generic_exact {M : F32Model} (mode : Bool) :
    ∀ (ls : List Line) (n : Nat) (t : Str) (acc : List Line)
        (others : List (Section M)),
      (∀ l ∈ ls, LineInv l) →
      runLines M mode n (ls.map Line.render)
        (Section.Generic t acc :: others) =
        .ok (Section.Generic t (acc ++ ls) :: others) := by
  intro ls
  induction ls with
  | nil =>
    intro n t acc others _
    show runLines M mode n [] (Section.Generic t acc :: others) = _
    rw [runLines_nil, List.append_nil]
  | cons l ls ih =>
    intro n t acc others hinv
    obtain ⟨hp, hnl, hgen⟩ := hinv l (List.mem_cons_self _ _)
    have hne1 : ¬ (mode = true ∧ Line.render l = str "[Script Info]") := by
      rintro ⟨-, he⟩
      rw [he] at hgen
      exact Option.noConfusion hgen
    have hne2 : Line.render l ≠ str "[V4+ Styles]" := by
      intro he
      rw [he] at hgen
      exact Option.noConfusion hgen
    have hne3 : Line.render l ≠ str "[Events]" := by
      intro he
      rw [he] at hgen
      exact Option.noConfusion hgen
    have hstep : runStep M mode n (Line.render l)
        (Section.Generic t acc :: others) =
        .ok (Section.Generic t (acc ++ [l]) :: others) :=
      runStep_process_ok M mode n _ _ _ _ l hne1 hne2 hne3 hgen hp rfl
    rw [show ((l :: ls).map Line.render) = Line.render l :: ls.map Line.render
      from rfl, runLines_cons_ok hstep,
      ih (n + 1) t (acc ++ [l]) others
        (fun x hx => hinv x (List.mem_cons_of_mem _ hx)),
      List.append_assoc]
    rfl

/-- The last character of a comma join is never a carriage return when the
final piece does not end in one. -/
theorem joinChar_concat_getLast_ne_cr (ts : List Str) (t : Str) (hts : ts ≠ [])
    (ht : t.getLast? ≠ some '\r') :
    (joinChar ',' (ts ++ [t])).getLast? ≠ some '\r' := by
  by_cases h0 : t = []
  · subst h0
    rw [joinChar_concat_nil_getLast ',' ts hts]
    intro hx
    exact absurd (Option.some.inj hx) (by decide)
  · rw [joinChar_concat_getLast ',' ts t h0]
    exact ht

/-- A serialized style row never ends in a carriage return. -/
theorem styleRow_getLast {M : F32Model} (st : Style M) :
    (Style.toAssLine st).getLast? ≠ some '\r' := by
  have hdec : Style.rowFields st = [st.name, st.fontName, natRepr st.fontSize,
      st.primaryColour.render, st.secondaryColour.render, st.outlineColour.render,
      st.backgroundColour.render, boolField st.bold, boolField st.italic,
      boolField st.underline, boolField st.striked, M.frender st.scaleX,
      M.frender st.scaleY, M.frender st.spacing, M.frender st.angle,
      natRepr st.borderStyle, M.frender st.outline, M.frender st.shadow,
      natRepr st.alignment, natRepr st.marginL, natRepr st.marginR,
      natRepr st.marginV] ++ [natRepr st.encoding] := rfl
  rw [show Style.toAssLine st =
      str "Style: " ++ joinChar ',' st.rowFields from rfl, hdec,
    List.getLast?_append_of_ne_nil _
      (joinChar_concat_ne_nil ',' _ _ (natRepr_ne_nil _)),
    joinChar_concat_getLast ',' _ _ (natRepr_ne_nil _)]
  intro h
  exact not_mem_natRepr (by decide) _ (getLast?_eq_some_mem h)

/-- A serialized event row whose text does not end in a carriage return
never ends in one. -/
theorem eventRow_getLast {ev : Event} (hrt : EventRT ev) :
    (Event.toAssLine ev).getLast? ≠ some '\r' := by
  obtain ⟨-, -, -, htcr⟩ := hrt
  have hjoin_ne : joinChar ',' (Event.rowFields ev) ≠ [] := by
    rw [show Event.rowFields ev = natRepr ev.layer :: [assDurationRender ev.start,
      assDurationRender ev.endTime, ev.style, ev.name, natRepr ev.marginL,
      natRepr ev.marginR, natRepr ev.marginV, ev.effect, ev.text] from rfl,
      joinChar_cons ',' _ _ (by simp)]
    intro hx
    obtain ⟨-, h2⟩ := List.append_eq_nil.mp hx
    exact List.noConfusion h2
  rw [show Event.toAssLine ev = (EventKind.asStr ev.kind ++ colonSpace) ++
      joinChar ',' ev.rowFields from rfl,
    List.getLast?_append_of_ne_nil _ hjoin_ne,
    show Event.rowFields ev = [natRepr ev.layer, assDurationRender ev.start,
      assDurationRender ev.endTime, ev.style, ev.name, natRepr ev.marginL,
      natRepr ev.marginR, natRepr ev.marginV, ev.effect] ++ [ev.text] from rfl]
  exact joinChar_concat_getLast_ne_cr _ _ (by simp) htcr

/-- A `Format:` row always classifies as a variable line. -/
theorem lineParse_formatRow (v : Str) :
    Line.parse (str "Format: " ++ v) = some (.Variable (str "Format: " ++ v)) := rfl

/-- A `Format:` row is not a bracketed section header. -/
theorem generic_formatRow (v : Str) :
    getGenericSectionTitle (str "Format: " ++ v) = none := rfl

/-- An event data row always classifies as a variable line. -/
theorem lineParse_eventRow (k : EventKind) (v : Str) :
    Line.parse (EventKind.asStr k ++ colonSpace ++ v) =
      some (.Variable (EventKind.asStr k ++ colonSpace ++ v)) := by
  cases k <;> rfl

/-- An event data row is not a bracketed section header. -/
theorem generic_eventRow (k : EventKind) (v : Str) :
    getGenericSectionTitle (EventKind.asStr k ++ colonSpace ++ v) = none := by
  cases k <;> rfl

set_option maxRecDepth 4000 in
/-- Re-parsing a run of serialized style rows followed by the blank line
appends exactly the original styles. -/
theorem runLines_styleRows {M : F32Model} (mode : Bool) (hrt : FRoundtrip M)
    (hnc : FNoComma M) :
    ∀ (L : List (Style M)) (n : Nat) (acc : List (Style M))
        (others : List (Section M)),
      (∀ st ∈ L, StyleWF st) →
      runLines M mode n (L.map Style.toAssLine ++ [[]])
        (Section.Styles ⟨canonStylesFormat, acc⟩ :: others) =
        .ok (Section.Styles ⟨canonStylesFormat, acc ++ L⟩ :: others) := by
  intro L
  induction L with
  | nil =>
    intro n acc others _
    have hstep : runStep M mode n []
        (Section.Styles ⟨canonStylesFormat, acc⟩ :: others) =
        .ok (Section.Styles ⟨canonStylesFormat, acc⟩ :: others) :=
      runStep_process_ok M mode n [] (Section.Styles ⟨canonStylesFormat, acc⟩)
        (Section.Styles ⟨canonStylesFormat, acc⟩) others Line.Empty
        (by rintro ⟨-, he⟩; exact List.noConfusion he)
        (fun he => List.noConfusion he) (fun he => List.noConfusion he) rfl rfl rfl
    rw [show (List.map Style.toAssLine [] ++ [[]] : List Str) = [] :: [] from rfl,
      runLines_cons_ok hstep, runLines_nil, List.append_nil]
  | cons st L ih =>
    intro n acc others hwf
    have hrow : StylesSection.processLine ⟨canonStylesFormat, acc⟩
        (Line.Variable (str "Style: " ++ joinChar ',' st.rowFields)) =
        .ok ⟨canonStylesFormat, acc ++ [st]⟩ := by
      rw [stylesProcess_style_row,
        if_neg (by decide : ¬(canonStylesFormat.isEmpty = true)),
        style_row_roundtrip hrt hnc acc st (hwf st (List.mem_cons_self _ _))]
    have hstep : runStep M mode n (Style.toAssLine st)
        (Section.Styles ⟨canonStylesFormat, acc⟩ :: others) =
        .ok (Section.Styles ⟨canonStylesFormat, acc ++ [st]⟩ :: others) := by
      apply runStep_process_ok M mode n _ _ _ _
        (Line.Variable (str "Style: " ++ joinChar ',' st.rowFields))
        ?_ ?_ ?_ ?_ ?_ ?_
      · rintro ⟨-, he⟩
        exact cons_ne_cons_head (by decide) he
      · exact cons_ne_cons_head (by decide)
      · exact cons_ne_cons_head (by decide)
      · exact generic_styleRow _
      · exact lineParse_styleRow _
      · show (StylesSection.processLine ⟨canonStylesFormat, acc⟩
          (Line.Variable (str "Style: " ++ joinChar ',' st.rowFields))).map
            Section.Styles = _
        rw [hrow]
        rfl
    rw [show ((st :: L).map Style.toAssLine ++ [[]] : List Str) =
      Style.toAssLine st :: (L.map Style.toAssLine ++ [[]]) from rfl,
      runLines_cons_ok hstep,
      ih (n + 1) (acc ++ [st]) others
        (fun x hx => hwf x (List.mem_cons_of_mem _ hx)),
      List.append_assoc]
    rfl

/-- An event data row never equals a bracketed header line. -/
theorem eventRow_ne_si (k : EventKind) (v : Str) :
    EventKind.asStr k ++ colonSpace ++ v ≠ str "[Script Info]" := by
  cases k <;> exact cons_ne_cons_head (by decide)

/-- An event data row never equals the Styles header line. -/
theorem eventRow_ne_styles (k : EventKind) (v : Str) :
    EventKind.asStr k ++ colonSpace ++ v ≠ str "[V4+ Styles]" := by
  cases k <;> exact cons_ne_cons_head (by decide)

/-- An event data row never equals the Events header line. -/
theorem eventRow_ne_events (k : EventKind) (v : Str) :
    EventKind.asStr k ++ colonSpace ++ v ≠ str "[Events]" := by
  cases k <;> exact cons_ne_cons_head (by decide)

set_option maxRecDepth 4000 in
/-- Re-parsing a run of serialized event rows followed by the blank line
appends exactly the original events. -/
theorem runLines_eventRows (M : F32Model) (mode : Bool) :
    ∀ (L : List Event) (n : Nat) (acc : List Event) (others : List (Section M)),
      (∀ ev ∈ L, EventWF ev) → (∀ ev ∈ L, EventRT ev) →
      runLines M mode n (L.map Event.toAssLine ++ [[]])
        (Section.Events ⟨canonEventsFormat, acc⟩ :: others) =
        .ok (Section.Events ⟨canonEventsFormat, acc ++ L⟩ :: others) := by
  intro L
  induction L with
  | nil =>
    intro n acc others _ _
    have hstep : runStep M mode n []
        (Section.Events ⟨canonEventsFormat, acc⟩ :: others) =
        .ok (Section.Events ⟨canonEventsFormat, acc⟩ :: others) :=
      runStep_process_ok M mode n [] (Section.Events ⟨canonEventsFormat, acc⟩)
        (Section.Events ⟨canonEventsFormat, acc⟩) others Line.Empty
        (by rintro ⟨-, he⟩; exact List.noConfusion he)
        (fun he => List.noConfusion he) (fun he => List.noConfusion he) rfl rfl rfl
    rw [show (List.map Event.toAssLine [] ++ [[]] : List Str) = [] :: [] from rfl,
      runLines_cons_ok hstep, runLines_nil, List.append_nil]
  | cons ev L ih =>
    intro n acc others hwf hrt
    have hrow : EventsSection.processLine ⟨canonEventsFormat, acc⟩
        (Line.Variable (EventKind.asStr ev.kind ++ colonSpace ++
          joinChar ',' ev.rowFields)) =
        .ok ⟨canonEventsFormat, acc ++ [ev]⟩ := by
      rw [eventsProcess_kind_row,
        if_neg (by decide : ¬(canonEventsFormat.isEmpty = true)),
        event_row_roundtrip acc ev (hwf ev (List.mem_cons_self _ _))
          (hrt ev (List.mem_cons_self _ _))]
    have hstep : runStep M mode n (Event.toAssLine ev)
        (Section.Events ⟨canonEventsFormat, acc⟩ :: others) =
        .ok (Section.Events ⟨canonEventsFormat, acc ++ [ev]⟩ :: others) := by
      apply runStep_process_ok M mode n _ _ _ _
        (Line.Variable (EventKind.asStr ev.kind ++ colonSpace ++
          joinChar ',' ev.rowFields)) ?_ ?_ ?_ ?_ ?_ ?_
      · rintro ⟨-, he⟩
        exact eventRow_ne_si ev.kind _ he
      · exact eventRow_ne_styles ev.kind _
      · exact eventRow_ne_events ev.kind _
      · exact generic_eventRow _ _
      · exact lineParse_eventRow _ _
      · show (EventsSection.processLine ⟨canonEventsFormat, acc⟩
          (Line.Variable (EventKind.asStr ev.kind ++ colonSpace ++
            joinChar ',' ev.rowFields))).map Section.Events = _
        rw [hrow]
        rfl
    rw [show ((ev :: L).map Event.toAssLine ++ [[]] : List Str) =
      Event.toAssLine ev :: (L.map Event.toAssLine ++ [[]]) from rfl,
      runLines_cons_ok hstep,
      ih (n + 1) (acc ++ [ev]) others
        (fun x hx => hwf x (List.mem_cons_of_mem _ hx))
        (fun x hx => hrt x (List.mem_cons_of_mem _ hx)),
      List.append_assoc]
    rfl

/-- `stripCR` is the identity on serialized style rows. -/
theorem styleRows_stripCR {M : F32Model} (sts : List (Style M)) :
    (sts.map Style.toAssLine).map stripCR = sts.map Style.toAssLine := by
  rw [List.map_map]
  exact List.map_congr_left (fun st _ => stripCR_eq_self (styleRow_getLast st))

/-- `stripCR` is the identity on serialized event rows meeting the
roundtrip side conditions. -/
theorem eventRows_stripCR (evs : List Event) (hrt : ∀ ev ∈ evs, EventRT ev) :
    (evs.map Event.toAssLine).map stripCR = evs.map Event.toAssLine := by
  rw [List.map_map]
  exact List.map_congr_left
    (fun ev hev => stripCR_eq_self (eventRow_getLast (hrt ev hev)))

set_option maxRecDepth 4000 in
/-- Re-parsing a serialized Styles block (in either mode, from any prior
state) yields exactly the canonicalized section on top of the state. -/
theorem runLines_stylesBlock {M : F32Model} (mode : Bool) (hrt : FRoundtrip M)
    (hnc : FNoComma M) (ss : StylesSection M)
    (hwf : ∀ st ∈ ss.styles, StyleWF st) (n : Nat) (secs : List (Section M)) :
    runLines M mode n ((secLines M (Section.Styles ss)).map stripCR) secs =
      .ok (Section.Styles ⟨canonStylesFormat, ss.styles⟩ :: secs) := by
  have hlines : (secLines M (Section.Styles ss)).map stripCR =
      str "[V4+ Styles]" :: (str "Format: " ++ stylesFormatStr) ::
        (ss.styles.map Style.toAssLine ++ [[]]) := by
    rw [show secLines M (Section.Styles ss) = str "[V4+ Styles]" ::
      (str "Format: " ++ stylesFormatStr) :: (ss.styles.map Style.toAssLine ++ [[]])
      from rfl, List.map_cons, List.map_cons, List.map_append,
      styleRows_stripCR ss.styles]
    rfl
  have hfmt : runStep M mode (n + 1) (str "Format: " ++ stylesFormatStr)
      (Section.Styles ⟨[], []⟩ :: secs) =
      .ok (Section.Styles ⟨canonStylesFormat, []⟩ :: secs) := by
    apply runStep_process_ok M mode (n + 1) _ _ _ _
      (Line.Variable (str "Format: " ++ stylesFormatStr)) ?_ ?_ ?_ ?_ ?_ ?_
    · rintro ⟨-, he⟩
      exact cons_ne_cons_head (by decide) he
    · exact cons_ne_cons_head (by decide)
    · exact cons_ne_cons_head (by decide)
    · exact generic_formatRow _
    · exact lineParse_formatRow _
    · show (StylesSection.processLine ⟨[], []⟩
        (Line.Variable (str "Format: " ++ stylesFormatStr))).map Section.Styles = _
      rw [stylesProcess_format_row]
      rfl
  rw [hlines, runLines_cons_ok (runStep_styles_header M mode n secs),
    runLines_cons_ok hfmt,
    runLines_styleRows mode hrt hnc ss.styles (n + 2) [] secs hwf,
    List.nil_append]

set_option maxRecDepth 4000 in
/-- Re-parsing a serialized Events block yields exactly the canonicalized
section on top of the state. -/
theorem runLines_eventsBlock {M : F32Model} (mode : Bool) (es : EventsSection)
    (hwf : ∀ ev ∈ es.events, EventWF ev) (hrt : ∀ ev ∈ es.events, EventRT ev)
    (n : Nat) (secs : List (Section M)) :
    runLines M mode n ((secLines M (Section.Events es)).map stripCR) secs =
      .ok (Section.Events ⟨canonEventsFormat, es.events⟩ :: secs) := by
  have hlines : (secLines M (Section.Events es)).map stripCR =
      str "[Events]" :: (str "Format: " ++ eventsFormatStr) ::
        (es.events.map Event.toAssLine ++ [[]]) := by
    rw [show secLines M (Section.Events es) = str "[Events]" ::
      (str "Format: " ++ eventsFormatStr) :: (es.events.map Event.toAssLine ++ [[]])
      from rfl, List.map_cons, List.map_cons, List.map_append,
      eventRows_stripCR es.events hrt]
    rfl
  have hfmt : runStep M mode (n + 1) (str "Format: " ++ eventsFormatStr)
      (Section.Events ⟨[], []⟩ :: secs) =
      .ok (Section.Events ⟨canonEventsFormat, []⟩ :: secs) := by
    apply runStep_process_ok M mode (n + 1) _ _ _ _
      (Line.Variable (str "Format: " ++ eventsFormatStr)) ?_ ?_ ?_ ?_ ?_ ?_
    · rintro ⟨-, he⟩
      exact cons_ne_cons_head (by decide) he
    · exact cons_ne_cons_head (by decide)
    · exact cons_ne_cons_head (by decide)
    · exact generic_formatRow _
    · exact lineParse_formatRow _
    · show (EventsSection.processLine ⟨[], []⟩
        (Line.Variable (str "Format: " ++ eventsFormatStr))).map Section.Events = _
      rw [eventsProcess_format_row]
      rfl
  rw [hlines, runLines_cons_ok (runStep_events_header M mode n secs),
    runLines_cons_ok hfmt,
    runLines_eventRows M mode es.events (n + 2) [] secs hwf hrt,
    List.nil_append]

/-- Re-parsing a serialized ScriptInfo block: the block is absorbed into
new absorbing sections pushed on top of the state. -/
theorem runLines_siBlock_absorb {M : F32Model} (mode : Bool) (ls : List Line)
    (hinv : ∀ l ∈ ls, LineInv l) (henc : ∀ l ∈ ls, l.isEncoded = false)
    (n : Nat) (secs : List (Section M)) :
    ∃ news, news ≠ [] ∧ (∀ s ∈ news, absorbing s) ∧
      runLines M mode n ((secLines M (Section.ScriptInfo ls)).map stripCR) secs =
        .ok (news ++ secs) := by
  have hlines : (secLines M (Section.ScriptInfo ls)).map stripCR =
      str "[Script Info]" :: ls.map (fun l => stripCR (Line.render l)) := by
    show stripCR (str "[Script Info]") :: (ls.map Line.render).map stripCR = _
    rw [List.map_map]
    rfl
  rw [hlines]
  cases mode with
  | true =>
    obtain ⟨news, hne, habs, hrun⟩ := runLines_absorb true ls (n + 1)
      (Section.ScriptInfo []) secs trivial hinv (fun _ => henc)
    exact ⟨news, hne, habs,
      by rw [runLines_cons_ok (runStep_si_str M n secs), hrun]⟩
  | false =>
    obtain ⟨news, hne, habs, hrun⟩ := runLines_absorb false ls (n + 1)
      (Section.Generic (str "Script Info") []) secs trivial hinv
      (fun hsi => by obtain ⟨ls0, h0⟩ := hsi; exact Section.noConfusion h0)
    exact ⟨news, hne, habs,
      by rw [runLines_cons_ok (runStep_si_reader M n secs), hrun]⟩

/-- Re-parsing a serialized Generic block: the block is absorbed into new
absorbing sections pushed on top of the state. -/
theorem runLines_genericBlock_absorb {M : F32Model} (mode : Bool) (t : Str)
    (ls : List Line) (hinv : ∀ l ∈ ls, LineInv l)
    (hsi : mode = true → t ≠ str "Script Info")
    (hst : t ≠ str "V4+ Styles") (hev : t ≠ str "Events")
    (n : Nat) (secs : List (Section M)) :
    ∃ news, news ≠ [] ∧ (∀ s ∈ news, absorbing s) ∧
      runLines M mode n ((secLines M (Section.Generic t ls)).map stripCR) secs =
        .ok (news ++ secs) := by
  have hhead : stripCR ('[' :: (t ++ [']'])) = '[' :: (t ++ [']']) := by
    apply stripCR_eq_self
    rw [getLast?_cons_ne_nil (by simp) '[', List.getLast?_concat]
    intro hx
    exact absurd (Option.some.inj hx) (by decide)
  have hlines : (secLines M (Section.Generic t ls)).map stripCR =
      ('[' :: (t ++ [']'])) :: ls.map (fun l => stripCR (Line.render l)) := by
    show stripCR ('[' :: (t ++ [']'])) :: (ls.map Line.render).map stripCR = _
    rw [List.map_map, hhead]
    rfl
  have h1 : ¬ (mode = true ∧ ('[' :: (t ++ [']']) : Str) = str "[Script Info]") := by
    rintro ⟨hm, he⟩
    exact hsi hm (wrap_inj (show ('[' :: (t ++ [']']) : Str) =
      '[' :: (str "Script Info" ++ [']']) from he))
  have h2 : ('[' :: (t ++ [']']) : Str) ≠ str "[V4+ Styles]" := by
    intro he
    exact hst (wrap_inj (show ('[' :: (t ++ [']']) : Str) =
      '[' :: (str "V4+ Styles" ++ [']']) from he))
  have h3 : ('[' :: (t ++ [']']) : Str) ≠ str "[Events]" := by
    intro he
    exact hev (wrap_inj (show ('[' :: (t ++ [']']) : Str) =
      '[' :: (str "Events" ++ [']']) from he))
  rw [hlines]
  obtain ⟨news, hne, habs, hrun⟩ := runLines_absorb mode ls (n + 1)
    (Section.Generic t []) secs trivial hinv
    (fun hsi' => by obtain ⟨ls0, h0⟩ := hsi'; exact Section.noConfusion h0)
  exact ⟨news, hne, habs,
    by rw [runLines_cons_ok (runStep_generic2 M mode n t secs h1 h2 h3), hrun]⟩

/-- Processing a line into a `ScriptInfo` section yields a `ScriptInfo`
section. -/
theorem processLine_SI_shape {M : F32Model} {ls : List Line} {pl : Line}
    {s' : Section M} (h : Section.processLine (.ScriptInfo ls) pl = .ok s') :
    ∃ ls', s' = Section.ScriptInfo ls' := by
  have h' : (scriptInfoProcess ls pl).map Section.ScriptInfo = .ok s' := h
  cases hsp : scriptInfoProcess ls pl with
  | ok ls' =>
    rw [hsp] at h'
    have h'' : Except.ok (Section.ScriptInfo ls') = Except.ok s' := h'
    exact ⟨ls', (Except.ok.inj h'').symm⟩
  | error k =>
    rw [hsp] at h'
    exact Except.noConfusion h'

/-- Processing a line into a Generic section keeps the section Generic with
the same title. -/
theorem processLine_Generic_shape {M : F32Model} {t : Str} {ls : List Line}
    {pl : Line} {s' : Section M}
    (h : Section.processLine (.Generic t ls) pl = .ok s') :
    ∃ ls', s' = Section.Generic t ls' := by
  have h'' : Except.ok (Section.Generic t (ls ++ [pl])) = Except.ok s' := h
  exact ⟨ls ++ [pl], (Except.ok.inj h'').symm⟩

/-- Processing a line into a Styles section yields a Styles section. -/
theorem processLine_Styles_shape {M : F32Model} {ss : StylesSection M}
    {pl : Line} {s' : Section M}
    (h : Section.processLine (.Styles ss) pl = .ok s') :
    ∃ ss', s' = Section.Styles ss' := by
  have h' : (StylesSection.processLine ss pl).map Section.Styles = .ok s' := h
  cases hsp : StylesSection.processLine ss pl with
  | ok ss' =>
    rw [hsp] at h'
    have h'' : Except.ok (Section.Styles ss') = Except.ok s' := h'
    exact ⟨ss', (Except.ok.inj h'').symm⟩
  | error k =>
    rw [hsp] at h'
    exact Except.noConfusion h'

/-- Processing a line into an Events section yields an Events section. -/
theorem processLine_Events_shape {M : F32Model} {es : EventsSection}
    {pl : Line} {s' : Section M}
    (h : Section.processLine (.Events es) pl = .ok s') :
    ∃ es', s' = Section.Events es' := by
  have h' : (EventsSection.processLine es pl).map Section.Events = .ok s' := h
  cases hsp : EventsSection.processLine es pl with
  | ok es' =>
    rw [hsp] at h'
    have h'' : Except.ok (Section.Events es') = Except.ok s' := h'
    exact ⟨es', (Except.ok.inj h'').symm⟩
  | error k =>
    rw [hsp] at h'
    exact Except.noConfusion h'

/-- The value of a key/value line is a segment of the rendered line. -/
theorem item_value_no_nl {pl : Line} {key v : Str} (hit : pl.item = some (key, v))
    (hnl : '\n' ∉ Line.render pl) : '\n' ∉ v := by
  cases pl with
  | Variable s0 =>
    have hdec := splitOnceSeq_eq_some
      (hit : splitOnceSeq colonSpace s0 = some (key, v))
    rw [show Line.render (Line.Variable s0) = s0 from rfl, hdec] at hnl
    intro hm
    exact hnl (List.mem_append.mpr (Or.inr hm))
  | Comment c => exact Option.noConfusion hit
  | Encoded e => exact Option.noConfusion hit
  | Empty => exact Option.noConfusion hit

/-- Successful processing of a classified line preserves the section
invariant. -/
theorem processLine_wf {M : F32Model} {mode : Bool} {cur cur' : Section M}
    {pl : Line} {s : Str}
    (hcur : SecWF mode cur) (hps : Line.parse s = some pl) (hnl : '\n' ∉ s)
    (hgen : getGenericSectionTitle s = none)
    (h : cur.processLine pl = .ok cur') : SecWF mode cur' := by
  have hr := parse_render hps
  have hinv : LineInv pl := LineInv_of_parse hps hnl hgen
  have hnlr : '\n' ∉ Line.render pl := by rw [hr]; exact hnl
  cases cur with
  | ScriptInfo ls =>
    have h' : (scriptInfoProcess ls pl).map Section.ScriptInfo = .ok cur' := h
    unfold scriptInfoProcess at h'
    by_cases he : pl.isEncoded = true
    · rw [if_pos he] at h'
      exact Except.noConfusion h'
    · rw [if_neg he] at h'
      have h'' : Except.ok (Section.ScriptInfo (ls ++ [pl])) = Except.ok cur' := h'
      obtain rfl := Except.ok.inj h''
      intro x hx
      rcases List.mem_append.mp hx with hx | hx
      · exact hcur x hx
      · rw [List.mem_singleton] at hx
        subst hx
        exact ⟨hinv, Bool.eq_false_iff.mpr he⟩
  | Generic t ls =>
    have h'' : Except.ok (Section.Generic t (ls ++ [pl])) = Except.ok cur' := h
    obtain rfl := Except.ok.inj h''
    obtain ⟨hl, hnt, hsi, h1, h2⟩ := hcur
    refine ⟨?_, hnt, hsi, h1, h2⟩
    intro x hx
    rcases List.mem_append.mp hx with hx | hx
    · exact hl x hx
    · rw [List.mem_singleton] at hx
      subst hx
      exact hinv
  | Styles ss =>
    have h' : (StylesSection.processLine ss pl).map Section.Styles = .ok cur' := h
    cases hsp : StylesSection.processLine ss pl with
    | error k =>
      rw [hsp] at h'
      exact Except.noConfusion h'
    | ok ss' =>
      rw [hsp] at h'
      have h'' : Except.ok (Section.Styles ss') = Except.ok cur' := h'
      obtain rfl := Except.ok.inj h''
      unfold StylesSection.processLine at hsp
      by_cases hemp : pl.isEmptyLine = true
      · rw [if_pos hemp] at hsp
        obtain rfl := Except.ok.inj hsp
        exact hcur
      · rw [if_neg hemp] at hsp
        cases hit : pl.item with
        | none =>
          rw [hit] at hsp
          exact Except.noConfusion hsp
        | some kv =>
          obtain ⟨key, v⟩ := kv
          rw [hit] at hsp
          have hsp2 : (if key = str "Format" then
              Except.ok (⟨splitSeq (str ", ") v, ss.styles⟩ : StylesSection M)
            else if key = str "Style" then
              (if ss.format.isEmpty = true then
                Except.error ErrorKind.MissingStyleFormat
              else match ss.style_from_format v with
                | some st => Except.ok (⟨ss.format, ss.styles ++ [st]⟩ :
                    StylesSection M)
                | none => Except.error ErrorKind.InvalidStyle)
            else Except.error ErrorKind.Invalid) = Except.ok ss' := hsp
          by_cases hk1 : key = str "Format"
          · rw [if_pos hk1] at hsp2
            obtain rfl := Except.ok.inj hsp2
            exact hcur
          · rw [if_neg hk1] at hsp2
            by_cases hk2 : key = str "Style"
            · rw [if_pos hk2] at hsp2
              by_cases hfe : ss.format.isEmpty = true
              · rw [if_pos hfe] at hsp2
                exact Except.noConfusion hsp2
              · rw [if_neg hfe] at hsp2
                cases hsf : ss.style_from_format v with
                | none =>
                  rw [hsf] at hsp2
                  exact Except.noConfusion hsp2
                | some st =>
                  rw [hsf] at hsp2
                  have hsp3 : Except.ok (⟨ss.format, ss.styles ++ [st]⟩ :
                      StylesSection M) = Except.ok ss' := hsp2
                  obtain rfl := Except.ok.inj hsp3
                  intro x hx
                  rcases List.mem_append.mp hx with hx | hx
                  · exact hcur x hx
                  · rw [List.mem_singleton] at hx
                    subst hx
                    exact style_from_format_wf (item_value_no_nl hit hnlr) hsf
            · rw [if_neg hk2] at hsp2
              exact Except.noConfusion hsp2
  | Events es =>
    have h' : (EventsSection.processLine es pl).map Section.Events = .ok cur' := h
    cases hsp : EventsSection.processLine es pl with
    | error k =>
      rw [hsp] at h'
      exact Except.noConfusion h'
    | ok es' =>
      rw [hsp] at h'
      have h'' : Except.ok (Section.Events es') = Except.ok cur' := h'
      obtain rfl := Except.ok.inj h''
      unfold EventsSection.processLine at hsp
      by_cases hemp : pl.isEmptyLine = true
      · rw [if_pos hemp] at hsp
        obtain rfl := Except.ok.inj hsp
        exact hcur
      · rw [if_neg hemp] at hsp
        cases hit : pl.item with
        | none =>
          rw [hit] at hsp
          exact Except.noConfusion hsp
        | some kv =>
          obtain ⟨key, v⟩ := kv
          rw [hit] at hsp
          have hsp2 : (if key = str "Format" then
              Except.ok (⟨splitSeq (str ", ") v, es.events⟩ : EventsSection)
            else match EventKind.fromStr key with
              | none => Except.error ErrorKind.InvalidEventType
              | some k =>
                if es.format.isEmpty = true then
                  Except.error ErrorKind.MissingStyleFormat
                else match es.event_from_format k v with
                  | some ev => Except.ok (⟨es.format, es.events ++ [ev]⟩ :
                      EventsSection)
                  | none => Except.error ErrorKind.InvalidStyle) =
              Except.ok es' := hsp
          by_cases hk1 : key = str "Format"
          · rw [if_pos hk1] at hsp2
            obtain rfl := Except.ok.inj hsp2
            exact hcur
          · rw [if_neg hk1] at hsp2
            cases hek : EventKind.fromStr key with
            | none =>
              rw [hek] at hsp2
              exact Except.noConfusion hsp2
            | some k =>
              rw [hek] at hsp2
              have hsp3 : (if es.format.isEmpty = true then
                  Except.error ErrorKind.MissingStyleFormat
                else match es.event_from_format k v with
                  | some ev => Except.ok (⟨es.format, es.events ++ [ev]⟩ :
                      EventsSection)
                  | none => Except.error ErrorKind.InvalidStyle) =
                  Except.ok es' := hsp2
              by_cases hfe : es.format.isEmpty = true
              · rw [if_pos hfe] at hsp3
                exact Except.noConfusion hsp3
              · rw [if_neg hfe] at hsp3
                cases hef : es.event_from_format k v with
                | none =>
                  rw [hef] at hsp3
                  exact Except.noConfusion hsp3
                | some ev =>
                  rw [hef] at hsp3
                  have hsp4 : Except.ok (⟨es.format, es.events ++ [ev]⟩ :
                      EventsSection) = Except.ok es' := hsp3
                  obtain rfl := Except.ok.inj hsp4
                  intro x hx
                  rcases List.mem_append.mp hx with hx | hx
                  · exact hcur x hx
                  · rw [List.mem_singleton] at hx
                    subst hx
                    exact event_from_format_wf (item_value_no_nl hit hnlr) hef

/-- One successful parse-loop step preserves the per-section invariant. -/
theorem runStep_wf {M : F32Model} {mode : Bool} {n : Nat} {l : Str}
    {secs secs' : List (Section M)} (h : runStep M mode n l secs = .ok secs')
    (hnl : '\n' ∉ l) (hsecs : ∀ s ∈ secs, SecWF mode s) :
    ∀ s ∈ secs', SecWF mode s := by
  by_cases hsi : mode = true ∧ l = str "[Script Info]"
  · obtain ⟨hm, hl⟩ := hsi
    subst hm
    subst hl
    rw [runStep_si_str] at h
    obtain rfl := Except.ok.inj h
    intro s hs
    rcases List.mem_cons.mp hs with rfl | hs
    · intro x hx
      exact absurd hx (List.not_mem_nil x)
    · exact hsecs s hs
  · by_cases h2 : l = str "[V4+ Styles]"
    · subst h2
      rw [runStep_styles_header] at h
      obtain rfl := Except.ok.inj h
      intro s hs
      rcases List.mem_cons.mp hs with rfl | hs
      · intro x hx
        exact absurd hx (List.not_mem_nil x)
      · exact hsecs s hs
    · by_cases h3 : l = str "[Events]"
      · subst h3
        rw [runStep_events_header] at h
        obtain rfl := Except.ok.inj h
        intro s hs
        rcases List.mem_cons.mp hs with rfl | hs
        · intro x hx
          exact absurd hx (List.not_mem_nil x)
        · exact hsecs s hs
      · cases hg : getGenericSectionTitle l with
        | some t =>
          have hlt := getGenericSectionTitle_eq_some hg
          subst hlt
          rw [runStep_generic2 M mode n t secs hsi h2 h3] at h
          obtain rfl := Except.ok.inj h
          intro s hs
          rcases List.mem_cons.mp hs with rfl | hs
          · refine ⟨fun x hx => absurd hx (List.not_mem_nil x), ?_, ?_, ?_, ?_⟩
            · intro hm
              exact hnl (List.mem_cons_of_mem _ (List.mem_append.mpr (Or.inl hm)))
            · intro hm ht
              exact hsi ⟨hm, by rw [ht]; rfl⟩
            · intro ht
              exact h2 (by rw [ht]; rfl)
            · intro ht
              exact h3 (by rw [ht]; rfl)
          · exact hsecs s hs
        | none =>
          cases secs with
          | nil =>
            rw [runStep_nosec M mode n l hsi h2 h3 hg] at h
            exact Except.noConfusion h
          | cons cur others =>
            cases hp : Line.parse l with
            | none =>
              rw [runStep_skip M mode n l cur others hsi h2 h3 hg hp] at h
              obtain rfl := Except.ok.inj h
              exact hsecs
            | some pl =>
              cases hpr : cur.processLine pl with
              | error k =>
                rw [runStep_process_err M mode n l cur others pl k
                  hsi h2 h3 hg hp hpr] at h
                exact Except.noConfusion h
              | ok cur' =>
                rw [runStep_process_ok M mode n l cur cur' others pl
                  hsi h2 h3 hg hp hpr] at h
                obtain rfl := Except.ok.inj h
                intro s hs
                rcases List.mem_cons.mp hs with rfl | hs
                · exact processLine_wf (hsecs cur (List.mem_cons_self _ _))
                    hp hnl hg hpr
                · exact hsecs s (List.mem_cons_of_mem _ hs)

/-- The parse loop preserves the per-section invariant. -/
theorem runLines_wf {M : F32Model} {mode : Bool} :
    ∀ (ls : List Str) (n : Nat) (secs secs' : List (Section M)),
      runLines M mode n ls secs = .ok secs' →
      (∀ l ∈ ls, '\n' ∉ l) → (∀ s ∈ secs, SecWF mode s) →
      ∀ s ∈ secs', SecWF mode s := by
  intro ls
  induction ls with
  | nil =>
    intro n secs secs' h _ hsecs
    have h' : Except.ok secs = Except.ok secs' := h
    obtain rfl := Except.ok.inj h'
    exact hsecs
  | cons l ls ih =>
    intro n secs secs' h hnl hsecs
    cases hstep : runStep M mode n l secs with
    | error e =>
      rw [runLines_cons_err hstep] at h
      exact Except.noConfusion h
    | ok mid =>
      rw [runLines_cons_ok hstep] at h
      exact ih (n + 1) mid secs' h (fun x hx => hnl x (List.mem_cons_of_mem _ hx))
        (runStep_wf hstep (hnl l (List.mem_cons_self _ _)) hsecs)

/-- One successful parse-loop step preserves the state invariant. -/
theorem runStep_stateOK {M : F32Model} {mode : Bool} {n : Nat} {l : Str}
    {secs secs' : List (Section M)} (h : runStep M mode n l secs = .ok secs')
    (hok : stateOK mode secs) : stateOK mode secs' := by
  have hpush : ∀ (x : Section M), secs' = x :: secs → stateOK mode secs' := by
    intro x hx
    subst hx
    cases secs with
    | nil => exact False.elim hok
    | cons s ss =>
      show stateOK mode (x :: s :: ss)
      unfold stateOK
      rw [List.getLast?_cons_cons]
      exact hok
  by_cases hsi : mode = true ∧ l = str "[Script Info]"
  · obtain ⟨hm, hl⟩ := hsi
    subst hm
    subst hl
    rw [runStep_si_str] at h
    exact hpush _ (Except.ok.inj h).symm
  · by_cases h2 : l = str "[V4+ Styles]"
    · subst h2
      rw [runStep_styles_header] at h
      exact hpush _ (Except.ok.inj h).symm
    · by_cases h3 : l = str "[Events]"
      · subst h3
        rw [runStep_events_header] at h
        exact hpush _ (Except.ok.inj h).symm
      · cases hg : getGenericSectionTitle l with
        | some t =>
          have hlt := getGenericSectionTitle_eq_some hg
          subst hlt
          rw [runStep_generic2 M mode n t secs hsi h2 h3] at h
          exact hpush _ (Except.ok.inj h).symm
        | none =>
          cases secs with
          | nil =>
            rw [runStep_nosec M mode n l hsi h2 h3 hg] at h
            exact Except.noConfusion h
          | cons cur others =>
            cases hp : Line.parse l with
            | none =>
              rw [runStep_skip M mode n l cur others hsi h2 h3 hg hp] at h
              obtain rfl := Except.ok.inj h
              exact hok
            | some pl =>
              cases hpr : cur.processLine pl with
              | error k =>
                rw [runStep_process_err M mode n l cur others pl k
                  hsi h2 h3 hg hp hpr] at h
                exact Except.noConfusion h
              | ok cur' =>
                rw [runStep_process_ok M mode n l cur cur' others pl
                  hsi h2 h3 hg hp hpr] at h
                obtain rfl := Except.ok.inj h
                cases others with
                | cons o os =>
                  show stateOK mode (cur' :: o :: os)
                  unfold stateOK
                  rw [List.getLast?_cons_cons]
                  exact hok
                | nil =>
                  have hg0 : goodLast mode cur := hok
                  show stateOK mode [cur']
                  cases cur with
                  | ScriptInfo ls =>
                    obtain ⟨ls', rfl⟩ := processLine_SI_shape hpr
                    exact trivial
                  | Generic t ls =>
                    obtain ⟨ls', rfl⟩ := processLine_Generic_shape hpr
                    exact hg0
                  | Styles ss => exact False.elim hg0
                  | Events es => exact False.elim hg0

/-- The parse loop preserves the state invariant. -/
theorem runLines_stateOK {M : F32Model} {mode : Bool} :
    ∀ (ls : List Str) (n : Nat) (secs secs' : List (Section M)),
      runLines M mode n ls secs = .ok secs' →
      stateOK mode secs → stateOK mode secs' := by
  intro ls
  induction ls with
  | nil =>
    intro n secs secs' h hok
    have h' : Except.ok secs = Except.ok secs' := h
    obtain rfl := Except.ok.inj h'
    exact hok
  | cons l ls ih =>
    intro n secs secs' h hok
    cases hstep : runStep M mode n l secs with
    | error e =>
      rw [runLines_cons_err hstep] at h
      exact Except.noConfusion h
    | ok mid =>
      rw [runLines_cons_ok hstep] at h
      exact ih (n + 1) mid secs' h (runStep_stateOK hstep hok)

/-- Processing a line never turns a non-`ScriptInfo` section into a
`ScriptInfo` one. -/
theorem processLine_not_SI {M : F32Model} {cur cur' : Section M} {pl : Line}
    (hcur : ¬ isSI cur) (h : cur.processLine pl = .ok cur') : ¬ isSI cur' := by
  cases cur with
  | ScriptInfo ls => exact absurd trivial hcur
  | Generic t ls =>
    obtain ⟨ls', rfl⟩ := processLine_Generic_shape h
    exact fun hx => hx
  | Styles ss =>
    obtain ⟨ss', rfl⟩ := processLine_Styles_shape h
    exact fun hx => hx
  | Events es =>
    obtain ⟨es', rfl⟩ := processLine_Events_shape h
    exact fun hx => hx

/-- In streaming mode no loop step ever adds a `ScriptInfo` section above
the bottom of the stack. -/
theorem runStep_tailNoSI {M : F32Model} {n : Nat} {l : Str}
    {secs secs' : List (Section M)} (h : runStep M false n l secs = .ok secs')
    (hok : ∀ s ∈ secs.dropLast, ¬ isSI s) : ∀ s ∈ secs'.dropLast, ¬ isSI s := by
  have hpush : ∀ (x : Section M), ¬ isSI x → secs' = x :: secs →
      ∀ s ∈ secs'.dropLast, ¬ isSI s := by
    intro x hxs hx
    subst hx
    cases secs with
    | nil =>
      intro s hs
      exact absurd hs (List.not_mem_nil s)
    | cons s0 ss =>
      intro s hs
      rw [show ((x :: s0 :: ss : List (Section M))).dropLast =
        x :: (s0 :: ss).dropLast from rfl] at hs
      rcases List.mem_cons.mp hs with rfl | hs
      · exact hxs
      · exact hok s hs
  have hsi : ¬ ((false = true) ∧ l = str "[Script Info]") := fun hx =>
    Bool.noConfusion hx.1
  by_cases h2 : l = str "[V4+ Styles]"
  · subst h2
    rw [runStep_styles_header] at h
    exact hpush (Section.Styles ⟨[], []⟩) (fun hx => hx) (Except.ok.inj h).symm
  · by_cases h3 : l = str "[Events]"
    · subst h3
      rw [runStep_events_header] at h
      exact hpush (Section.Events ⟨[], []⟩) (fun hx => hx) (Except.ok.inj h).symm
    · cases hg : getGenericSectionTitle l with
      | some t =>
        have hlt := getGenericSectionTitle_eq_some hg
        subst hlt
        rw [runStep_generic2 M false n t secs hsi h2 h3] at h
        exact hpush (Section.Generic t []) (fun hx => hx) (Except.ok.inj h).symm
      | none =>
        cases secs with
        | nil =>
          rw [runStep_nosec M false n l hsi h2 h3 hg] at h
          exact Except.noConfusion h
        | cons cur others =>
          cases hp : Line.parse l with
          | none =>
            rw [runStep_skip M false n l cur others hsi h2 h3 hg hp] at h
            obtain rfl := Except.ok.inj h
            exact hok
          | some pl =>
            cases hpr : cur.processLine pl with
            | error k =>
              rw [runStep_process_err M false n l cur others pl k
                hsi h2 h3 hg hp hpr] at h
              exact Except.noConfusion h
            | ok cur' =>
              rw [runStep_process_ok M false n l cur cur' others pl
                hsi h2 h3 hg hp hpr] at h
              obtain rfl := Except.ok.inj h
              cases others with
              | nil =>
                intro s hs
                exact absurd hs (List.not_mem_nil s)
              | cons o os =>
                intro s hs
                rw [show ((cur' :: o :: os : List (Section M))).dropLast =
                  cur' :: (o :: os).dropLast from rfl] at hs
                rcases List.mem_cons.mp hs with rfl | hs
                · refine processLine_not_SI ?_ hpr
                  exact hok cur (by
                    rw [show ((cur :: o :: os : List (Section M))).dropLast =
                      cur :: (o :: os).dropLast from rfl]
                    exact List.mem_cons_self _ _)
                · exact hok s (by
                    rw [show ((cur :: o :: os : List (Section M))).dropLast =
                      cur :: (o :: os).dropLast from rfl]
                    exact List.mem_cons_of_mem _ hs)

/-- The streaming parse loop keeps every non-bottom section
non-`ScriptInfo`. -/
theorem runLines_tailNoSI {M : F32Model} :
    ∀ (ls : List Str) (n : Nat) (secs secs' : List (Section M)),
      runLines M false n ls secs = .ok secs' →
      (∀ s ∈ secs.dropLast, ¬ isSI s) → ∀ s ∈ secs'.dropLast, ¬ isSI s := by
  intro ls
  induction ls with
  | nil =>
    intro n secs secs' h hok
    have h' : Except.ok secs = Except.ok secs' := h
    obtain rfl := Except.ok.inj h'
    exact hok
  | cons l ls ih =>
    intro n secs secs' h hok
    cases hstep : runStep M false n l secs with
    | error e =>
      rw [runLines_cons_err hstep] at h
      exact Except.noConfusion h
    | ok mid =>
      rw [runLines_cons_ok hstep] at h
      exact ih (n + 1) mid secs' h (runStep_tailNoSI hstep hok)

/-- Lines produced by the line splitter contain no newline. -/
theorem rustLines_no_nl (s : Str) : ∀ l ∈ rustLines s, '\n' ∉ l := by
  intro l hl
  have hl' : l ∈ (if (splitOnChar '\n' s).getLast? = some [] then
      (splitOnChar '\n' s).dropLast else splitOnChar '\n' s).map stripCR := hl
  rw [List.mem_map] at hl'
  obtain ⟨t, ht, rfl⟩ := hl'
  have ht2 : t ∈ splitOnChar '\n' s := by
    by_cases hc : (splitOnChar '\n' s).getLast? = some []
    · rw [if_pos hc] at ht
      exact List.dropLast_subset _ ht
    · rw [if_neg hc] at ht
      exact ht
  intro hm
  exact splitOnChar_no_sep '\n' s t ht2 (mem_stripCR hm)

/-- Stripping a trailing carriage return from a string with a fixed prefix
that does not end in one keeps the prefix. -/
theorem stripCR_prefix (p t : Str) (hp : p.getLast? ≠ some '\r') :
    ∃ u, stripCR (p ++ t) = p ++ u := by
  by_cases h0 : t = []
  · subst h0
    rw [List.append_nil]
    exact ⟨[], by rw [stripCR_eq_self hp, List.append_nil]⟩
  · refine ⟨stripCR t, ?_⟩
    unfold stripCR
    rw [List.getLast?_append_of_ne_nil p h0]
    by_cases hl : t.getLast? = some '\r'
    · rw [if_pos hl, if_pos hl]
      exact List.dropLast_append_of_ne_nil p h0
    · rw [if_neg hl, if_neg hl]

/-- The first piece of a split of a string with a separator-free prefix
carries that prefix. -/
theorem splitOnChar_head_append (c : Char) :
    ∀ (p r : Str), c ∉ p → ∃ t ts, splitOnChar c (p ++ r) = (p ++ t) :: ts ∧
      splitOnChar c r = t :: ts := by
  intro p
  induction p with
  | nil =>
    intro r _
    match h : splitOnChar c r with
    | [] => exact absurd h (splitOnChar_ne_nil c r)
    | t :: ts => exact ⟨t, ts, rfl, rfl⟩
  | cons x p ih =>
    intro r hc
    have hx : x ≠ c := fun hx => hc (hx ▸ List.mem_cons_self _ _)
    obtain ⟨t, ts, h1, h2⟩ := ih r (fun hm => hc (List.mem_cons_of_mem _ hm))
    refine ⟨t, ts, ?_, h2⟩
    rw [show ((x :: p) ++ r : Str) = x :: (p ++ r) from rfl]
    rw [show splitOnChar c (x :: (p ++ r)) =
      if x = c then [] :: ((p ++ t) :: ts) else (x :: (p ++ t)) :: ts from by
        simp [splitOnChar, h1]]
    rw [if_neg hx]
    rfl

/-- The first line of a buffer with the `[Script Info]` prefix carries that
prefix. -/
theorem rustLines_si_prefix (r : Str) :
    ∃ u ts, rustLines (str "[Script Info]" ++ r) =
      (str "[Script Info]" ++ u) :: ts := by
  obtain ⟨t, ts0, h1, -⟩ :=
    splitOnChar_head_append '\n' (str "[Script Info]") r (by decide)
  obtain ⟨u, hu⟩ := stripCR_prefix (str "[Script Info]") t (by decide)
  have hrl : rustLines (str "[Script Info]" ++ r) =
      (if ((str "[Script Info]" ++ t) :: ts0 : List Str).getLast? = some [] then
        ((str "[Script Info]" ++ t) :: ts0 : List Str).dropLast
      else (str "[Script Info]" ++ t) :: ts0).map stripCR := by
    show (if (splitOnChar '\n' (str "[Script Info]" ++ r)).getLast? = some [] then
        (splitOnChar '\n' (str "[Script Info]" ++ r)).dropLast
      else splitOnChar '\n' (str "[Script Info]" ++ r)).map stripCR = _
    rw [h1]
  rw [hrl]
  by_cases hlast : (((str "[Script Info]" ++ t) :: ts0 : List Str).getLast? =
      some [])
  · rw [if_pos hlast]
    cases ts0 with
    | nil =>
      exfalso
      obtain ⟨h0, -⟩ := List.append_eq_nil.mp (Option.some.inj hlast)
      exact List.noConfusion h0
    | cons t2 ts2 =>
      refine ⟨u, ((t2 :: ts2).dropLast).map stripCR, ?_⟩
      rw [show ((str "[Script Info]" ++ t) :: t2 :: ts2 : List Str).dropLast =
        (str "[Script Info]" ++ t) :: (t2 :: ts2).dropLast from rfl,
        List.map_cons, hu]
  · rw [if_neg hlast]
    exact ⟨u, ts0.map stripCR, by rw [List.map_cons, hu]⟩

/-- A buffer headed by `[Script Info]` never equals the Styles header. -/
theorem si_prefix_ne_styles (u : Str) :
    str "[Script Info]" ++ u ≠ str "[V4+ Styles]" := by
  intro he
  have h2 := congrArg (List.take 2) he
  rw [show List.take 2 (str "[Script Info]" ++ u) = ['[', 'S'] from rfl,
    show List.take 2 (str "[V4+ Styles]") = ['[', 'V'] from rfl] at h2
  exact absurd h2 (by decide)

/-- A buffer headed by `[Script Info]` never equals the Events header. -/
theorem si_prefix_ne_events (u : Str) :
    str "[Script Info]" ++ u ≠ str "[Events]" := by
  intro he
  have h2 := congrArg (List.take 2) he
  rw [show List.take 2 (str "[Script Info]" ++ u) = ['[', 'S'] from rfl,
    show List.take 2 (str "[Events]") = ['[', 'E'] from rfl] at h2
  exact absurd h2 (by decide)

/-- The state invariant of the reversed state yields the head invariant of
the document. -/
theorem headOK_of_stateOK {M : F32Model} {mode : Bool} {secs : List (Section M)}
    (h : stateOK mode secs) : headOK mode secs.reverse := by
  unfold stateOK at h
  cases hl : secs.getLast? with
  | none =>
    rw [hl] at h
    exact False.elim h
  | some x =>
    rw [hl] at h
    have h' : goodLast mode x := h
    obtain ⟨pre, rfl⟩ := List.getLast?_eq_some_iff.mp hl
    rw [List.reverse_append]
    show headOK mode (x :: pre.reverse)
    cases x with
    | ScriptInfo ls => exact trivial
    | Generic t ls => exact h'
    | Styles ss => exact False.elim h'
    | Events es => exact False.elim h'

/-- Every document produced by the whole-string entry point satisfies the
document invariant. -/
theorem fromStr_DocWF {M : F32Model} {buf : Str} {D : Ass M}
    (h : Ass.fromStr M buf = .ok D) : DocWF true D := by
  rw [fromStr_unfold] at h
  by_cases hgate : strStartsWith (str "[Script Info]") buf = true
  swap
  · rw [if_neg hgate] at h
    exact Except.noConfusion h
  rw [if_pos hgate] at h
  cases hrun : runLines M true 1 (rustLines buf) [] with
  | error e =>
    rw [hrun] at h
    exact Except.noConfusion h
  | ok secs =>
    rw [hrun] at h
    have h' : Except.ok (⟨secs.reverse⟩ : Ass M) = Except.ok D := h
    obtain rfl := Except.ok.inj h'
    constructor
    · intro s hs
      rw [show (Ass.mk secs.reverse).sections = secs.reverse from rfl,
        List.mem_reverse] at hs
      exact runLines_wf (rustLines buf) 1 [] secs hrun (rustLines_no_nl buf)
        (fun s0 hs0 => absurd hs0 (List.not_mem_nil s0)) s hs
    · have hb := strStartsWith_eq_append hgate
      obtain ⟨u, ts, hrl⟩ :=
        rustLines_si_prefix (buf.drop (str "[Script Info]").length)
      rw [← hb] at hrl
      rw [hrl] at hrun
      cases hstep : runStep M true 1 (str "[Script Info]" ++ u) [] with
      | error e =>
        rw [runLines_cons_err hstep] at hrun
        exact Except.noConfusion hrun
      | ok s1 =>
        rw [runLines_cons_ok hstep] at hrun
        have hs1 : stateOK true s1 := by
          by_cases hsi : (true = true) ∧ (str "[Script Info]" ++ u : Str) =
              str "[Script Info]"
          · rw [hsi.2] at hstep
            rw [runStep_si_str] at hstep
            obtain rfl := Except.ok.inj hstep
            exact trivial
          · by_cases h2 : (str "[Script Info]" ++ u : Str) = str "[V4+ Styles]"
            · exact absurd h2 (si_prefix_ne_styles u)
            · by_cases h3 : (str "[Script Info]" ++ u : Str) = str "[Events]"
              · exact absurd h3 (si_prefix_ne_events u)
              · cases hg : getGenericSectionTitle (str "[Script Info]" ++ u) with
                | some t =>
                  have hlt := getGenericSectionTitle_eq_some hg
                  rw [hlt] at hstep
                  rw [runStep_generic2 M true 1 t []
                    (fun hx => hsi ⟨rfl, hlt.trans hx.2⟩)
                    (fun hx => h2 (hlt.trans hx))
                    (fun hx => h3 (hlt.trans hx))] at hstep
                  obtain rfl := Except.ok.inj hstep
                  refine ⟨rfl, ?_⟩
                  rw [← hlt]
                  exact strStartsWith_append _ u
                | none =>
                  rw [runStep_nosec M true 1 _ hsi h2 h3 hg] at hstep
                  exact Except.noConfusion hstep
        exact headOK_of_stateOK (runLines_stateOK ts 2 s1 secs hrun hs1)

/-- Every document produced by the streaming entry point satisfies the
document invariant, and only its first section can be a `ScriptInfo`
section. -/
theorem fromReader_DocWF {M : F32Model} {stream : Str} {D : Ass M}
    (h : Ass.fromReader M stream = .ok D) :
    DocWF false D ∧ (∀ s ∈ D.sections.tail, ¬ isSI s) := by
  rw [fromReader_unfold] at h
  by_cases hgate : trimEnd (dropBOM (readLine stream).1) = str "[Script Info]"
  swap
  · rw [if_neg hgate] at h
    exact Except.noConfusion h
  rw [if_pos hgate] at h
  cases hrun : runLines M false 2 (rustLines (readLine stream).2)
      [.ScriptInfo []] with
  | error e =>
    rw [hrun] at h
    exact Except.noConfusion h
  | ok secs =>
    rw [hrun] at h
    have h' : Except.ok (⟨secs.reverse⟩ : Ass M) = Except.ok D := h
    obtain rfl := Except.ok.inj h'
    refine ⟨⟨?_, ?_⟩, ?_⟩
    · intro s hs
      rw [show (Ass.mk secs.reverse).sections = secs.reverse from rfl,
        List.mem_reverse] at hs
      refine runLines_wf (rustLines (readLine stream).2) 2 [.ScriptInfo []]
        secs hrun (rustLines_no_nl _) ?_ s hs
      intro s0 hs0
      rw [List.mem_singleton] at hs0
      subst hs0
      intro x hx
      exact absurd hx (List.not_mem_nil x)
    · exact headOK_of_stateOK (runLines_stateOK _ 2 _ secs hrun trivial)
    · intro s hs
      rw [show (Ass.mk secs.reverse).sections = secs.reverse from rfl,
        List.tail_reverse, List.mem_reverse] at hs
      refine runLines_tailNoSI (rustLines (readLine stream).2) 2
        [.ScriptInfo []] secs hrun ?_ s hs
      intro s0 hs0
      exact absurd hs0 (List.not_mem_nil s0)

/-- `unlines` over a cons. -/
theorem unlines_cons (l : Str) (L : List Str) :
    unlines (l :: L) = l ++ '\n' :: unlines L := rfl

/-- Splitting the serializer's output recovers the lines plus one final
empty piece. -/
theorem splitLines_unlines :
    ∀ (L : List Str), (∀ l ∈ L, '\n' ∉ l) →
      splitOnChar '\n' (unlines L) = L ++ [[]] := by
  intro L
  induction L with
  | nil => intro _; rfl
  | cons l L ih =>
    intro h
    rw [unlines_cons, splitOnChar_append _ _ (h l (List.mem_cons_self _ _)),
      ih (fun x hx => h x (List.mem_cons_of_mem _ hx))]
    rfl

/-- The line splitter inverts the serializer up to per-line `\r`
stripping. -/
theorem rustLines_unlines (L : List Str) (h : ∀ l ∈ L, '\n' ∉ l) :
    rustLines (unlines L) = L.map stripCR := by
  have hsp := splitLines_unlines L h
  have hrl : rustLines (unlines L) =
      (if (L ++ [[]] : List Str).getLast? = some [] then
        (L ++ [[]] : List Str).dropLast else L ++ [[]]).map stripCR := by
    show (if (splitOnChar '\n' (unlines L)).getLast? = some [] then
        (splitOnChar '\n' (unlines L)).dropLast
      else splitOnChar '\n' (unlines L)).map stripCR = _
    rw [hsp]
  rw [hrl, if_pos (by rw [List.getLast?_concat]), List.dropLast_concat]

/-- The prefix of an event row is newline-free. -/
theorem nl_not_mem_kindPrefix (k : EventKind) :
    '\n' ∉ EventKind.asStr k ++ colonSpace := by
  cases k <;> decide

/-- Every line emitted for a well-formed section is newline-free. -/
theorem secLines_no_nl {M : F32Model} {mode : Bool} (hnl : FNoNewline M)
    {s : Section M} (hwf : SecWF mode s) : ∀ l ∈ secLines M s, '\n' ∉ l := by
  cases s with
  | ScriptInfo ls =>
    intro l hl
    rcases List.mem_cons.mp hl with rfl | hl
    · exact (by decide)
    · rw [List.mem_map] at hl
      obtain ⟨l0, hl0, rfl⟩ := hl
      exact ((hwf l0 hl0).1).2.1
  | Styles ss =>
    intro l hl
    rcases List.mem_cons.mp hl with rfl | hl
    · exact (by decide)
    rcases List.mem_cons.mp hl with rfl | hl
    · exact (by decide)
    rcases List.mem_append.mp hl with hl | hl
    · rw [List.mem_map] at hl
      obtain ⟨st, hst, rfl⟩ := hl
      intro hm
      rcases List.mem_append.mp hm with hm | hm
      · exact absurd hm (by decide)
      · exact not_mem_joinChar (by decide) _
          (styleFields_nl_free hnl (hwf st hst)) hm
    · rw [List.mem_singleton] at hl
      subst hl
      exact List.not_mem_nil _
  | Events es =>
    intro l hl
    rcases List.mem_cons.mp hl with rfl | hl
    · exact (by decide)
    rcases List.mem_cons.mp hl with rfl | hl
    · exact (by decide)
    rcases List.mem_append.mp hl with hl | hl
    · rw [List.mem_map] at hl
      obtain ⟨ev, hev, rfl⟩ := hl
      intro hm
      rcases List.mem_append.mp hm with hm | hm
      · exact nl_not_mem_kindPrefix ev.kind hm
      · exact not_mem_joinChar (by decide) _
          (eventFields_nl_free (hwf ev hev)) hm
    · rw [List.mem_singleton] at hl
      subst hl
      exact List.not_mem_nil _
  | Generic t ls =>
    intro l hl
    rcases List.mem_cons.mp hl with rfl | hl
    · obtain ⟨-, hnt, -, -, -⟩ := hwf
      intro hm
      rcases List.mem_cons.mp hm with heq | hm
      · exact absurd heq (by decide)
      · rcases List.mem_append.mp hm with hm | hm
        · exact hnt hm
        · rw [List.mem_singleton] at hm
          exact absurd hm (by decide)
    · rw [List.mem_map] at hl
      obtain ⟨l0, hl0, rfl⟩ := hl
      exact (hwf.1 l0 hl0).2.1

/-- The serialized form of a document whose head section passes the
whole-string gate itself passes the gate. -/
theorem saveToWriter_gate {M : F32Model} {D : Ass M}
    (hok : headOK true D.sections) :
    strStartsWith (str "[Script Info]") D.saveToWriter = true := by
  cases D with
  | mk sections =>
    cases sections with
    | nil => exact False.elim hok
    | cons s0 rest =>
      cases s0 with
      | ScriptInfo ls =>
        show strStartsWith (str "[Script Info]")
          (str "[Script Info]" ++ '\n' :: unlines (ls.map Line.render ++
            (rest.map (secLines M)).flatten)) = true
        exact strStartsWith_append _ _
      | Generic t ls =>
        obtain ⟨-, hpre⟩ := hok
        show strStartsWith (str "[Script Info]")
          (('[' :: (t ++ [']'])) ++ '\n' :: unlines (ls.map Line.render ++
            (rest.map (secLines M)).flatten)) = true
        exact strStartsWith_prefix_append hpre _
      | Styles ss => exact False.elim hok
      | Events es => exact False.elim hok

/-- `stylesLists` distributes over section concatenation. -/
theorem stylesLists_append {M : F32Model} (A B : List (Section M)) :
    stylesLists ⟨A ++ B⟩ = stylesLists ⟨A⟩ ++ stylesLists ⟨B⟩ :=
  List.filterMap_append A B _

/-- `eventsLists` distributes over section concatenation. -/
theorem eventsLists_append {M : F32Model} (A B : List (Section M)) :
    eventsLists ⟨A ++ B⟩ = eventsLists ⟨A⟩ ++ eventsLists ⟨B⟩ :=
  List.filterMap_append A B _

/-- Absorbing sections contribute no styles. -/
theorem stylesLists_absorbing {M : F32Model} :
    ∀ (A : List (Section M)), (∀ s ∈ A, absorbing s) → stylesLists ⟨A⟩ = [] := by
  intro A
  induction A with
  | nil => intro _; rfl
  | cons s A ih =>
    intro h
    have hs := h s (List.mem_cons_self _ _)
    have hA := ih (fun x hx => h x (List.mem_cons_of_mem _ hx))
    cases s with
    | ScriptInfo ls => exact hA
    | Generic t ls => exact hA
    | Styles ss => exact False.elim hs
    | Events es => exact False.elim hs

/-- Absorbing sections contribute no events. -/
theorem eventsLists_absorbing {M : F32Model} :
    ∀ (A : List (Section M)), (∀ s ∈ A, absorbing s) → eventsLists ⟨A⟩ = [] := by
  intro A
  induction A with
  | nil => intro _; rfl
  | cons s A ih =>
    intro h
    have hs := h s (List.mem_cons_self _ _)
    have hA := ih (fun x hx => h x (List.mem_cons_of_mem _ hx))
    cases s with
    | ScriptInfo ls => exact hA
    | Generic t ls => exact hA
    | Styles ss => exact False.elim hs
    | Events es => exact False.elim hs

/-- Re-parsing the serialized blocks of a list of well-formed sections
succeeds (from any prior state) and reproduces the Styles and Events
contents exactly, position for position. -/
theorem runLines_reparse_doc {M : F32Model} (mode : Bool)
    (hrt : FRoundtrip M) (hnc : FNoComma M) :
    ∀ (L : List (Section M)) (n : Nat) (secs0 : List (Section M)),
      (∀ s ∈ L, SecWF mode s) → (∀ s ∈ L, SecEventRT s) →
      ∃ R : List (Section M),
        runLines M mode n (((L.map (secLines M)).flatten).map stripCR) secs0 =
          .ok (R ++ secs0) ∧
        stylesLists ⟨R.reverse⟩ = stylesLists ⟨L⟩ ∧
        eventsLists ⟨R.reverse⟩ = eventsLists ⟨L⟩ := by
  intro L
  induction L with
  | nil =>
    intro n secs0 _ _
    exact ⟨[], runLines_nil M mode n secs0, rfl, rfl⟩
  | cons A L ih =>
    intro n secs0 hwf hrt'
    have hsplit : (((A :: L).map (secLines M)).flatten).map stripCR =
        (secLines M A).map stripCR ++
          ((L.map (secLines M)).flatten).map stripCR := by
      rw [show ((A :: L).map (secLines M)).flatten =
        secLines M A ++ (L.map (secLines M)).flatten from by
          rw [List.map_cons, List.flatten_cons], List.map_append]
    cases A with
    | ScriptInfo ls =>
      have hA := hwf _ (List.mem_cons_self _ _)
      obtain ⟨news, hne, habs, hrun1⟩ := runLines_siBlock_absorb mode ls
        (fun l hl => (hA l hl).1) (fun l hl => (hA l hl).2) n secs0
      obtain ⟨R2, hrun3, hsty2, hev2⟩ := ih
        (n + ((secLines M (Section.ScriptInfo ls)).map stripCR).length)
        (news ++ secs0)
        (fun s hs => hwf s (List.mem_cons_of_mem _ hs))
        (fun s hs => hrt' s (List.mem_cons_of_mem _ hs))
      refine ⟨R2 ++ news, ?_, ?_, ?_⟩
      · rw [hsplit, runLines_append, hrun1]
        show runLines M mode
          (n + ((secLines M (Section.ScriptInfo ls)).map stripCR).length)
          (((L.map (secLines M)).flatten).map stripCR) (news ++ secs0) = _
        rw [hrun3, List.append_assoc]
      · rw [List.reverse_append, stylesLists_append,
          stylesLists_absorbing news.reverse
            (fun s hs => habs s (List.mem_reverse.mp hs)),
          List.nil_append, hsty2]
        rfl
      · rw [List.reverse_append, eventsLists_append,
          eventsLists_absorbing news.reverse
            (fun s hs => habs s (List.mem_reverse.mp hs)),
          List.nil_append, hev2]
        rfl
    | Generic t ls =>
      have hA := hwf _ (List.mem_cons_self _ _)
      obtain ⟨hlinv, hnt, hgsi, hgst, hgev⟩ := hA
      obtain ⟨news, hne, habs, hrun1⟩ := runLines_genericBlock_absorb mode t ls
        hlinv hgsi hgst hgev n secs0
      obtain ⟨R2, hrun3, hsty2, hev2⟩ := ih
        (n + ((secLines M (Section.Generic t ls)).map stripCR).length)
        (news ++ secs0)
        (fun s hs => hwf s (List.mem_cons_of_mem _ hs))
        (fun s hs => hrt' s (List.mem_cons_of_mem _ hs))
      refine ⟨R2 ++ news, ?_, ?_, ?_⟩
      · rw [hsplit, runLines_append, hrun1]
        show runLines M mode
          (n + ((secLines M (Section.Generic t ls)).map stripCR).length)
          (((L.map (secLines M)).flatten).map stripCR) (news ++ secs0) = _
        rw [hrun3, List.append_assoc]
      · rw [List.reverse_append, stylesLists_append,
          stylesLists_absorbing news.reverse
            (fun s hs => habs s (List.mem_reverse.mp hs)),
          List.nil_append, hsty2]
        rfl
      · rw [List.reverse_append, eventsLists_append,
          eventsLists_absorbing news.reverse
            (fun s hs => habs s (List.mem_reverse.mp hs)),
          List.nil_append, hev2]
        rfl
    | Styles ss =>
      have hA := hwf _ (List.mem_cons_self _ _)
      obtain ⟨R', hrun2, hsty, hev⟩ := ih
        (n + ((secLines M (Section.Styles ss)).map stripCR).length)
        (Section.Styles ⟨canonStylesFormat, ss.styles⟩ :: secs0)
        (fun s hs => hwf s (List.mem_cons_of_mem _ hs))
        (fun s hs => hrt' s (List.mem_cons_of_mem _ hs))
      refine ⟨R' ++ [Section.Styles ⟨canonStylesFormat, ss.styles⟩], ?_, ?_, ?_⟩
      · rw [hsplit, runLines_append,
          runLines_stylesBlock mode hrt hnc ss hA n secs0]
        show runLines M mode
          (n + ((secLines M (Section.Styles ss)).map stripCR).length)
          (((L.map (secLines M)).flatten).map stripCR)
          (Section.Styles ⟨canonStylesFormat, ss.styles⟩ :: secs0) = _
        rw [hrun2, List.append_assoc]
        rfl
      · rw [List.reverse_append]
        show stylesLists ⟨Section.Styles ⟨canonStylesFormat, ss.styles⟩ ::
          R'.reverse⟩ = stylesLists ⟨Section.Styles ss :: L⟩
        show ss.styles :: stylesLists ⟨R'.reverse⟩ =
          ss.styles :: stylesLists ⟨L⟩
        rw [hsty]
      · rw [List.reverse_append]
        show eventsLists ⟨Section.Styles ⟨canonStylesFormat, ss.styles⟩ ::
          R'.reverse⟩ = eventsLists ⟨Section.Styles ss :: L⟩
        show eventsLists ⟨R'.reverse⟩ = eventsLists ⟨L⟩
        rw [hev]
    | Events es =>
      have hA := hwf _ (List.mem_cons_self _ _)
      have hArt := hrt' _ (List.mem_cons_self _ _)
      obtain ⟨R', hrun2, hsty, hev⟩ := ih
        (n + ((secLines M (Section.Events es)).map stripCR).length)
        (Section.Events ⟨canonEventsFormat, es.events⟩ :: secs0)
        (fun s hs => hwf s (List.mem_cons_of_mem _ hs))
        (fun s hs => hrt' s (List.mem_cons_of_mem _ hs))
      refine ⟨R' ++ [Section.Events ⟨canonEventsFormat, es.events⟩], ?_, ?_, ?_⟩
      · rw [hsplit, runLines_append,
          runLines_eventsBlock mode es hA hArt n secs0]
        show runLines M mode
          (n + ((secLines M (Section.Events es)).map stripCR).length)
          (((L.map (secLines M)).flatten).map stripCR)
          (Section.Events ⟨canonEventsFormat, es.events⟩ :: secs0) = _
        rw [hrun2, List.append_assoc]
        rfl
      · rw [List.reverse_append]
        show stylesLists ⟨Section.Events ⟨canonEventsFormat, es.events⟩ ::
          R'.reverse⟩ = stylesLists ⟨Section.Events es :: L⟩
        show stylesLists ⟨R'.reverse⟩ = stylesLists ⟨L⟩
        rw [hsty]
      · rw [List.reverse_append]
        show eventsLists ⟨Section.Events ⟨canonEventsFormat, es.events⟩ ::
          R'.reverse⟩ = eventsLists ⟨Section.Events es :: L⟩
        show es.events :: eventsLists ⟨R'.reverse⟩ =
          es.events :: eventsLists ⟨L⟩
        rw [hev]

/-- C1 (amended): serialize-then-re-parse reproduces every Styles and
Events field position for position for every successfully parsed document
whose events satisfy the extra side conditions: the non-final string fields
(style, speaker name, effect) contain no comma and the free-text body does
not end in a carriage return — the f32 codec is assumed to satisfy its
documented roundtrip contract and to render without separators or
newlines.  The claim as frozen (which asserts this for EVERY parsed
document, including ones parsed under a nonstandard or reordered Format
line) is false: a custom Format can make a comma-containing value land in
its final field, and the canonical serialization order then splits that
value at its comma on re-parse. -/
theorem claim_C1 {M : F32Model} (mode : Bool) (input : Str) (D : Ass M)
    (hok : parseAss M mode input = .ok D)
    (hfr : FRoundtrip M) (hfc : FNoComma M) (hfn : FNoNewline M)
    (hevrt : ∀ s ∈ D.sections, SecEventRT s) :
    ∃ D' : Ass M, parseAss M mode D.saveToWriter = .ok D' ∧
      stylesLists D' = stylesLists D ∧ eventsLists D' = eventsLists D := by
  cases mode with
  | true =>
    have hok' : Ass.fromStr M input = .ok D := hok
    obtain ⟨hwf, hhead⟩ := fromStr_DocWF hok'
    have hgate := saveToWriter_gate hhead
    have hlines : rustLines D.saveToWriter =
        ((D.sections.map (secLines M)).flatten).map stripCR := by
      show rustLines (unlines ((D.sections.map (secLines M)).flatten)) = _
      apply rustLines_unlines
      intro l hl
      rw [List.mem_flatten] at hl
      obtain ⟨ll, hll, hl2⟩ := hl
      rw [List.mem_map] at hll
      obtain ⟨sec, hsec, rfl⟩ := hll
      exact secLines_no_nl hfn (hwf sec hsec) l hl2
    obtain ⟨R, hrun, hsty, hev⟩ := runLines_reparse_doc true hfr hfc
      D.sections 1 [] hwf hevrt
    refine ⟨⟨R.reverse⟩, ?_, ?_, ?_⟩
    · show Ass.fromStr M D.saveToWriter = .ok ⟨R.reverse⟩
      rw [fromStr_unfold, if_pos hgate, hlines,
        show runLines M true 1 (((D.sections.map (secLines M)).flatten).map
          stripCR) [] = .ok R from by rw [hrun, List.append_nil]]
    · rw [hsty]
    · rw [hev]
  | false =>
    obtain ⟨Dsecs⟩ := D
    have hok' : Ass.fromReader M input = .ok ⟨Dsecs⟩ := hok
    obtain ⟨⟨hwf, hhead⟩, htail⟩ := fromReader_DocWF hok'
    cases Dsecs with
    | nil => exact False.elim hhead
    | cons s0 rest =>
      cases s0 with
      | Generic t ls => exact Bool.noConfusion hhead.1
      | Styles ss => exact False.elim hhead
      | Events es => exact False.elim hhead
      | ScriptInfo ls0 =>
        have hS0 : SecWF false (Section.ScriptInfo ls0) :=
          hwf _ (List.mem_cons_self _ _)
        have hrest_wf : ∀ s ∈ rest, SecWF false s :=
          fun s hs => hwf s (List.mem_cons_of_mem _ hs)
        have hrest_rt : ∀ s ∈ rest, SecEventRT s :=
          fun s hs => hevrt s (List.mem_cons_of_mem _ hs)
        have hlam : (ls0.map Line.render).map stripCR =
            ls0.map (fun l => stripCR (Line.render l)) := by
          rw [List.map_map]
          rfl
        have hbody : rustLines (unlines (ls0.map Line.render ++
            ((rest.map (secLines M)).flatten))) =
            ls0.map (fun l => stripCR (Line.render l)) ++
              ((rest.map (secLines M)).flatten).map stripCR := by
          rw [rustLines_unlines, List.map_append, hlam]
          intro l hl
          rcases List.mem_append.mp hl with hl | hl
          · rw [List.mem_map] at hl
            obtain ⟨l0, hl0, rfl⟩ := hl
            exact ((hS0 l0 hl0).1).2.1
          · rw [List.mem_flatten] at hl
            obtain ⟨ll, hll, hl2⟩ := hl
            rw [List.mem_map] at hll
            obtain ⟨sec, hsec, rfl⟩ := hll
            exact secLines_no_nl hfn (hrest_wf sec hsec) l hl2
        obtain ⟨news, hne, habs, hrun1⟩ := runLines_absorb false ls0 2
          (Section.ScriptInfo []) []
          trivial (fun l hl => (hS0 l hl).1)
          (fun _ l hl => (hS0 l hl).2)
        obtain ⟨R, hrun2, hsty, hev⟩ := runLines_reparse_doc false hfr hfc
          rest (2 + (ls0.map (fun l => stripCR (Line.render l))).length) news
          hrest_wf hrest_rt
        have hrunTotal : runLines M false 2
            (ls0.map (fun l => stripCR (Line.render l)) ++
              ((rest.map (secLines M)).flatten).map stripCR)
            [Section.ScriptInfo []] = .ok (R ++ news) := by
          rw [runLines_append, hrun1]
          show runLines M false
            (2 + (ls0.map (fun l => stripCR (Line.render l))).length)
            (((rest.map (secLines M)).flatten).map stripCR) (news ++ []) =
            .ok (R ++ news)
          rw [List.append_nil, hrun2]
        refine ⟨⟨(R ++ news).reverse⟩, ?_, ?_, ?_⟩
        · show Ass.fromReader M
            (Ass.saveToWriter ⟨Section.ScriptInfo ls0 :: rest⟩) =
            .ok ⟨(R ++ news).reverse⟩
          rw [show Ass.saveToWriter
              (⟨Section.ScriptInfo ls0 :: rest⟩ : Ass M) =
              str "[Script Info]" ++ '\n' :: unlines (ls0.map Line.render ++
                ((rest.map (secLines M)).flatten)) from rfl,
            fromReader_split M (str "[Script Info]") _ (by decide),
            if_pos (by decide), hbody, hrunTotal]
        · rw [List.reverse_append, stylesLists_append,
            stylesLists_absorbing news.reverse
              (fun s hs => habs s (List.mem_reverse.mp hs)),
            List.nil_append, hsty]
          rfl
        · rw [List.reverse_append, eventsLists_append,
            eventsLists_absorbing news.reverse
              (fun s hs => habs s (List.mem_reverse.mp hs)),
            List.nil_append, hev]
          rfl

set_option maxRecDepth 10000 in
/-- C1, refutation of the frozen universal form: the input declares the
nonstandard Format line `Format: Effect` in its Events section, so the row
`Dialogue: x,y` stores the full remainder `"x,y"` in the effect field; the
serializer emits the row under the canonical ten-field format, and on
re-parse the comma splits the value, leaving effect `"x"` and text `"y,"`
— the effect field of the re-parsed event differs from the original. -/
theorem claim_C1_counterexample :
    Ass.fromStr natFloat
        (str "[Script Info]\n[Events]\nFormat: Effect\nDialogue: x,y") =
      .ok ⟨[.ScriptInfo [], .Events ⟨[str "Effect"],
        [{ Event.defaultEvent with effect := str "x,y" }]⟩]⟩ ∧
    Ass.fromStr natFloat
        (Ass.saveToWriter (⟨[.ScriptInfo [], .Events ⟨[str "Effect"],
          [{ Event.defaultEvent with effect := str "x,y" }]⟩]⟩ :
          Ass natFloat)) =
      .ok ⟨[.ScriptInfo [], .Events ⟨canonEventsFormat,
        [{ Event.defaultEvent with effect := str "x", text := str "y," }]⟩]⟩ ∧
    ({ Event.defaultEvent with effect := str "x", text := str "y," } :
        Event) ≠ { Event.defaultEvent with effect := str "x,y" } :=
  ⟨rfl, rfl, by decide⟩

set_option maxRecDepth 10000 in
/-- Closed instantiation of `claim_C1`: a whole-string parse of a document
with one style and one event, whose events satisfy the side conditions;
the hypotheses are discharged at the concrete input. -/
theorem claim_C1_witness :
    parseAss natFloat true
        (str "[Script Info]\n[V4+ Styles]\nFormat: Name\nStyle: A\n[Events]\nFormat: Text\nDialogue: hi") =
      .ok ⟨[.ScriptInfo [],
        .Styles ⟨[str "Name"],
          [{ Style.defaultStyle natFloat with name := str "A" }]⟩,
        .Events ⟨[str "Text"],
          [{ Event.defaultEvent with text := str "hi" }]⟩]⟩ ∧
    (∃ D' : Ass natFloat,
      parseAss natFloat true
          (Ass.saveToWriter (⟨[.ScriptInfo [],
            .Styles ⟨[str "Name"],
              [{ Style.defaultStyle natFloat with name := str "A" }]⟩,
            .Events ⟨[str "Text"],
              [{ Event.defaultEvent with text := str "hi" }]⟩]⟩ :
            Ass natFloat)) = .ok D' ∧
        stylesLists D' = stylesLists (⟨[.ScriptInfo [],
            .Styles ⟨[str "Name"],
              [{ Style.defaultStyle natFloat with name := str "A" }]⟩,
            .Events ⟨[str "Text"],
              [{ Event.defaultEvent with text := str "hi" }]⟩]⟩ :
            Ass natFloat) ∧
        eventsLists D' = eventsLists (⟨[.ScriptInfo [],
            .Styles ⟨[str "Name"],
              [{ Style.defaultStyle natFloat with name := str "A" }]⟩,
            .Events ⟨[str "Text"],
              [{ Event.defaultEvent with text := str "hi" }]⟩]⟩ :
            Ass natFloat)) :=
  ⟨rfl,
    claim_C1 true
      (str "[Script Info]\n[V4+ Styles]\nFormat: Name\nStyle: A\n[Events]\nFormat: Text\nDialogue: hi")
      ⟨[.ScriptInfo [],
        .Styles ⟨[str "Name"],
          [{ Style.defaultStyle natFloat with name := str "A" }]⟩,
        .Events ⟨[str "Text"],
          [{ Event.defaultEvent with text := str "hi" }]⟩]⟩
      rfl natFloat_roundtrip natFloat_noComma natFloat_noNewline
      (by
        intro s hs
        rcases List.mem_cons.mp hs with rfl | hs
        · trivial
        rcases List.mem_cons.mp hs with rfl | hs
        · trivial
        rcases List.mem_cons.mp hs with rfl | hs
        · intro ev hev
          rcases List.mem_cons.mp hev with rfl | hev
          · exact ⟨by decide, by decide, by decide, by decide⟩
          · exact absurd hev (List.not_mem_nil _)
        · exact absurd hs (List.not_mem_nil _))⟩

/-- Step: in whole-string mode a `[Script Info]` line opens a fresh
ScriptInfo section. -/
theorem runStep_si_header (M : F32Model) (n : Nat) (secs : List (Section M)) :
    runStep M true n (str "[Script Info]") secs =
      .ok (Section.ScriptInfo [] :: secs) := by
  unfold runStep
  rw [if_pos ⟨rfl, rfl⟩]

/-- Re-parsing the serialized block of one section yields exactly the
canonicalized section pushed on the state, provided the section is
well-formed, its events satisfy the roundtrip side conditions, none of its
stored lines ends in a carriage return, and a ScriptInfo section occurs
only in whole-string mode. -/
theorem runLines_block_exact {M : F32Model} (mode : Bool) (hrt : FRoundtrip M)
    (hnc : FNoComma M) (s : Section M) (hwf : SecWF mode s)
    (hevrt : SecEventRT s) (hcr : SecNoCR s) (hsi : isSI s → mode = true)
    (n : Nat) (secs : List (Section M)) :
    runLines M mode n ((secLines M s).map stripCR) secs =
      .ok (canonSec s :: secs) := by
  cases s with
  | Styles ss => exact runLines_stylesBlock mode hrt hnc ss hwf n secs
  | Events es => exact runLines_eventsBlock mode es hwf hevrt n secs
  | ScriptInfo ls =>
    have hm : mode = true := hsi trivial
    subst hm
    have hlines : (secLines M (Section.ScriptInfo ls)).map stripCR =
        str "[Script Info]" :: ls.map Line.render := by
      show (str "[Script Info]" :: ls.map Line.render).map stripCR = _
      apply map_stripCR_id
      intro x hx
      rcases List.mem_cons.mp hx with rfl | hx
      · intro hc
        exact absurd (Option.some.inj hc) (by decide)
      · rw [List.mem_map] at hx
        obtain ⟨l, hl, rfl⟩ := hx
        exact hcr l hl
    rw [hlines, runLines_cons_ok (runStep_si_header M n secs),
      runLines_si_exact true ls (n + 1) [] secs
        (fun l hl => (hwf l hl).1) (fun l hl => (hwf l hl).2),
      List.nil_append]
    rfl
  | Generic t ls =>
    obtain ⟨hinv, hnl, hns, hnv, hne⟩ := hwf
    have hwne : (t ++ [']'] : Str) ≠ [] := by
      intro hc
      exact absurd (List.append_eq_nil.mp hc).2 (by decide)
    have hlines : (secLines M (Section.Generic t ls)).map stripCR =
        ('[' :: (t ++ [']'])) :: ls.map Line.render := by
      show (('[' :: (t ++ [']'])) :: ls.map Line.render).map stripCR = _
      apply map_stripCR_id
      intro x hx
      rcases List.mem_cons.mp hx with rfl | hx
      · rw [getLast?_cons_ne_nil hwne, List.getLast?_concat]
        intro hc
        exact absurd (Option.some.inj hc) (by decide)
      · rw [List.mem_map] at hx
        obtain ⟨l, hl, rfl⟩ := hx
        exact hcr l hl
    have h1 : ¬ (mode = true ∧
        ('[' :: (t ++ [']']) : Str) = str "[Script Info]") := by
      rintro ⟨hm, he⟩
      exact hns hm (wrap_inj (he.trans (by decide)))
    have h2 : ('[' :: (t ++ [']']) : Str) ≠ str "[V4+ Styles]" := by
      intro he
      exact hnv (wrap_inj (he.trans (by decide)))
    have h3 : ('[' :: (t ++ [']']) : Str) ≠ str "[Events]" := by
      intro he
      exact hne (wrap_inj (he.trans (by decide)))
    rw [hlines, runLines_cons_ok (runStep_generic2 M mode n t secs h1 h2 h3),
      runLines_generic_exact mode ls (n + 1) t [] secs hinv,
      List.nil_append]
    rfl

/-- Re-parsing the serialized lines of a list of sections satisfying the
exactness side conditions reproduces exactly the canonicalized sections,
reversed on top of the state. -/
theorem runLines_reparse_exact {M : F32Model} (mode : Bool)
    (hrt : FRoundtrip M) (hnc : FNoComma M) :
    ∀ (L : List (Section M)) (n : Nat) (secs0 : List (Section M)),
      (∀ s ∈ L, SecWF mode s) → (∀ s ∈ L, SecEventRT s) →
      (∀ s ∈ L, SecNoCR s) → (∀ s ∈ L, isSI s → mode = true) →
      runLines M mode n (((L.map (secLines M)).flatten).map stripCR) secs0 =
        .ok ((L.map canonSec).reverse ++ secs0) := by
  intro L
  induction L with
  | nil => intro n secs0 _ _ _ _; rfl
  | cons s L ih =>
    intro n secs0 hwf hevrt hcr hsi
    have hflat : (((s :: L).map (secLines M)).flatten).map stripCR =
        (secLines M s).map stripCR ++
          ((L.map (secLines M)).flatten).map stripCR := by
      rw [show ((s :: L).map (secLines M)).flatten =
        secLines M s ++ (L.map (secLines M)).flatten from rfl, List.map_append]
    rw [hflat, runLines_append,
      runLines_block_exact mode hrt hnc s (hwf _ (List.mem_cons_self _ _))
        (hevrt _ (List.mem_cons_self _ _)) (hcr _ (List.mem_cons_self _ _))
        (hsi _ (List.mem_cons_self _ _)) n secs0]
    show runLines M mode (n + ((secLines M s).map stripCR).length)
        (((L.map (secLines M)).flatten).map stripCR) (canonSec s :: secs0) =
      .ok (((s :: L).map canonSec).reverse ++ secs0)
    rw [ih (n + ((secLines M s).map stripCR).length) (canonSec s :: secs0)
        (fun x hx => hwf x (List.mem_cons_of_mem _ hx))
        (fun x hx => hevrt x (List.mem_cons_of_mem _ hx))
        (fun x hx => hcr x (List.mem_cons_of_mem _ hx))
        (fun x hx => hsi x (List.mem_cons_of_mem _ hx)),
      show ((s :: L).map canonSec).reverse =
        (L.map canonSec).reverse ++ [canonSec s] from by
          rw [List.map_cons, List.reverse_cons],
      List.append_assoc]
    rfl

set_option maxRecDepth 4000 in
/-- The serializer does not distinguish a section from its canonicalized
form: the stored format list is ignored on output. -/
theorem secLines_canonSec {M : F32Model} (s : Section M) :
    secLines M (canonSec s) = secLines M s := by
  cases s <;> rfl

/-- C2 (amended): for a successfully parsed document, serializing,
re-parsing the produced bytes, and serializing again reproduces the bytes
exactly, under the side conditions that the events satisfy the roundtrip
conditions, no stored ScriptInfo/Generic line ends in a carriage return,
and the f32 codec honours its contracts.  The claim as frozen (an
unconditional fixed point) is false: the re-parse strips one trailing
carriage return per line, so a stored line ending in `\r` (parseable from
an input line ending in `\r\r`) loses a byte on the second serialization. -/
theorem claim_C2 {M : F32Model} (mode : Bool) (input : Str) (D : Ass M)
    (hok : parseAss M mode input = .ok D)
    (hfr : FRoundtrip M) (hfc : FNoComma M) (hfn : FNoNewline M)
    (hevrt : ∀ s ∈ D.sections, SecEventRT s)
    (hcr : ∀ s ∈ D.sections, SecNoCR s) :
    ∃ D' : Ass M, parseAss M mode D.saveToWriter = .ok D' ∧
      D'.saveToWriter = D.saveToWriter := by
  cases mode with
  | true =>
    have hok' : Ass.fromStr M input = .ok D := hok
    obtain ⟨hwf, hhead⟩ := fromStr_DocWF hok'
    have hgate := saveToWriter_gate hhead
    have hlines : rustLines D.saveToWriter =
        ((D.sections.map (secLines M)).flatten).map stripCR := by
      show rustLines (unlines ((D.sections.map (secLines M)).flatten)) = _
      apply rustLines_unlines
      intro l hl
      rw [List.mem_flatten] at hl
      obtain ⟨ll, hll, hl2⟩ := hl
      rw [List.mem_map] at hll
      obtain ⟨sec, hsec, rfl⟩ := hll
      exact secLines_no_nl hfn (hwf sec hsec) l hl2
    have hrun := runLines_reparse_exact true hfr hfc D.sections 1 []
      hwf hevrt hcr (fun _ _ _ => rfl)
    have hmc : (D.sections.map canonSec).map (secLines M) =
        D.sections.map (secLines M) := by
      rw [List.map_map]
      exact List.map_congr_left (fun s _ => secLines_canonSec s)
    refine ⟨⟨D.sections.map canonSec⟩, ?_, ?_⟩
    · show Ass.fromStr M D.saveToWriter = .ok ⟨D.sections.map canonSec⟩
      rw [fromStr_unfold, if_pos hgate, hlines, hrun]
      show Except.ok ⟨((D.sections.map canonSec).reverse ++ []).reverse⟩ =
        (.ok ⟨D.sections.map canonSec⟩ : Except AssError (Ass M))
      rw [List.append_nil, List.reverse_reverse]
    · show unlines (((D.sections.map canonSec).map (secLines M)).flatten) =
        unlines ((D.sections.map (secLines M)).flatten)
      rw [hmc]
  | false =>
    obtain ⟨Dsecs⟩ := D
    have hok' : Ass.fromReader M input = .ok ⟨Dsecs⟩ := hok
    obtain ⟨⟨hwf, hhead⟩, htail⟩ := fromReader_DocWF hok'
    cases Dsecs with
    | nil => exact False.elim hhead
    | cons s0 rest =>
      cases s0 with
      | Generic t ls => exact Bool.noConfusion hhead.1
      | Styles ss => exact False.elim hhead
      | Events es => exact False.elim hhead
      | ScriptInfo ls0 =>
        have hS0 : SecWF false (Section.ScriptInfo ls0) :=
          hwf _ (List.mem_cons_self _ _)
        have hC0 : SecNoCR (Section.ScriptInfo ls0) :=
          hcr _ (List.mem_cons_self _ _)
        have hrest_wf : ∀ s ∈ rest, SecWF false s :=
          fun s hs => hwf s (List.mem_cons_of_mem _ hs)
        have hrest_rt : ∀ s ∈ rest, SecEventRT s :=
          fun s hs => hevrt s (List.mem_cons_of_mem _ hs)
        have hrest_cr : ∀ s ∈ rest, SecNoCR s :=
          fun s hs => hcr s (List.mem_cons_of_mem _ hs)
        have hrest_si : ∀ s ∈ rest, isSI s → false = true :=
          fun s hs h => absurd h (htail s hs)
        have hbody0 : (ls0.map Line.render).map stripCR =
            ls0.map Line.render := by
          apply map_stripCR_id
          intro x hx
          rw [List.mem_map] at hx
          obtain ⟨l, hl, rfl⟩ := hx
          exact hC0 l hl
        have hbody : rustLines (unlines (ls0.map Line.render ++
            ((rest.map (secLines M)).flatten))) =
            ls0.map Line.render ++
              ((rest.map (secLines M)).flatten).map stripCR := by
          rw [rustLines_unlines, List.map_append, hbody0]
          intro l hl
          rcases List.mem_append.mp hl with hl | hl
          · rw [List.mem_map] at hl
            obtain ⟨l0, hl0, rfl⟩ := hl
            exact ((hS0 l0 hl0).1).2.1
          · rw [List.mem_flatten] at hl
            obtain ⟨ll, hll, hl2⟩ := hl
            rw [List.mem_map] at hll
            obtain ⟨sec, hsec, rfl⟩ := hll
            exact secLines_no_nl hfn (hrest_wf sec hsec) l hl2
        have hrunTotal : runLines M false 2
            (ls0.map Line.render ++
              ((rest.map (secLines M)).flatten).map stripCR)
            [Section.ScriptInfo []] =
            .ok ((rest.map canonSec).reverse ++
              [Section.ScriptInfo ls0]) := by
          rw [runLines_append,
            runLines_si_exact false ls0 2 [] []
              (fun l hl => (hS0 l hl).1) (fun l hl => (hS0 l hl).2)]
          show runLines M false (2 + (ls0.map Line.render).length)
              (((rest.map (secLines M)).flatten).map stripCR)
              (Section.ScriptInfo ([] ++ ls0) :: []) = _
          rw [List.nil_append]
          exact runLines_reparse_exact false hfr hfc rest
            (2 + (ls0.map Line.render).length) [Section.ScriptInfo ls0]
            hrest_wf hrest_rt hrest_cr hrest_si
        have hsections :
            (((rest.map canonSec).reverse ++ [Section.ScriptInfo ls0]) :
              List (Section M)).reverse =
              Section.ScriptInfo ls0 :: rest.map canonSec := by
          rw [List.reverse_append, List.reverse_reverse]
          rfl
        have hmc : (rest.map canonSec).map (secLines M) =
            rest.map (secLines M) := by
          rw [List.map_map]
          exact List.map_congr_left (fun s _ => secLines_canonSec s)
        refine ⟨⟨Section.ScriptInfo ls0 :: rest.map canonSec⟩, ?_, ?_⟩
        · show Ass.fromReader M
            (Ass.saveToWriter ⟨Section.ScriptInfo ls0 :: rest⟩) =
            .ok ⟨Section.ScriptInfo ls0 :: rest.map canonSec⟩
          rw [show Ass.saveToWriter
              (⟨Section.ScriptInfo ls0 :: rest⟩ : Ass M) =
              str "[Script Info]" ++ '\n' :: unlines (ls0.map Line.render ++
                ((rest.map (secLines M)).flatten)) from rfl,
            fromReader_split M (str "[Script Info]") _ (by decide),
            if_pos (by decide), hbody, hrunTotal]
          show Except.ok ⟨((rest.map canonSec).reverse ++
              [Section.ScriptInfo ls0]).reverse⟩ =
            (.ok ⟨Section.ScriptInfo ls0 :: rest.map canonSec⟩ :
              Except AssError (Ass M))
          rw [hsections]
        · show unlines ((secLines M (Section.ScriptInfo ls0) ::
              (rest.map canonSec).map (secLines M)).flatten) =
            unlines ((secLines M (Section.ScriptInfo ls0) ::
              rest.map (secLines M)).flatten)
          rw [hmc]

set_option maxRecDepth 10000 in
/-- C2, refutation of the frozen unconditional form: the input line
`Title: a\r\r` stores the line `Title: a\r` (the splitter strips exactly
one trailing carriage return); the first serialization emits that byte,
but re-parsing strips it again, so the second serialization is one byte
shorter than the first. -/
theorem claim_C2_counterexample :
    Ass.fromStr natFloat (str "[Script Info]\nTitle: a\r\r\n") =
      .ok ⟨[.ScriptInfo [Line.Variable (str "Title: a\r")]]⟩ ∧
    Ass.fromStr natFloat
        (Ass.saveToWriter
          (⟨[.ScriptInfo [Line.Variable (str "Title: a\r")]]⟩ :
            Ass natFloat)) =
      .ok ⟨[.ScriptInfo [Line.Variable (str "Title: a")]]⟩ ∧
    Ass.saveToWriter (⟨[.ScriptInfo [Line.Variable (str "Title: a")]]⟩ :
        Ass natFloat) ≠
      Ass.saveToWriter
        (⟨[.ScriptInfo [Line.Variable (str "Title: a\r")]]⟩ : Ass natFloat) :=
  ⟨rfl, rfl, by decide⟩

set_option maxRecDepth 10000 in
/-- Closed instantiation of `claim_C2`: a whole-string parse of a document
with one style and one event satisfying the side conditions; re-parsing
the serialized bytes and serializing again reproduces them. -/
theorem claim_C2_witness :
    parseAss natFloat true
        (str "[Script Info]\n[V4+ Styles]\nFormat: Name\nStyle: A\n[Events]\nFormat: Text\nDialogue: hi") =
      .ok ⟨[.ScriptInfo [],
        .Styles ⟨[str "Name"],
          [{ Style.defaultStyle natFloat with name := str "A" }]⟩,
        .Events ⟨[str "Text"],
          [{ Event.defaultEvent with text := str "hi" }]⟩]⟩ ∧
    (∃ D' : Ass natFloat,
      parseAss natFloat true
          (Ass.saveToWriter (⟨[.ScriptInfo [],
            .Styles ⟨[str "Name"],
              [{ Style.defaultStyle natFloat with name := str "A" }]⟩,
            .Events ⟨[str "Text"],
              [{ Event.defaultEvent with text := str "hi" }]⟩]⟩ :
            Ass natFloat)) = .ok D' ∧
        Ass.saveToWriter D' =
          Ass.saveToWriter (⟨[.ScriptInfo [],
            .Styles ⟨[str "Name"],
              [{ Style.defaultStyle natFloat with name := str "A" }]⟩,
            .Events ⟨[str "Text"],
              [{ Event.defaultEvent with text := str "hi" }]⟩]⟩ :
            Ass natFloat)) :=
  ⟨rfl,
    claim_C2 true
      (str "[Script Info]\n[V4+ Styles]\nFormat: Name\nStyle: A\n[Events]\nFormat: Text\nDialogue: hi")
      ⟨[.ScriptInfo [],
        .Styles ⟨[str "Name"],
          [{ Style.defaultStyle natFloat with name := str "A" }]⟩,
        .Events ⟨[str "Text"],
          [{ Event.defaultEvent with text := str "hi" }]⟩]⟩
      rfl natFloat_roundtrip natFloat_noComma natFloat_noNewline
      (by
        intro s hs
        rcases List.mem_cons.mp hs with rfl | hs
        · trivial
        rcases List.mem_cons.mp hs with rfl | hs
        · trivial
        rcases List.mem_cons.mp hs with rfl | hs
        · intro ev hev
          rcases List.mem_cons.mp hev with rfl | hev
          · exact ⟨by decide, by decide, by decide, by decide⟩
          · exact absurd hev (List.not_mem_nil _)
        · exact absurd hs (List.not_mem_nil _))
      (by
        intro s hs
        rcases List.mem_cons.mp hs with rfl | hs
        · intro l hl
          exact absurd hl (List.not_mem_nil _)
        rcases List.mem_cons.mp hs with rfl | hs
        · trivial
        rcases List.mem_cons.mp hs with rfl | hs
        · trivial
        · exact absurd hs (List.not_mem_nil _))⟩

end SubTools
